import Mathlib

/-!
OpenLDAP: lloadd operation forwarding and slapd entry modification.

A shallow embedding of `servers/lloadd/operation.c` and `servers/slapd/mods.c`.

Conventions of the embedding:

* C pointers to heap records are addresses (`Nat`) into explicit stores; a
  pointer that may be `NULL` is an `Option`.
* A `NULL`-terminated `BerVarray` is the `List` of its elements before the
  terminator.
* Functions that can abort (a failing `assert`) or run into undefined
  behaviour (a read past the end of an array, a `NULL` dereference) return
  `Option`, with `none` for those outcomes.
* Memory allocation (`ch_calloc`, `ber_alloc`, `SLAP_REALLOC`) always succeeds.
* Locking (`ldap_pvt_thread_mutex_*`) and logging (`Debug`, the `text`
  diagnostic buffers) are not part of the embedded state.
-/

set_option autoImplicit false
set_option linter.unusedVariables false

/-! ## Part I: lloadd, `operation.c` -/

namespace Lloadd

/-- Modelled from the spec: the wire tags of `ldap.h` and `lber.h`, which are not
under `src/`; the values are the RFC 4511 tags the spec names as normative. -/
def LDAP_REQ_BIND : Nat := 0x60

/-- Modelled from the spec: UnbindRequest tag, `[APPLICATION 2]` primitive. -/
def LDAP_REQ_UNBIND : Nat := 0x42

/-- Modelled from the spec: SearchRequest tag, `[APPLICATION 3]` constructed. -/
def LDAP_REQ_SEARCH : Nat := 0x63

/-- Modelled from the spec: ModifyRequest tag, `[APPLICATION 6]` constructed. -/
def LDAP_REQ_MODIFY : Nat := 0x66

/-- Modelled from the spec: AddRequest tag, `[APPLICATION 8]` constructed. -/
def LDAP_REQ_ADD : Nat := 0x68

/-- Modelled from the spec: DelRequest tag, `[APPLICATION 10]` primitive. -/
def LDAP_REQ_DELETE : Nat := 0x4a

/-- Modelled from the spec: ModifyDNRequest tag, `[APPLICATION 12]` constructed. -/
def LDAP_REQ_MODRDN : Nat := 0x6c

/-- Modelled from the spec: CompareRequest tag, `[APPLICATION 14]` constructed. -/
def LDAP_REQ_COMPARE : Nat := 0x6e

/-- Modelled from the spec: AbandonRequest tag, `[APPLICATION 16]` primitive. -/
def LDAP_REQ_ABANDON : Nat := 0x50

/-- Modelled from the spec: ExtendedRequest tag, `[APPLICATION 23]` constructed. -/
def LDAP_REQ_EXTENDED : Nat := 0x77

/-- Modelled from the spec: BindResponse tag, `[APPLICATION 1]`. -/
def LDAP_RES_BIND : Nat := 0x61

/-- Modelled from the spec: SearchResultDone tag, `[APPLICATION 5]`. -/
def LDAP_RES_SEARCH_RESULT : Nat := 0x65

/-- Modelled from the spec: ModifyResponse tag, `[APPLICATION 7]`. -/
def LDAP_RES_MODIFY : Nat := 0x67

/-- Modelled from the spec: AddResponse tag, `[APPLICATION 9]`. -/
def LDAP_RES_ADD : Nat := 0x69

/-- Modelled from the spec: DelResponse tag, `[APPLICATION 11]`. -/
def LDAP_RES_DELETE : Nat := 0x6b

/-- Modelled from the spec: ModifyDNResponse tag, `[APPLICATION 13]`. -/
def LDAP_RES_MODRDN : Nat := 0x6d

/-- Modelled from the spec: CompareResponse tag, `[APPLICATION 15]`. -/
def LDAP_RES_COMPARE : Nat := 0x6f

/-- Modelled from the spec: ExtendedResponse tag, `[APPLICATION 24]`. -/
def LDAP_RES_EXTENDED : Nat := 0x78

/-- Modelled from the spec: universal constructed SEQUENCE tag of `lber.h`. -/
def LBER_SEQUENCE : Nat := 0x30

/-- Modelled from the spec: `lber.h` error tag, `(ber_tag_t) -1` for a 64-bit
`ber_tag_t`. -/
def LBER_ERROR : Nat := 2 ^ 64 - 1

/-- Modelled from the spec: tag of the LDAPMessage envelope, a SEQUENCE. -/
def LDAP_TAG_MESSAGE : Nat := 0x30

/-- Modelled from the spec: tag of the messageID, a universal INTEGER. -/
def LDAP_TAG_MSGID : Nat := 0x02

/-- Modelled from the spec: tag of the controls, `[0]` constructed. -/
def LDAP_TAG_CONTROLS : Nat := 0xa0

/-- Result code `LDAP_SUCCESS` of `ldap.h`, as compared with the return value of
`tavl_insert` in `operation_process`. -/
def LDAP_SUCCESS : Int := 0

/-- `slap_req2res` (operation.c 21-52): the response tag a request tag is
answered with. `tag++` is the successor on `ber_tag_t`; the six tags it is
applied to are far from the top of the range. -/
def slap_req2res (tag : Nat) : Nat :=
  if tag = LDAP_REQ_ADD ∨ tag = LDAP_REQ_BIND ∨ tag = LDAP_REQ_COMPARE
      ∨ tag = LDAP_REQ_EXTENDED ∨ tag = LDAP_REQ_MODIFY ∨ tag = LDAP_REQ_MODRDN then
    tag + 1
  else if tag = LDAP_REQ_DELETE then
    LDAP_RES_DELETE
  else if tag = LDAP_REQ_ABANDON ∨ tag = LDAP_REQ_UNBIND then
    LBER_SEQUENCE
  else if tag = LDAP_REQ_SEARCH then
    LDAP_RES_SEARCH_RESULT
  else
    LBER_SEQUENCE

/-! ### Codec, modelled at the level of elements -/

/-- Modelled from the spec: one tagged element of the read buffer of a
`BerElement` (liblber is not under `src/`): its tag and its content octets. -/
structure BerTLV where
  tag : Nat
  val : List Nat
  deriving DecidableEq, Repr

/-- Modelled from the spec: what the writer side of a `BerElement` holds (liblber
is not under `src/`): integers, octet strings under a tag, and sequences. -/
inductive BerItem where
  | int (tag : Nat) (val : Int)
  | berval (tag : Nat) (val : List Nat)
  | seq (tag : Nat) (items : List BerItem)

/-- Modelled from the spec: a `BerElement` being written (liblber is not under
`src/`): the finished elements in order and the sequences still open, innermost
first. -/
structure BerElement where
  items : List BerItem
  opened : List (Nat × List BerItem)

/-- Modelled from the spec: `ber_alloc` (liblber), a fresh empty `BerElement`. -/
def ber_alloc : BerElement := ⟨[], []⟩

/-- Modelled from the spec: appending one finished element to a `BerElement`
(liblber), inside the innermost open sequence when there is one. -/
def ber_emit (ber : BerElement) (it : BerItem) : BerElement :=
  match ber.opened with
  | [] => { ber with items := ber.items ++ [it] }
  | (t, xs) :: rest => { ber with opened := (t, xs ++ [it]) :: rest }

/-- Modelled from the spec: `ber_start_seq` (liblber) opens a sequence under
`tag`. -/
def ber_start_seq (ber : BerElement) (tag : Nat) : BerElement :=
  { ber with opened := (tag, []) :: ber.opened }

/-- Modelled from the spec: `ber_put_int` (liblber) writes an integer under
`tag`. -/
def ber_put_int (ber : BerElement) (num : Int) (tag : Nat) : BerElement :=
  ber_emit ber (.int tag num)

/-- Modelled from the spec: `ber_put_berval` (liblber) writes the octets of a
`struct berval` under `tag`; a null berval is written as the empty string. -/
def ber_put_berval (ber : BerElement) (bv : Option (List Nat)) (tag : Nat) : BerElement :=
  ber_emit ber (.berval tag (bv.getD []))

/-- Modelled from the spec: `ber_put_seq` (liblber) closes the innermost open
sequence; with none open the call fails and writes nothing. -/
def ber_put_seq (ber : BerElement) : BerElement :=
  match ber.opened with
  | [] => ber
  | (t, xs) :: rest => ber_emit { ber with opened := rest } (.seq t xs)

/-- Modelled from the spec: the two's complement value of the big-endian content
octets of an INTEGER (liblber `ber_get_int`). -/
def ber_decode_int (bs : List Nat) : Int :=
  let n : Nat := bs.foldl (fun acc b => acc * 256 + b % 256) 0
  match bs with
  | [] => 0
  | b :: _ => if 128 ≤ b % 256 then (n : Int) - (256 : Int) ^ bs.length else (n : Int)

/-- Modelled from the spec: `ber_get_int` (liblber) reads the next element as a
`ber_int_t`. It returns the element's tag and the integer, or `LBER_ERROR` and no
integer when the buffer is exhausted or the content is longer than the four
octets of a `ber_int_t`. The third component is the buffer left. -/
def ber_get_int (ber : List BerTLV) : Nat × Option Int × List BerTLV :=
  match ber with
  | [] => (LBER_ERROR, none, [])
  | e :: rest =>
    if e.val.length ≤ 4 then (e.tag, some (ber_decode_int e.val), rest)
    else (LBER_ERROR, none, e :: rest)

/-- Modelled from the spec: `ber_skip_element` (lloadd's addition to liblber)
steps over the next element and hands back its tag and its content as a
`struct berval`, or `LBER_ERROR` and nothing when there is no element to skip. -/
def ber_skip_element (ber : List BerTLV) : Nat × Option (List Nat) × List BerTLV :=
  match ber with
  | [] => (LBER_ERROR, none, [])
  | e :: rest => (e.tag, some e.val, rest)

/-- Modelled from the spec: `ber_peek_tag` (liblber), the tag of the next element
without consuming it, `LBER_ERROR` when there is none. -/
def ber_peek_tag (ber : List BerTLV) : Nat :=
  match ber with
  | [] => LBER_ERROR
  | e :: _ => e.tag

/-! ### Operations, connections and the store -/

/-- The `Operation` record (declared in lloadd's `slap.h`, not under `src/`),
with the fields `operation.c` uses. Connections are referred to by address. -/
structure Operation where
  o_client : Option Nat
  o_client_msgid : Int
  o_upstream : Option Nat
  o_upstream_msgid : Int
  o_tag : Nat
  o_request : Option (List Nat)
  o_ctrls : Option (List Nat)
  deriving DecidableEq, Repr

/-- The `Connection` record (declared in lloadd's `slap.h`, not under `src/`),
with the fields `operation.c` uses. `c_ops` is the index of operations: the
addresses of the indexed operations in key order. -/
structure Connection where
  c_connid : Nat
  c_ops : List Nat
  c_next_msgid : Int
  c_pendingber : Option BerElement

/-- The memory `operation.c` works on: the connections and the operations by
address, and the next address `ch_calloc` hands out. -/
structure State where
  conns : Nat → Connection
  ops : Nat → Option Operation
  brk : Nat

/-- Store `op` (or nothing, for a freed record) at address `p`. -/
def State.setOp (s : State) (p : Nat) (op : Option Operation) : State :=
  { s with ops := Function.update s.ops p op }

/-- Store connection `c` at address `a`. -/
def State.setConn (s : State) (a : Nat) (c : Connection) : State :=
  { s with conns := Function.update s.conns a c }

/-- The record `ch_calloc( 1, sizeof(Operation) )` returns: all fields zero. -/
def Operation.zero : Operation :=
  { o_client := none, o_client_msgid := 0, o_upstream := none, o_upstream_msgid := 0,
    o_tag := 0, o_request := none, o_ctrls := none }

/-- A `ber_int_t` is a 32-bit signed integer: reduce into its range. -/
def wrap_ber_int (x : Int) : Int := (x + 2 ^ 31) % 2 ^ 32 - 2 ^ 31

/-- `operation_client_cmp` (operation.c 84-93) on two operation addresses:
`none` when the assertion `l->o_client == r->o_client` fails or an address does
not hold an operation. -/
def operation_client_cmp (s : State) (left right : Nat) : Option Int :=
  match s.ops left, s.ops right with
  | some l, some r =>
    if l.o_client = r.o_client then
      some (if l.o_client_msgid < r.o_client_msgid then -1
            else if l.o_client_msgid > r.o_client_msgid then 1 else 0)
    else none
  | _, _ => none

/-- `operation_upstream_cmp` (operation.c 95-104) on two operation addresses:
`none` when the assertion `l->o_upstream == r->o_upstream` fails or an address
does not hold an operation. -/
def operation_upstream_cmp (s : State) (left right : Nat) : Option Int :=
  match s.ops left, s.ops right with
  | some l, some r =>
    if l.o_upstream = r.o_upstream then
      some (if l.o_upstream_msgid < r.o_upstream_msgid then -1
            else if l.o_upstream_msgid > r.o_upstream_msgid then 1 else 0)
    else none
  | _, _ => none

/-- Modelled from the spec: `tavl_insert` with `avl_dup_error` (liblutil, not
under `src/`), the `insert` of the ordered index: the index is searched in key
order with `fcmp( data, node )`; an equal key leaves the index as it is and
returns `-1`, otherwise `data` is put at its place and `0` returned. `none` when
a comparison aborts. -/
def tavl_insert (fcmp : Nat → Nat → Option Int) : List Nat → Nat → Option (Int × List Nat)
  | [], data => some (0, [data])
  | y :: ys, data =>
    match fcmp data y with
    | none => none
    | some c =>
      if c = 0 then some (-1, y :: ys)
      else if c < 0 then some (0, data :: y :: ys)
      else
        match tavl_insert fcmp ys data with
        | none => none
        | some (rc, l) => some (rc, y :: l)

/-- Modelled from the spec: `tavl_delete` (liblutil, not under `src/`), the
`remove` of the ordered index: the node whose key equals that of `data` is taken
out; an index without such a node is left as it is. `none` when a comparison
aborts. -/
def tavl_delete (fcmp : Nat → Nat → Option Int) : List Nat → Nat → Option (List Nat)
  | [], _ => some []
  | y :: ys, data =>
    match fcmp data y with
    | none => none
    | some c =>
      if c = 0 then some ys
      else if c < 0 then some (y :: ys)
      else
        match tavl_delete fcmp ys data with
        | none => none
        | some l => some (y :: l)

/-- The `fail:` exit of `operation_init` (operation.c 177-179): the record is
freed and `NULL` returned. -/
def operation_init_fail (s : State) (op : Nat) (ber : List BerTLV) :
    State × Option Nat × List BerTLV :=
  (s.setOp op none, none, ber)

/-- The second half of `operation_init` (operation.c 155-175), reached with the
operation `rec1` at address `op` inserted in the client's index and `rc == 0`:
the request body is skipped, a codec error takes the operation out of the index
again, and the controls are recorded when they follow. -/
def operation_init_request (s : State) (c op : Nat) (rec1 : Operation) (ber1 : List BerTLV) :
    Option (State × Option Nat × List BerTLV) :=
  -- tag = op->o_tag = ber_skip_element( ber, &op->o_request );
  let (tag2, bv, ber2) := ber_skip_element ber1
  let rec2 : Operation :=
    { rec1 with o_tag := tag2, o_request := if bv.isSome then bv else rec1.o_request }
  let s3 := s.setOp op (some rec2)
  let rc : Int := if tag2 = LBER_ERROR then -1 else 0
  if rc ≠ 0 then
    match tavl_delete (operation_client_cmp s3) (s3.conns c).c_ops op with
    | none => none
    | some idx2 =>
      some (operation_init_fail (s3.setConn c { s3.conns c with c_ops := idx2 }) op ber2)
  else
    -- tag = ber_peek_tag( ber, &len );
    if ber_peek_tag ber2 = LDAP_TAG_CONTROLS then
      let (_, bv2, ber3) := ber_skip_element ber2
      let rec3 : Operation :=
        { rec2 with o_ctrls := if bv2.isSome then bv2 else rec2.o_ctrls }
      some (s3.setOp op (some rec3), some op, ber3)
    else
      some (s3, some op, ber2)

/-- `operation_init` (operation.c 130-180) for the client connection at address
`c` and the read buffer `ber`. The result is the memory afterwards, the address
of the new operation (`none` for `NULL`) and the buffer left; `none` when a
comparison of the index aborts. -/
def operation_init (s : State) (c : Nat) (ber : List BerTLV) :
    Option (State × Option Nat × List BerTLV) :=
  -- op = ch_calloc( 1, sizeof(Operation) ); op->o_client = c;
  -- tag = ber_get_int( ber, &op->o_client_msgid );
  let op := s.brk
  let (tag, num, ber1) := ber_get_int ber
  let rec1 : Operation :=
    { Operation.zero with o_client := some c, o_client_msgid := num.getD 0 }
  let s1 : State := { (s.setOp op (some rec1)) with brk := s.brk + 1 }
  if tag ≠ LDAP_TAG_MSGID then
    some (operation_init_fail s1 op ber1)
  else
    -- rc = tavl_insert( &c->c_ops, op, operation_client_cmp, avl_dup_error );
    match tavl_insert (operation_client_cmp s1) (s1.conns c).c_ops op with
    | none => none
    | some (rc, idx) =>
      let s2 := s1.setConn c { s1.conns c with c_ops := idx }
      if rc ≠ 0 then
        some (operation_init_fail s2 op ber1)
      else
        operation_init_request s2 c op rec1 ber1

/-- `operation_process` (operation.c 182-222) for the operation at address `op`,
with the backend selector `backend_select` (not under `src/`) as a parameter.
The result is the memory at the hand-off and the connection handed to
`upstream_write_cb` (`none` on the `fail:` exit); the writer itself is outside.
`none` when `op` holds no operation, a comparison of the index aborts or
`assert( rc == LDAP_SUCCESS )` fails. -/
def operation_process (backend_select : State → Nat → Option Nat) (s : State) (op : Nat) :
    Option (State × Option Nat) :=
  match s.ops op with
  | none => none
  | some rec0 =>
    -- c = backend_select( op );
    match backend_select s op with
    | none => some (s, none)
    | some c =>
      -- op->o_upstream = c;
      let rec1 : Operation := { rec0 with o_upstream := some c }
      -- c->c_pendingber = output = ber_alloc();
      let output := ber_alloc
      -- op->o_upstream_msgid = msgid = c->c_next_msgid++;
      let msgid := (s.conns c).c_next_msgid
      let rec2 : Operation := { rec1 with o_upstream_msgid := msgid }
      let s1 := (s.setOp op (some rec2)).setConn c
        { s.conns c with c_pendingber := some output, c_next_msgid := wrap_ber_int (msgid + 1) }
      -- rc = tavl_insert( &c->c_ops, op, operation_upstream_cmp, avl_dup_error );
      match tavl_insert (operation_upstream_cmp s1) (s1.conns c).c_ops op with
      | none => none
      | some (rc, idx) =>
        -- assert( rc == LDAP_SUCCESS );
        if rc ≠ LDAP_SUCCESS then none
        else
          let out1 := ber_start_seq output LDAP_TAG_MESSAGE
          let out2 := ber_put_int out1 msgid LDAP_TAG_MSGID
          let out3 := ber_put_berval out2 rec2.o_request rec2.o_tag
          let out4 :=
            if rec2.o_ctrls.isSome then ber_put_berval out3 rec2.o_ctrls LDAP_TAG_CONTROLS
            else out3
          let out5 := ber_put_seq out4
          some (s1.setConn c { s1.conns c with c_ops := idx, c_pendingber := some out5 }, some c)

/-! ### What the properties are stated with -/

/-- The PDU `operation_process` writes for upstream message id `n`: the envelope
with the message id, the request body under its tag, and the controls when the
operation recorded some. -/
def upstream_pdu (n : Int) (r : Operation) : BerItem :=
  .seq LDAP_TAG_MESSAGE
    ([.int LDAP_TAG_MSGID n, .berval r.o_tag (r.o_request.getD [])] ++
      match r.o_ctrls with
      | some ctrls => [.berval LDAP_TAG_CONTROLS ctrls]
      | none => [])

/-- The memory of the msgid-rewrite scenario: a client at address 0, an upstream
at address 1 with `c_next_msgid = 1` and an empty index, and at address 0 the
operation `operation_init` set up for the request `msgid=7, Bind, body=[1,2,3]`. -/
def scenario_forward : State :=
  { conns := fun a =>
      if a = 0 then { c_connid := 10, c_ops := [0], c_next_msgid := 0, c_pendingber := none }
      else { c_connid := 11, c_ops := [], c_next_msgid := 1, c_pendingber := none },
    ops := fun p =>
      if p = 0 then
        some { o_client := some 0, o_client_msgid := 7, o_upstream := none,
               o_upstream_msgid := 0, o_tag := LDAP_REQ_BIND, o_request := some [1, 2, 3],
               o_ctrls := none }
      else none,
    brk := 1 }

/-- The memory of the msgid-rewrite scenario with the request at address 0
replaced by an Abandon request `msgid=7, Abandon, body=[2,1,5]`. -/
def scenario_abandon : State :=
  scenario_forward.setOp 0
    (some { o_client := some 0, o_client_msgid := 7, o_upstream := none,
            o_upstream_msgid := 0, o_tag := LDAP_REQ_ABANDON, o_request := some [2, 1, 5],
            o_ctrls := none })

/-- A memory with an upstream in use: the client at address 0 has sent the
requests `msgid=6` (address 5) and `msgid=7` (address 0); the first has been
forwarded to the upstream at address 1 under the message id 3, and the upstream's
`c_next_msgid` is 4. -/
def scenario_busy : State :=
  { conns := fun a =>
      if a = 0 then { c_connid := 10, c_ops := [5, 0], c_next_msgid := 0, c_pendingber := none }
      else { c_connid := 11, c_ops := [5], c_next_msgid := 4, c_pendingber := none },
    ops := fun p =>
      if p = 0 then
        some { o_client := some 0, o_client_msgid := 7, o_upstream := none,
               o_upstream_msgid := 0, o_tag := LDAP_REQ_SEARCH, o_request := some [1, 2, 3],
               o_ctrls := none }
      else if p = 5 then
        some { o_client := some 0, o_client_msgid := 6, o_upstream := some 1,
               o_upstream_msgid := 3, o_tag := LDAP_REQ_COMPARE, o_request := some [9],
               o_ctrls := none }
      else none,
    brk := 6 }

end Lloadd

/-! ## Part II: slapd, `mods.c` -/

namespace Slapd

/-! ### Constants of `ldap.h` and `slap.h` -/

/-- Modelled from the spec: result code `Success` of `ldap.h` (not under `src/`),
with its RFC 4511 value. -/
def LDAP_SUCCESS : Int := 0x00

/-- Modelled from the spec: result code `NoSuchAttribute`, RFC 4511 value 16. -/
def LDAP_NO_SUCH_ATTRIBUTE : Int := 0x10

/-- Modelled from the spec: result code `InappropriateMatching`, RFC 4511 value 18. -/
def LDAP_INAPPROPRIATE_MATCHING : Int := 0x12

/-- Modelled from the spec: result code `ConstraintViolation`, RFC 4511 value 19. -/
def LDAP_CONSTRAINT_VIOLATION : Int := 0x13

/-- Modelled from the spec: result code `TypeOrValueExists`, RFC 4511 value 20. -/
def LDAP_TYPE_OR_VALUE_EXISTS : Int := 0x14

/-- Modelled from the spec: result code `Other`, RFC 4511 value 80. -/
def LDAP_OTHER : Int := 0x50

/-- Modelled from the spec: modification kind `add` of `ldap.h`, RFC 4511 value 0. -/
def LDAP_MOD_ADD : Int := 0

/-- Modelled from the spec: modification kind `delete`, RFC 4511 value 1. -/
def LDAP_MOD_DELETE : Int := 1

/-- Modelled from the spec: modification kind `replace`, RFC 4511 value 2. -/
def LDAP_MOD_REPLACE : Int := 2

/-- Modelled from the spec: modification kind `increment`, RFC 4525 value 3. -/
def LDAP_MOD_INCREMENT : Int := 3

/-- Modelled from the spec: the OID of the integer syntax (`slap.h`, not under
`src/`), as assigned by RFC 4517. -/
def SLAPD_INTEGER_SYNTAX : String := "1.3.6.1.4.1.1466.115.121.1.27"

/-- The `SLAP_MR_*` flag bits of `slap.h` that `mods.c` passes to a matching
rule, by name; a flag word is the list of the bits or-ed together. -/
inductive SlapMrFlag where
  | SLAP_MR_EQUALITY
  | SLAP_MR_VALUE_OF_ATTRIBUTE_SYNTAX
  | SLAP_MR_VALUE_OF_ASSERTION_SYNTAX
  | SLAP_MR_ASSERTED_VALUE_NORMALIZED_MATCH
  | SLAP_MR_ATTRIBUTE_VALUE_NORMALIZED_MATCH
  deriving DecidableEq, Repr

/-! ### Data model -/

/-- Where the `bv_val` of an array slot points: at a string on the heap, or at
the local variable `dummy` of `modify_delete_values` (the mark of a deleted
slot). A slot with `bv_val == NULL` ends the array and is not an element. -/
inductive BvPtr where
  | heap (s : String)
  | dummy
  deriving DecidableEq, Repr

/-- `struct berval`. -/
structure BerVal where
  bv_len : Nat
  bv_val : BvPtr
  deriving DecidableEq, Repr

/-- The berval of a C string. -/
def BerVal.str (s : String) : BerVal := ⟨s.length, .heap s⟩

/-- `Syntax` of `slap.h`, by its OID. -/
structure SlapSyntax where
  ssyn_oid : String
  deriving DecidableEq, Repr

/-- `MatchingRule` of `slap.h`. The function pointer `smr_match` is the
identifier of a routine of the registry, `none` for a null pointer. -/
structure MatchingRule where
  smr_oid : String
  smr_match : Option Nat
  deriving DecidableEq, Repr

/-- `AttributeType` of `slap.h`, with the fields `mods.c` reads. -/
structure AttributeType where
  sat_syntax_oid : String
  sat_syntax : SlapSyntax
  sat_equality : Option MatchingRule
  deriving DecidableEq, Repr

/-- `AttributeDescription` of `slap.h`. -/
structure AttributeDescription where
  ad_cname : String
  ad_type : AttributeType
  deriving DecidableEq, Repr

/-- `Attribute` of `slap.h`. `a_nvals = none` stands for `a_nvals == a_vals`: the
values are their own normalized form and the two pointers are the same array. -/
structure Attribute where
  a_desc : AttributeDescription
  a_vals : List BerVal
  a_nvals : Option (List BerVal)
  deriving DecidableEq, Repr

/-- `Entry` of `slap.h`: the list of attributes `e_attrs`. -/
structure Entry where
  e_attrs : List Attribute
  deriving DecidableEq, Repr

/-- `Modification` of `slap.h`; a null `sm_values` or `sm_nvalues` is `none`. -/
structure Modification where
  sm_op : Int
  sm_desc : AttributeDescription
  sm_values : Option (List BerVal)
  sm_nvalues : Option (List BerVal)
  deriving DecidableEq, Repr

/-- What `mods.c` calls without defining it: the registry of match routines,
called through `smr_match` as
`(*mr->smr_match)( &match, flags, syntax, mr, value, assertedValue )` and
returning the return code together with the `match` it stores; and whether a
merge into an entry fails. -/
structure Env where
  call_match : Nat → List SlapMrFlag → SlapSyntax → MatchingRule → BerVal → BerVal → Int × Int
  merge_fails : Entry → AttributeDescription → List BerVal → Option (List BerVal) → Bool

/-! ### The entry API -/

/-- Modelled from the spec: `attr_find( entry, desc )` of `attr.c` (not under
`src/`), the first attribute of the list with description `desc`. -/
def attr_find (attrs : List Attribute) (desc : AttributeDescription) : Option Attribute :=
  attrs.find? (fun a => a.a_desc = desc)

/-- Modelled from the spec: `attr_delete( entry, desc )` of `attr.c` (not under
`src/`): the attribute `desc` is removed from the list; the result is
`LDAP_NO_SUCH_ATTRIBUTE` when the list has none. -/
def attr_delete (attrs : List Attribute) (desc : AttributeDescription) : Int × List Attribute :=
  match attr_find attrs desc with
  | none => (LDAP_NO_SUCH_ATTRIBUTE, attrs)
  | some _ => (LDAP_SUCCESS, attrs.filter (fun a => a.a_desc ≠ desc))

/-- Writing through the pointer `attr_find` returned: the first attribute with
description `desc` becomes `a`. -/
def attr_store (attrs : List Attribute) (desc : AttributeDescription) (a : Attribute) :
    List Attribute :=
  match attrs with
  | [] => []
  | b :: rest => if b.a_desc = desc then a :: rest else b :: attr_store rest desc a

/-- Modelled from the spec: `attr_merge( entry, desc, values, nvalues? )` of
`attr.c` (not under `src/`): the values, and the normalized values in parallel,
are appended to the attribute `desc`, which is created at the end of the entry
when missing. Values that come without normalized values are their own
normalized form. A failing merge returns nonzero and leaves the entry. -/
def attr_merge (env : Env) (e : Entry) (desc : AttributeDescription) (vals : List BerVal)
    (nvals : Option (List BerVal)) : Int × Entry :=
  if env.merge_fails e desc vals nvals then (-1, e)
  else
    match attr_find e.e_attrs desc with
    | none => (0, { e with e_attrs := e.e_attrs ++ [{ a_desc := desc, a_vals := vals, a_nvals := nvals }] })
    | some a =>
      let merged : Option (List BerVal) :=
        match a.a_nvals, nvals with
        | none, none => none
        | some an, some n => some (an ++ n)
        | some an, none => some (an ++ vals)
        | none, some n => some (a.a_vals ++ n)
      (0, { e with e_attrs :=
              attr_store e.e_attrs desc { a with a_vals := a.a_vals ++ vals, a_nvals := merged } })

/-- Modelled from the spec: `value_match` of `value.c` (not under `src/`), the
registry's `match( flags, syntax, rule, value_a, value_b )` for the rule `mr` of
the description `ad`. -/
def value_match (env : Env) (ad : AttributeDescription) (mr : MatchingRule)
    (flags : List SlapMrFlag) (v1 v2 : BerVal) : Int × Int :=
  match mr.smr_match with
  | none => (LDAP_INAPPROPRIATE_MATCHING, 0)
  | some f => env.call_match f flags ad.ad_type.sat_syntax mr v1 v2

/-! ### `modify_add_values` -/

/-- The slot `mod->sm_nvalues[i]`, given `mod->sm_nvalues` from slot `i` on:
nothing to read (`some none`) when `mod->sm_nvalues` is null, and `none` when the
array ends before slot `i`. -/
def cur_slot (nvalues : Option (List BerVal)) : Option (Option BerVal) :=
  match nvalues with
  | none => some none
  | some [] => none
  | some (n :: _) => some (some n)

/-- The flag word of the normalized comparison in `modify_add_values`
(mods.c 82-84). -/
def add_flags_normalized : List SlapMrFlag :=
  [.SLAP_MR_EQUALITY, .SLAP_MR_VALUE_OF_ASSERTION_SYNTAX,
   .SLAP_MR_ASSERTED_VALUE_NORMALIZED_MATCH, .SLAP_MR_ATTRIBUTE_VALUE_NORMALIZED_MATCH]

/-- The flag word of the presentation-form comparison in `modify_add_values`
(mods.c 88). -/
def add_flags_plain : List SlapMrFlag :=
  [.SLAP_MR_EQUALITY, .SLAP_MR_VALUE_OF_ATTRIBUTE_SYNTAX]

/-- The inner loop of `modify_add_values` (mods.c 78-99) for one value of the
modification: `vals` is `a->a_vals` from slot `j` on, `nvals` is `a->a_nvals`
from slot `j` on, `mv` is `mod->sm_values[i]` and `mnv` is `mod->sm_nvalues[i]`
when `mod->sm_nvalues` is set. The result is `true` when the function returns
from inside the loop (line 97), `none` for a read past the end of `a_nvals`. -/
def add_scan (env : Env) (desc : AttributeDescription) (mr : MatchingRule) (mv : BerVal)
    (mnv : Option BerVal) : List BerVal → List BerVal → Option Bool
  | [], _ => some false
  | v :: vs, nvals =>
    let res : Option (Int × Int) :=
      match mnv with
      | some n =>
        match nvals with
        | [] => none
        | anv :: _ => some (value_match env desc mr add_flags_normalized anv n)
      | none => some (value_match env desc mr add_flags_plain v mv)
    match res with
    | none => none
    | some (rc, _) =>
      if rc ≠ LDAP_SUCCESS then some true
      else add_scan env desc mr mv mnv vs nvals.tail

/-- The outer loop of `modify_add_values` (mods.c 77-100): `values` is
`mod->sm_values` from slot `i` on and `nvalues` is `mod->sm_nvalues` from slot
`i` on when it is set. The result is `true` when the function returns
`LDAP_TYPE_OR_VALUE_EXISTS` (line 97), `none` for a read past the end of an
array. -/
def add_check (env : Env) (desc : AttributeDescription) (mr : MatchingRule) (a : Attribute) :
    List BerVal → Option (List BerVal) → Option Bool
  | [], _ => some false
  | mv :: rest, nvalues =>
    match cur_slot nvalues with
    | none => none
    | some mnv =>
      match add_scan env desc mr mv mnv a.a_vals (a.a_nvals.getD a.a_vals) with
      | none => none
      | some true => some true
      | some false => add_check env desc mr a rest (nvalues.map List.tail)

/-- `modify_add_values` (mods.c 32-114): the result code and the entry
afterwards; `none` when `assert( 0 )` is reached, a null `mod->sm_values` is
read, or an array is read past its end. -/
def modify_add_values (env : Env) (e : Entry) (mod : Modification) (permissive : Bool) :
    Option (Int × Entry) :=
  if mod.sm_op ≠ LDAP_MOD_ADD ∧ mod.sm_op ≠ LDAP_MOD_REPLACE then none
  else
    -- no - add them
    let merge : Option (Int × Entry) :=
      match mod.sm_values with
      | none => none
      | some values =>
        let r := attr_merge env e mod.sm_desc values mod.sm_nvalues
        if r.1 ≠ 0 then some (LDAP_OTHER, r.2) else some (LDAP_SUCCESS, r.2)
    match attr_find e.e_attrs mod.sm_desc with
    | none => merge
    | some a =>
      -- check if values to add exist in attribute
      match mod.sm_desc.ad_type.sat_equality with
      | none => some (LDAP_INAPPROPRIATE_MATCHING, e)
      | some mr =>
        if mr.smr_match.isNone then some (LDAP_INAPPROPRIATE_MATCHING, e)
        else
          match mod.sm_values with
          | none => none
          | some values =>
            match add_check env mod.sm_desc mr a values mod.sm_nvalues with
            | none => none
            | some true => some (LDAP_TYPE_OR_VALUE_EXISTS, e)
            | some false => merge

/-! ### `modify_delete_values` -/

/-- The flag word of the normalized comparison in `modify_delete_values`
(mods.c 180-182). -/
def delete_flags_normalized : List SlapMrFlag :=
  [.SLAP_MR_VALUE_OF_ASSERTION_SYNTAX, .SLAP_MR_ASSERTED_VALUE_NORMALIZED_MATCH,
   .SLAP_MR_ATTRIBUTE_VALUE_NORMALIZED_MATCH]

/-- The flag word of the presentation-form comparison in `modify_delete_values`
(mods.c 191). -/
def delete_flags_plain : List SlapMrFlag := [.SLAP_MR_VALUE_OF_ATTRIBUTE_SYNTAX]

/-- The mark of a deleted slot: `bv_val = &dummy`, the length stays. -/
def BerVal.mark (v : BerVal) : BerVal := { v with bv_val := .dummy }

/-- What the inner loop of `modify_delete_values` leaves: the return code `rc`,
whether `found` is set, and the two arrays from the slot the loop started at. -/
structure DeleteScan where
  rc : Int
  found : Bool
  vals : List BerVal
  nvals : Option (List BerVal)
  deriving DecidableEq, Repr

/-- The inner loop of `modify_delete_values` (mods.c 175-220) for one requested
value: `f` is the routine `mr->smr_match`, `mv` is `mod->sm_values[i]`, `mnv` is
`mod->sm_nvalues[i]` when `mod->sm_nvalues` is set, `rc` the return code so far;
the list arguments are `a->a_vals` from slot `j` on and, when
`a->a_nvals != a->a_vals`, `a->a_nvals` from slot `j` on. `none` for an access
past the end of `a_nvals`, and when the rule reports a match on a slot that is
already marked: `free` is then called on the address of `dummy`. -/
def delete_scan (env : Env) (f : Nat) (syn : SlapSyntax) (mr : MatchingRule) (mv : BerVal)
    (mnv : Option BerVal) : List BerVal → Option (List BerVal) → Int → Option DeleteScan
  | [], nvals, rc => some ⟨rc, false, [], nvals⟩
  | v :: vs, nvals, _ =>
    -- the slot a->a_nvals[j]
    let slot : Option BerVal :=
      match nvals with
      | none => some v
      | some [] => none
      | some (n :: _) => some n
    let res : Option (Int × Int) :=
      match mnv with
      | some n =>
        match slot with
        | none => none
        | some anv => some (env.call_match f delete_flags_normalized syn mr anv n)
      | none => some (env.call_match f delete_flags_plain syn mr v mv)
    match res with
    | none => none
    | some (rc, m) =>
      if rc ≠ LDAP_SUCCESS then some ⟨rc, false, v :: vs, nvals⟩
      else if m ≠ 0 then
        match delete_scan env f syn mr mv mnv vs (nvals.map List.tail) rc with
        | none => none
        | some r =>
          match nvals with
          | none => some { r with vals := v :: r.vals }
          | some [] => some { r with vals := v :: r.vals }
          | some (n :: _) => some { r with vals := v :: r.vals, nvals := r.nvals.map (n :: ·) }
      else
        -- delete value and mark it as dummy: free( a->a_vals[j].bv_val )
        if v.bv_val = .dummy then none
        else
          match nvals with
          | none => some ⟨rc, true, v.mark :: vs, none⟩
          | some [] => none
          | some (n :: ns) =>
            -- free( a->a_nvals[j].bv_val )
            if n.bv_val = .dummy then none
            else some ⟨rc, true, v.mark :: vs, some (n.mark :: ns)⟩

/-- What the outer loop of `modify_delete_values` leaves: the return code, the
two arrays, and whether it left by `goto return_results`. -/
structure DeleteLoop where
  rc : Int
  vals : List BerVal
  nvals : Option (List BerVal)
  skip_compact : Bool
  deriving DecidableEq, Repr

/-- The outer loop of `modify_delete_values` (mods.c 173-234): `values` is
`mod->sm_values` from slot `i` on, `nvalues` is `mod->sm_nvalues` from slot `i`
on when it is set, `vals` and `nvals` are the arrays of the attribute. -/
def delete_loop (env : Env) (f : Nat) (syn : SlapSyntax) (mr : MatchingRule) :
    Nat → List BerVal → Option (List BerVal) → List BerVal → Option (List BerVal) → Int →
      Option DeleteLoop
  | _, [], _, vals, nvals, rc => some ⟨rc, vals, nvals, false⟩
  | i, mv :: rest, nvalues, vals, nvals, rc =>
    match cur_slot nvalues with
    | none => none
    | some mnv =>
      match delete_scan env f syn mr mv mnv vals nvals rc with
      | none => none
      | some r =>
        if r.found = false then
          -- rc = LDAP_NO_SUCH_ATTRIBUTE; if ( i > 0 ) break; else goto return_results;
          if i > 0 then some ⟨LDAP_NO_SUCH_ATTRIBUTE, r.vals, r.nvals, false⟩
          else some ⟨LDAP_NO_SUCH_ATTRIBUTE, r.vals, r.nvals, true⟩
        else
          delete_loop env f syn mr (i + 1) rest (nvalues.map List.tail) r.vals r.nvals r.rc

/-- The compaction of `modify_delete_values` (mods.c 237-254). The first two
arguments are `a->a_vals` from slot `k` on and, when `a->a_nvals != a->a_vals`,
`a->a_nvals` from slot `k` on; the last two are the slots `0 .. j-1` of the two
arrays as written so far (slot `j` receives slot `k`, or already is slot `k` when
`j == k`). At the end slot `j` gets the terminator, so the arrays are these
slots. `none` when the assertion of line 240 fails or `a_nvals` ends before
`a_vals` does. -/
def delete_compact : List BerVal → Option (List BerVal) → List BerVal → Option (List BerVal) →
    Option (List BerVal × Option (List BerVal))
  | [], _, out, nout => some (out, nout)
  | v :: vs, none, out, nout =>
    if v.bv_val = .dummy then delete_compact vs none out nout
    else delete_compact vs none (out ++ [v]) nout
  | _ :: _, some [], _, _ => none
  | v :: vs, some (n :: ns), out, nout =>
    if v.bv_val = .dummy then
      if n.bv_val = .dummy then delete_compact vs (some ns) out nout else none
    else delete_compact vs (some ns) (out ++ [v]) (nout.map (· ++ [n]))

/-- `modify_delete_values` (mods.c 116-270): the result code and the entry
afterwards; `none` when an assertion fails, an array is accessed past its end,
or `free` is called on the address of `dummy`. -/
def modify_delete_values (env : Env) (e : Entry) (mod : Modification) (permissive : Bool) :
    Option (Int × Entry) :=
  match mod.sm_values with
  | none =>
    -- delete the entire attribute
    let r := attr_delete e.e_attrs mod.sm_desc
    let rc : Int :=
      if permissive then LDAP_SUCCESS
      else if r.1 ≠ LDAP_SUCCESS then LDAP_NO_SUCH_ATTRIBUTE
      else r.1
    some (rc, { e with e_attrs := r.2 })
  | some values =>
    match mod.sm_desc.ad_type.sat_equality with
    | none => some (LDAP_INAPPROPRIATE_MATCHING, e)
    | some mr =>
      match mr.smr_match with
      | none => some (LDAP_INAPPROPRIATE_MATCHING, e)
      | some f =>
        -- delete specific values - find the attribute first
        match attr_find e.e_attrs mod.sm_desc with
        | none =>
          if permissive then some (LDAP_SUCCESS, e) else some (LDAP_NO_SUCH_ATTRIBUTE, e)
        | some a =>
          match delete_loop env f a.a_desc.ad_type.sat_syntax mr 0 values mod.sm_nvalues
              a.a_vals a.a_nvals LDAP_SUCCESS with
          | none => none
          | some l =>
            if l.skip_compact then
              let attrs := attr_store e.e_attrs mod.sm_desc
                { a with a_vals := l.vals, a_nvals := l.nvals }
              some (l.rc, { e with e_attrs := attrs })
            else
              -- compact array skipping dummies
              match delete_compact l.vals l.nvals [] (l.nvals.map (fun _ => [])) with
              | none => none
              | some (vals, nvals) =>
                let attrs := attr_store e.e_attrs mod.sm_desc
                  { a with a_vals := vals, a_nvals := nvals }
                -- if no values remain, delete the entire attribute
                if vals = [] then
                  let r := attr_delete attrs mod.sm_desc
                  some (if r.1 ≠ 0 then LDAP_NO_SUCH_ATTRIBUTE else l.rc, { e with e_attrs := r.2 })
                else
                  some (l.rc, { e with e_attrs := attrs })

/-! ### `modify_replace_values` -/

/-- `modify_replace_values` (mods.c 272-287). -/
def modify_replace_values (env : Env) (e : Entry) (mod : Modification) (permissive : Bool) :
    Option (Int × Entry) :=
  let e1 : Entry := { e with e_attrs := (attr_delete e.e_attrs mod.sm_desc).2 }
  if mod.sm_values.isSome then modify_add_values env e1 mod permissive
  else some (LDAP_SUCCESS, e1)

/-! ### `modify_increment_values` -/

/-- The C library's `isspace` in the "C" locale. -/
def isspace (c : Char) : Bool :=
  c.toNat = 32 || (9 ≤ c.toNat && c.toNat ≤ 13)

/-- The C library's `isdigit`. -/
def isdigit (c : Char) : Bool :=
  48 ≤ c.toNat && c.toNat ≤ 57

/-- The digits at the head of `cs` read as a decimal number, continuing `acc`. -/
def atol_digits : List Char → Nat → Nat
  | [], acc => acc
  | c :: cs, acc => if isdigit c then atol_digits cs (acc * 10 + (c.toNat - 48)) else acc

/-- An optional sign and the digits after it. -/
def atol_signed : List Char → Int
  | [] => 0
  | c :: cs =>
    if c.toNat = 45 then -((atol_digits cs 0 : Nat) : Int)
    else if c.toNat = 43 then ((atol_digits cs 0 : Nat) : Int)
    else ((atol_digits (c :: cs) 0 : Nat) : Int)

/-- `LONG_MAX` of a 64-bit `long`. -/
def LONG_MAX : Int := 2 ^ 63 - 1

/-- `LONG_MIN` of a 64-bit `long`. -/
def LONG_MIN : Int := -2 ^ 63

/-- The C library's `atol` on the characters of a string: white space is
skipped, then an optional sign and the leading digits are read; what follows the
digits is ignored, and without digits the result is 0. A value outside `long` is
brought to the nearest bound, as by `strtol`. -/
def atol_chars (cs : List Char) : Int :=
  let x := atol_signed (cs.dropWhile isspace)
  if x < LONG_MIN then LONG_MIN else if LONG_MAX < x then LONG_MAX else x

/-- `atol( bv.bv_val )`; the variable `dummy` holds the empty string. -/
def atol (p : BvPtr) : Int :=
  match p with
  | .heap s => atol_chars s.data
  | .dummy => 0

/-- The digits of `n`, most significant first, put in front of `acc`; `fuel`
bounds the number of digits. -/
def put_digits : Nat → Nat → List Char → List Char
  | 0, _, acc => acc
  | fuel + 1, n, acc =>
    let acc1 := Char.ofNat (48 + n % 10) :: acc
    if n / 10 = 0 then acc1 else put_digits fuel (n / 10) acc1

/-- The text `snprintf( str, sizeof(str), "%ld", x )` writes; the buffer of
`sizeof(long)*3 + 2` bytes holds every `long`. -/
def fmt_ld (x : Int) : String :=
  let ds := put_digits (x.natAbs + 1) x.natAbs []
  String.mk (if x < 0 then Char.ofNat 45 :: ds else ds)

/-- Addition of two `long`, reduced into the 64-bit range. -/
def long_add (x y : Int) : Int := (x + y + 2 ^ 63) % 2 ^ 64 - 2 ^ 63

/-- The loop of `modify_increment_values` (mods.c 318-332) over `a->a_nvals`:
each slot gets the text of its value plus `incr`, and the length of that text. -/
def increment_loop (incr : Int) : List BerVal → List BerVal
  | [] => []
  | nv :: rest =>
    let value := atol nv.bv_val
    let str := fmt_ld (long_add value incr)
    { bv_len := str.length, bv_val := .heap str } :: increment_loop incr rest

/-- `modify_increment_values` (mods.c 289-343): the result code and the entry
afterwards; `none` when `mod->sm_values` is null or empty, so that
`mod->sm_values[0].bv_val` is not a string. -/
def modify_increment_values (e : Entry) (mod : Modification) (permissive : Bool) :
    Option (Int × Entry) :=
  match attr_find e.e_attrs mod.sm_desc with
  | none => some (LDAP_NO_SUCH_ATTRIBUTE, e)
  | some a =>
    if a.a_desc.ad_type.sat_syntax_oid = SLAPD_INTEGER_SYNTAX then
      match mod.sm_values with
      | none => none
      | some [] => none
      | some (v0 :: _) =>
        let incr := atol v0.bv_val
        -- treat zero and errors as a no-op
        if incr = 0 then some (LDAP_SUCCESS, e)
        else
          let a1 : Attribute :=
            match a.a_nvals with
            | none => { a with a_vals := increment_loop incr a.a_vals }
            | some nvals => { a with a_nvals := some (increment_loop incr nvals) }
          some (LDAP_SUCCESS, { e with e_attrs := attr_store e.e_attrs mod.sm_desc a1 })
    else some (LDAP_CONSTRAINT_VIOLATION, e)

/-! ### What the delete properties are stated with -/

/-- The rows of an attribute: each presentation value with the slot of `a_nvals`
at the same index, which is the value itself when `a_nvals` is `a_vals`. -/
def Attribute.rows (a : Attribute) : List (BerVal × BerVal) :=
  a.a_vals.zip (a.a_nvals.getD a.a_vals)

/-- The requested values of a modification, each with its normalized form when
`sm_nvalues` is given. -/
def requests : List BerVal → Option (List BerVal) → List (BerVal × Option BerVal)
  | [], _ => []
  | v :: vs, none => (v, none) :: requests vs none
  | _ :: _, some [] => []
  | v :: vs, some (n :: ns) => (v, some n) :: requests vs (some ns)

/-- The comparison `modify_delete_values` makes between a row and a requested
value: normalized forms when the request has one, presentation forms
otherwise. -/
def row_call (env : Env) (f : Nat) (syn : SlapSyntax) (mr : MatchingRule)
    (row : BerVal × BerVal) (req : BerVal × Option BerVal) : Int × Int :=
  match req.2 with
  | some n => env.call_match f delete_flags_normalized syn mr row.2 n
  | none => env.call_match f delete_flags_plain syn mr row.1 req.1

/-- The equality rule reports that the row matches the requested value. -/
def row_matches (env : Env) (f : Nat) (syn : SlapSyntax) (mr : MatchingRule)
    (row : BerVal × BerVal) (req : BerVal × Option BerVal) : Bool :=
  (row_call env f syn mr row req).1 = LDAP_SUCCESS ∧ (row_call env f syn mr row req).2 = 0

/-- In the spec's words: the list without its first element that satisfies `p`,
or nothing when no element does. -/
def remove_first {α : Type} (p : α → Bool) : List α → Option (List α)
  | [] => none
  | x :: xs => if p x then some xs else (remove_first p xs).map (x :: ·)

/-- In the spec's words: for each requested value in order, the first remaining
row that matches is removed; the scan of the requests stops at the first one
that matches no remaining row. The result is the number of requests served and
the rows that remain. -/
def spec_delete {α β : Type} (p : α → β → Bool) : List β → List α → Nat × List α
  | [], rows => (0, rows)
  | r :: rs, rows =>
    match remove_first (fun x => p x r) rows with
    | none => (0, rows)
    | some rows1 => ((spec_delete p rs rows1).1 + 1, (spec_delete p rs rows1).2)

/-- The entry `e` with the rows of its attribute `desc` (found as `a`) replaced
by `rows`; an attribute left without rows is taken out of the entry. -/
def with_rows (e : Entry) (desc : AttributeDescription) (a : Attribute)
    (rows : List (BerVal × BerVal)) : Entry :=
  if rows = [] then { e_attrs := e.e_attrs.filter (fun b => b.a_desc ≠ desc) }
  else
    { e_attrs := attr_store e.e_attrs desc
        { a with a_vals := rows.map (fun r => r.1),
                 a_nvals := a.a_nvals.map (fun _ => rows.map (fun r => r.2)) } }

/-- The rows of the two working arrays of `modify_delete_values` that are not
marked as deleted. -/
def live (vals : List BerVal) (nvals : Option (List BerVal)) : List (BerVal × BerVal) :=
  (vals.zip (nvals.getD vals)).filter (fun r => r.1.bv_val ≠ .dummy)

/-- The two working arrays of `modify_delete_values` are marked alike: when
`a_nvals` is an array of its own it is as long as `a_vals` and has the mark in
the same slots. -/
def Marked (vals : List BerVal) (nvals : Option (List BerVal)) : Prop :=
  match nvals with
  | none => True
  | some ns => List.Forall₂ (fun v n => v.bv_val = .dummy ↔ n.bv_val = .dummy) vals ns

/-- An attribute as `modify_delete_values` can receive it: no slot carries the
mark of a deleted value (the address of a variable local to that function), and
an `a_nvals` array of its own is as long as `a_vals`. -/
def Attribute.wf (a : Attribute) : Prop :=
  (∀ v ∈ a.a_vals, v.bv_val ≠ .dummy) ∧
  match a.a_nvals with
  | none => True
  | some ns => ns.length = a.a_vals.length ∧ ∀ n ∈ ns, n.bv_val ≠ .dummy

/-! ### Sample data of the scenarios -/

/-- A registry with one routine: it never fails and reports a match (`match = 0`)
exactly when the two values point at equal strings; merges never fail. -/
def env_exact : Env :=
  { call_match := fun _ _ _ _ v x => (LDAP_SUCCESS, if v.bv_val = x.bv_val then 0 else 1),
    merge_fails := fun _ _ _ _ => false }

/-- An equality rule whose routine is routine 0 of the registry. -/
def rule_eq : MatchingRule := { smr_oid := "2.5.13.2", smr_match := some 0 }

/-- The description of `cn`, a directory string with an equality rule. -/
def desc_cn : AttributeDescription :=
  { ad_cname := "cn",
    ad_type := { sat_syntax_oid := "1.3.6.1.4.1.1466.115.121.1.15",
                 sat_syntax := ⟨"1.3.6.1.4.1.1466.115.121.1.15"⟩,
                 sat_equality := some rule_eq } }

/-- The description of `mail`, with an equality rule. -/
def desc_mail : AttributeDescription :=
  { ad_cname := "mail",
    ad_type := { sat_syntax_oid := "1.3.6.1.4.1.1466.115.121.1.26",
                 sat_syntax := ⟨"1.3.6.1.4.1.1466.115.121.1.26"⟩,
                 sat_equality := some rule_eq } }

/-- The description of `uidNumber`, of integer syntax. -/
def desc_uidNumber : AttributeDescription :=
  { ad_cname := "uidNumber",
    ad_type := { sat_syntax_oid := SLAPD_INTEGER_SYNTAX,
                 sat_syntax := ⟨SLAPD_INTEGER_SYNTAX⟩,
                 sat_equality := some rule_eq } }

/-- The entry of the modify-add scenario: `cn: Alice`, normalized `alice`. -/
def entry_alice : Entry :=
  { e_attrs := [{ a_desc := desc_cn, a_vals := [BerVal.str "Alice"],
                  a_nvals := some [BerVal.str "alice"] }] }

/-- The entry of the modify-delete scenario: `mail: a@x, b@x`, next to a `cn`. -/
def entry_mail : Entry :=
  { e_attrs := [{ a_desc := desc_cn, a_vals := [BerVal.str "Alice"],
                  a_nvals := some [BerVal.str "alice"] },
                { a_desc := desc_mail, a_vals := [BerVal.str "a@x", BerVal.str "b@x"],
                  a_nvals := none }] }

/-- The entry of the increment scenario: `uidNumber` with presentation values
`0100, 0200` and normalized values `100, 200`, next to a `cn`. -/
def entry_uid : Entry :=
  { e_attrs := [{ a_desc := desc_cn, a_vals := [BerVal.str "Alice"],
                  a_nvals := some [BerVal.str "alice"] },
                { a_desc := desc_uidNumber, a_vals := [BerVal.str "0100", BerVal.str "0200"],
                  a_nvals := some [BerVal.str "100", BerVal.str "200"] }] }

/-- The description of `jpegPhoto`, an attribute type without an equality rule. -/
def desc_photo : AttributeDescription :=
  { ad_cname := "jpegPhoto",
    ad_type := { sat_syntax_oid := "1.3.6.1.4.1.1466.115.121.1.28",
                 sat_syntax := ⟨"1.3.6.1.4.1.1466.115.121.1.28"⟩,
                 sat_equality := none } }

/-- An entry that holds a `jpegPhoto`, next to a `cn`. -/
def entry_photo : Entry :=
  { e_attrs := [{ a_desc := desc_cn, a_vals := [BerVal.str "Alice"],
                  a_nvals := some [BerVal.str "alice"] },
                { a_desc := desc_photo, a_vals := [BerVal.str "JFIF"], a_nvals := none }] }

/-- A registry whose routine fails on every call: the return code is
`LDAP_INVALID_SYNTAX` (0x15), and the `match` it leaves is 0; merges never fail. -/
def env_failing : Env :=
  { call_match := fun _ _ _ _ _ _ => (0x15, 0),
    merge_fails := fun _ _ _ _ => false }

end Slapd

/-! ## Part III: properties of `operation.c` -/

namespace Lloadd

/-! ### The ordered index -/

theorem tavl_insert_append (fcmp : Nat → Nat → Option Int) (l : List Nat) (data : Nat)
    (h : ∀ y ∈ l, ∃ c, fcmp data y = some c ∧ 0 < c) :
    tavl_insert fcmp l data = some (0, l ++ [data]) := by
  induction l with
  | nil => rfl
  | cons y ys ih =>
    obtain ⟨c, hc, hpos⟩ := h y (List.mem_cons_self _ _)
    have hrec := ih (fun z hz => h z (List.mem_cons_of_mem _ hz))
    have h0 : c ≠ 0 := by omega
    have h1 : ¬ c < 0 := by omega
    simp [tavl_insert, hc, h0, h1, hrec]

theorem tavl_insert_total (fcmp : Nat → Nat → Option Int) (l : List Nat) (data : Nat)
    (h : ∀ y ∈ l, ∃ c, fcmp data y = some c) :
    ∃ rc l', tavl_insert fcmp l data = some (rc, l') := by
  induction l with
  | nil => exact ⟨0, [data], rfl⟩
  | cons y ys ih =>
    obtain ⟨c, hc⟩ := h y (List.mem_cons_self _ _)
    obtain ⟨rc, l', hrec⟩ := ih (fun z hz => h z (List.mem_cons_of_mem _ hz))
    by_cases h0 : c = 0
    · exact ⟨-1, y :: ys, by simp [tavl_insert, hc, h0]⟩
    · by_cases h1 : c < 0
      · exact ⟨0, data :: y :: ys, by simp [tavl_insert, hc, h0, h1]⟩
      · exact ⟨rc, y :: l', by simp [tavl_insert, hc, h0, h1, hrec]⟩

theorem tavl_insert_dup_unchanged (fcmp : Nat → Nat → Option Int) (l : List Nat) (data : Nat)
    (rc : Int) (l' : List Nat) (hins : tavl_insert fcmp l data = some (rc, l')) (hrc : rc ≠ 0) :
    l' = l := by
  induction l generalizing l' with
  | nil =>
    simp [tavl_insert] at hins
    exact absurd hins.1.symm hrc
  | cons y ys ih =>
    unfold tavl_insert at hins
    cases hc : fcmp data y with
    | none => simp [hc] at hins
    | some c =>
      simp only [hc] at hins
      by_cases h0 : c = 0
      · simp [h0] at hins
        exact hins.2.symm
      · by_cases h1 : c < 0
        · simp [h0, h1] at hins
          exact absurd hins.1.symm hrc
        · simp only [h0, h1, if_false] at hins
          cases hrec : tavl_insert fcmp ys data with
          | none => simp [hrec] at hins
          | some res =>
            obtain ⟨rc2, l2⟩ := res
            simp [hrec] at hins
            obtain ⟨h2, h3⟩ := hins
            subst h2
            rw [← h3, ih l2 hrec]

theorem tavl_delete_insert (f g : Nat → Nat → Option Int) (l : List Nat) (data : Nat)
    (l' : List Nat) (hins : tavl_insert f l data = some (0, l'))
    (hself : g data data = some 0) (hagree : ∀ y ∈ l, g data y = f data y) :
    tavl_delete g l' data = some l := by
  induction l generalizing l' with
  | nil =>
    simp [tavl_insert] at hins
    subst hins
    simp [tavl_delete, hself]
  | cons y ys ih =>
    unfold tavl_insert at hins
    cases hc : f data y with
    | none => simp [hc] at hins
    | some c =>
      simp only [hc] at hins
      by_cases h0 : c = 0
      · simp [h0] at hins
      · by_cases h1 : c < 0
        · simp [h0, h1] at hins
          subst hins
          simp [tavl_delete, hself]
        · simp only [h0, h1, if_false] at hins
          cases hrec : tavl_insert f ys data with
          | none => simp [hrec] at hins
          | some res =>
            obtain ⟨rc2, l2⟩ := res
            simp [hrec] at hins
            obtain ⟨h2, h3⟩ := hins
            subst h2
            subst h3
            have hg : g data y = some c := by
              rw [hagree y (List.mem_cons_self _ _)]; exact hc
            have := ih l2 hrec (fun z hz => hagree z (List.mem_cons_of_mem _ hz))
            simp [tavl_delete, hg, h0, h1, this]

theorem tavl_insert_finds_dup (f : Nat → Nat → Option Int) (l : List Nat) (data : Nat)
    (hsome : ∀ y ∈ l, ∃ c, f data y = some c)
    (hdup : ∃ q ∈ l, f data q = some 0)
    (hsorted : l.Pairwise (fun a b => ∀ cb, f data b = some cb → 0 ≤ cb →
      ∃ ca, f data a = some ca ∧ 0 < ca)) :
    tavl_insert f l data = some (-1, l) := by
  induction l with
  | nil => obtain ⟨q, hq, _⟩ := hdup; cases hq
  | cons y ys ih =>
    obtain ⟨c, hc⟩ := hsome y (List.mem_cons_self _ _)
    obtain ⟨q, hq, hq0⟩ := hdup
    rw [List.pairwise_cons] at hsorted
    by_cases h0 : c = 0
    · simp [tavl_insert, hc, h0]
    · have hqy : q ∈ ys := by
        rcases List.mem_cons.1 hq with h | h
        · subst h; rw [hc] at hq0; simp at hq0; exact absurd hq0 h0
        · exact h
      obtain ⟨ca, hca, hpos⟩ := hsorted.1 q hqy 0 hq0 (le_refl _)
      rw [hc] at hca
      have hcc : c = ca := by simpa using hca
      have h1 : ¬ c < 0 := by omega
      have := ih (fun z hz => hsome z (List.mem_cons_of_mem _ hz)) ⟨q, hqy, hq0⟩ hsorted.2
      simp [tavl_insert, hc, h0, h1, this]

/-! ### The response table -/

/-- C3: `slap_req2res` is the fixed request-to-response table: Add, Bind, Compare,
Extended, Modify and ModifyDN go to the request tag plus one (which is the
matching response tag), Delete goes to `LDAP_RES_DELETE` (which is not the request
tag plus one), Search goes to `LDAP_RES_SEARCH_RESULT`, Abandon and Unbind go to
`LBER_SEQUENCE`, and so does every other tag. -/
theorem slap_req2res_table :
    (slap_req2res LDAP_REQ_ADD = LDAP_REQ_ADD + 1 ∧ LDAP_REQ_ADD + 1 = LDAP_RES_ADD)
    ∧ (slap_req2res LDAP_REQ_BIND = LDAP_REQ_BIND + 1 ∧ LDAP_REQ_BIND + 1 = LDAP_RES_BIND)
    ∧ (slap_req2res LDAP_REQ_COMPARE = LDAP_REQ_COMPARE + 1
        ∧ LDAP_REQ_COMPARE + 1 = LDAP_RES_COMPARE)
    ∧ (slap_req2res LDAP_REQ_EXTENDED = LDAP_REQ_EXTENDED + 1
        ∧ LDAP_REQ_EXTENDED + 1 = LDAP_RES_EXTENDED)
    ∧ (slap_req2res LDAP_REQ_MODIFY = LDAP_REQ_MODIFY + 1
        ∧ LDAP_REQ_MODIFY + 1 = LDAP_RES_MODIFY)
    ∧ (slap_req2res LDAP_REQ_MODRDN = LDAP_REQ_MODRDN + 1
        ∧ LDAP_REQ_MODRDN + 1 = LDAP_RES_MODRDN)
    ∧ (slap_req2res LDAP_REQ_DELETE = LDAP_RES_DELETE
        ∧ LDAP_RES_DELETE ≠ LDAP_REQ_DELETE + 1)
    ∧ slap_req2res LDAP_REQ_SEARCH = LDAP_RES_SEARCH_RESULT
    ∧ slap_req2res LDAP_REQ_ABANDON = LBER_SEQUENCE
    ∧ slap_req2res LDAP_REQ_UNBIND = LBER_SEQUENCE
    ∧ ∀ tag : Nat, slap_req2res tag =
        if tag ∈ [LDAP_REQ_ADD, LDAP_REQ_BIND, LDAP_REQ_COMPARE, LDAP_REQ_EXTENDED,
            LDAP_REQ_MODIFY, LDAP_REQ_MODRDN] then tag + 1
        else if tag = LDAP_REQ_DELETE then LDAP_RES_DELETE
        else if tag = LDAP_REQ_SEARCH then LDAP_RES_SEARCH_RESULT
        else LBER_SEQUENCE := by
  refine ⟨by decide, by decide, by decide, by decide, by decide, by decide, by decide,
    by decide, by decide, by decide, ?_⟩
  intro tag
  unfold slap_req2res
  simp only [List.mem_cons, List.mem_singleton, List.not_mem_nil, or_false]
  by_cases h1 : tag = LDAP_REQ_ADD ∨ tag = LDAP_REQ_BIND ∨ tag = LDAP_REQ_COMPARE
      ∨ tag = LDAP_REQ_EXTENDED ∨ tag = LDAP_REQ_MODIFY ∨ tag = LDAP_REQ_MODRDN
  · simp only [h1, if_true]
  · simp only [h1, if_false]
    by_cases h2 : tag = LDAP_REQ_DELETE
    · simp only [h2, if_true]
    · simp only [h2, if_false]
      by_cases h3 : tag = LDAP_REQ_ABANDON ∨ tag = LDAP_REQ_UNBIND
      · have h4 : tag ≠ LDAP_REQ_SEARCH := by
          rcases h3 with h | h <;> (rw [h]; decide)
        simp only [h3, h4, if_true, if_false]
      · simp only [h3, if_false]

/-! ### Forwarding -/

theorem wrap_ber_int_succ (n : Int) (hlo : -2 ^ 31 ≤ n) (hhi : n < 2 ^ 31 - 1) :
    wrap_ber_int (n + 1) = n + 1 := by
  unfold wrap_ber_int
  have h : (n + 1 + 2 ^ 31) % 2 ^ 32 = n + 1 + 2 ^ 31 :=
    Int.emod_eq_of_lt (by omega) (by omega)
  omega

/-- C1: the forwarding step. For an operation `r` at address `op` and an upstream
`U` the selector returns, whose index does not hold `op` yet and holds only
operations of `U` with message ids below `U`'s `c_next_msgid = n` (with `n` in
the range of a `ber_int_t` and not its maximum), `operation_process` hands `U`
to the writer and afterwards: the operation has `o_upstream = U` and
`o_upstream_msgid = n` and all its client-side fields as before, `U`'s
`c_next_msgid` is `n + 1`, the operation is in `U`'s index (added to the keys
present before), and `U`'s pending buffer holds exactly the sequence of the
integer `n`, the request body under its tag, and the controls under the
controls tag exactly when the operation recorded controls. -/
theorem operation_process_forwards (backend_select : State → Nat → Option Nat) (s : State)
    (op U : Nat) (r : Operation)
    (hop : s.ops op = some r)
    (hnew : op ∉ (s.conns U).c_ops)
    (hsel : backend_select s op = some U)
    (hidx : ∀ q ∈ (s.conns U).c_ops, ∃ o, s.ops q = some o ∧ o.o_upstream = some U ∧
      o.o_upstream_msgid < (s.conns U).c_next_msgid)
    (hlo : -2 ^ 31 ≤ (s.conns U).c_next_msgid)
    (hhi : (s.conns U).c_next_msgid < 2 ^ 31 - 1) :
    ∃ s', operation_process backend_select s op = some (s', some U) ∧
      s'.ops op = some { r with o_upstream := some U,
                                o_upstream_msgid := (s.conns U).c_next_msgid } ∧
      (∃ r', s'.ops op = some r' ∧ r'.o_client_msgid = r.o_client_msgid ∧
        r'.o_client = r.o_client ∧ r'.o_upstream = some U ∧
        r'.o_upstream_msgid = (s.conns U).c_next_msgid) ∧
      (s'.conns U).c_next_msgid = (s.conns U).c_next_msgid + 1 ∧
      (s'.conns U).c_ops = (s.conns U).c_ops ++ [op] ∧
      (s'.conns U).c_pendingber =
        some ⟨[upstream_pdu (s.conns U).c_next_msgid r], []⟩ := by
  have hne : ∀ q ∈ (s.conns U).c_ops, q ≠ op := by
    intro q hq hqop
    rw [hqop] at hq
    exact hnew hq
  have hcmp : ∀ y ∈ (s.conns U).c_ops, ∃ c,
      operation_upstream_cmp
        ((s.setOp op
            (some { r with o_upstream := some U,
                           o_upstream_msgid := (s.conns U).c_next_msgid })).setConn U
          { s.conns U with c_pendingber := some ber_alloc,
                           c_next_msgid := wrap_ber_int ((s.conns U).c_next_msgid + 1) })
        op y = some c ∧ 0 < c := by
    intro y hy
    obtain ⟨o, ho, hu, hlt⟩ := hidx y hy
    have hyop : y ≠ op := hne y hy
    refine ⟨1, ?_, by norm_num⟩
    simp only [operation_upstream_cmp, State.setOp, State.setConn, Function.update_same,
      Function.update_noteq hyop, ho, hu]
    have h1 : ¬ (s.conns U).c_next_msgid < o.o_upstream_msgid := by omega
    simp [h1, hlt]
  have hins := tavl_insert_append _ _ op hcmp
  simp only [operation_process, hop, hsel]
  simp only [State.setOp, State.setConn, Function.update_same] at hins ⊢
  rw [hins]
  simp only [LDAP_SUCCESS, ne_eq, not_true_eq_false, if_false]
  refine ⟨_, rfl, ?_, ?_, ?_, ?_, ?_⟩
  · simp
  · simp
  · simp [wrap_ber_int_succ _ hlo hhi]
  · simp
  · simp only [Function.update_same, upstream_pdu]
    cases hc : r.o_ctrls <;>
      simp [hc, ber_put_seq, ber_put_berval, ber_put_int, ber_start_seq, ber_emit, ber_alloc]

/-- Witness of C1: client request `msgid=7, Bind, body=[1,2,3]`, upstream with
`c_next_msgid = 1`; the upstream is handed the PDU `msgid=1, Bind, body=[1,2,3]`. -/
theorem operation_process_forwards_witness :
    ∃ s', operation_process (fun _ _ => some 1) scenario_forward 0 = some (s', some 1) ∧
      (∃ r', s'.ops 0 = some r' ∧ r'.o_client_msgid = 7 ∧
        r'.o_client = some 0 ∧ r'.o_upstream = some 1 ∧ r'.o_upstream_msgid = 1) ∧
      (s'.conns 1).c_next_msgid = 2 ∧
      (s'.conns 1).c_ops = [0] ∧
      (s'.conns 1).c_pendingber =
        some ⟨[.seq LDAP_TAG_MESSAGE
          [.int LDAP_TAG_MSGID 1, .berval LDAP_REQ_BIND [1, 2, 3]]], []⟩ := by
  obtain ⟨s', h1, _, h3, h4, h5, h6⟩ :=
    operation_process_forwards (fun _ _ => some 1) scenario_forward 0 1
      { o_client := some 0, o_client_msgid := 7, o_upstream := none,
        o_upstream_msgid := 0, o_tag := LDAP_REQ_BIND, o_request := some [1, 2, 3],
        o_ctrls := none }
      rfl (by simp [scenario_forward]) rfl (by simp [scenario_forward])
      (by simp [scenario_forward]) (by simp [scenario_forward])
  exact ⟨s', h1, h3, h4, h5, h6⟩

/-! ### Rejected requests -/

theorem update_free_eq (ops : Nat → Option Operation) (p : Nat) (h : ops p = none)
    (f : Nat → Option Operation) (hf : ∀ q, q ≠ p → f q = ops q) :
    Function.update f p none = ops := by
  funext q
  by_cases hq : q = p
  · subst hq; simp [h]
  · simp [Function.update_noteq hq, hf q hq]

theorem ber_get_int_tag (ber : List BerTLV) :
    (ber_get_int ber).1 ≠ LDAP_TAG_MSGID ↔
      (ber = [] ∨ ∃ e rest, ber = e :: rest ∧ (4 < e.val.length ∨ e.tag ≠ LDAP_TAG_MSGID)) := by
  cases ber with
  | nil => simp [ber_get_int, LBER_ERROR, LDAP_TAG_MSGID]
  | cons e rest =>
    by_cases h : e.val.length ≤ 4
    · have h4 : ¬ 4 < e.val.length := by omega
      simp [ber_get_int, h, h4]
    · have h4 : 4 < e.val.length := by omega
      simp [ber_get_int, h, h4, LBER_ERROR, LDAP_TAG_MSGID]

/-- C2: `operation_init` rejects a request, returning no operation, when the
messageID element is absent or malformed (`ber_get_int` does not return the
messageID tag), when the client's index already holds an operation with the
same `o_client_msgid`, or when the request body cannot be skipped; after each
of these failures the client's index, every other connection, and every
operation record are as before the call. The client's index is assumed to hold
live operations of that client in key order, and `ch_calloc` to return an
address not in use. -/
theorem operation_init_rejects (s : State) (c : Nat) (ber : List BerTLV)
    (hfree : s.ops s.brk = none)
    (hidx : ∀ q ∈ (s.conns c).c_ops, ∃ o, s.ops q = some o ∧ o.o_client = some c)
    (hsorted : (s.conns c).c_ops.Pairwise (fun q q' =>
      ∀ o o', s.ops q = some o → s.ops q' = some o' → o.o_client_msgid < o'.o_client_msgid))
    (hbad : (ber_get_int ber).1 ≠ LDAP_TAG_MSGID ∨
      (∃ m, (ber_get_int ber).2.1 = some m ∧
        ∃ q ∈ (s.conns c).c_ops, ∃ o, s.ops q = some o ∧ o.o_client_msgid = m) ∨
      (ber_skip_element (ber_get_int ber).2.2).1 = LBER_ERROR) :
    ∃ s' ber', operation_init s c ber = some (s', none, ber') ∧
      (s'.conns c).c_ops = (s.conns c).c_ops ∧ s'.conns = s.conns ∧ s'.ops = s.ops := by
  rcases hg : ber_get_int ber with ⟨tag, num, ber1⟩
  rw [hg] at hbad
  simp only at hbad
  -- the memory after the allocation
  obtain ⟨rec1, hrec1⟩ : ∃ r : Operation,
      r = { Operation.zero with o_client := some c, o_client_msgid := num.getD 0 } := ⟨_, rfl⟩
  obtain ⟨s1, hs1⟩ : ∃ t : State, t = { (s.setOp s.brk (some rec1)) with brk := s.brk + 1 } :=
    ⟨_, rfl⟩
  have hs1c : s1.conns = s.conns := by rw [hs1]; rfl
  have hs1p : s1.ops s.brk = some rec1 := by rw [hs1]; simp [State.setOp]
  have hs1q : ∀ q, q ≠ s.brk → s1.ops q = s.ops q := by
    intro q hq; rw [hs1]; simp [State.setOp, Function.update_noteq hq]
  have hlive : ∀ q ∈ (s.conns c).c_ops, q ≠ s.brk := by
    intro q hq hqb
    obtain ⟨o, ho, _⟩ := hidx q hq
    rw [hqb, hfree] at ho
    cases ho
  have hunfold : operation_init s c ber =
      if tag ≠ LDAP_TAG_MSGID then some (operation_init_fail s1 s.brk ber1)
      else
        match tavl_insert (operation_client_cmp s1) (s1.conns c).c_ops s.brk with
        | none => none
        | some (rc, idx) =>
          if rc ≠ 0 then
            some (operation_init_fail (s1.setConn c { s1.conns c with c_ops := idx }) s.brk ber1)
          else
            operation_init_request (s1.setConn c { s1.conns c with c_ops := idx }) c s.brk
              rec1 ber1 := by
    subst hs1 hrec1
    simp only [operation_init, hg]
  rw [hunfold]
  clear hunfold
  by_cases htag : tag ≠ LDAP_TAG_MSGID
  · rw [if_pos htag]
    refine ⟨_, _, rfl, ?_, ?_, ?_⟩
    · simp [operation_init_fail, State.setOp, hs1c]
    · simp [operation_init_fail, State.setOp, hs1c]
    · simp only [operation_init_fail, State.setOp]
      exact update_free_eq _ _ hfree _ hs1q
  · rw [if_neg htag]
    have hcmp : ∀ y ∈ (s1.conns c).c_ops, ∃ k, operation_client_cmp s1 s.brk y = some k := by
      intro y hy
      rw [hs1c] at hy
      obtain ⟨o, ho, hoc⟩ := hidx y hy
      have hy1 : s1.ops y = some o := by rw [hs1q y (hlive y hy)]; exact ho
      have hcl : rec1.o_client = o.o_client := by rw [hrec1, hoc]
      simp [operation_client_cmp, hs1p, hy1, hcl]
    obtain ⟨rc, idx, hins⟩ := tavl_insert_total _ _ s.brk hcmp
    rw [hins]
    simp only
    by_cases hrc : rc ≠ 0
    · rw [if_pos hrc]
      have hsame := tavl_insert_dup_unchanged _ _ _ _ _ hins hrc
      have hconn : (s1.setConn c { s1.conns c with c_ops := idx }).conns = s.conns := by
        rw [hsame]
        simp only [State.setConn, hs1c]
        exact Function.update_eq_self c s.conns
      refine ⟨_, _, rfl, ?_, ?_, ?_⟩
      · show ((s1.setConn c { s1.conns c with c_ops := idx }).conns c).c_ops = _
        rw [hconn]
      · exact hconn
      · simp only [operation_init_fail, State.setOp, State.setConn]
        exact update_free_eq _ _ hfree _ hs1q
    · rw [if_neg hrc]
      have hrc0 : rc = 0 := not_not.1 hrc
      subst hrc0
      have hskip : (ber_skip_element ber1).1 = LBER_ERROR := by
        rcases hbad with h | ⟨m, hm, q, hq, o, ho, hom⟩ | h
        · exact absurd h htag
        · exfalso
          have hq1 : q ∈ (s1.conns c).c_ops := by rw [hs1c]; exact hq
          have hdup : operation_client_cmp s1 s.brk q = some 0 := by
            obtain ⟨o', ho', hoc⟩ := hidx q hq
            rw [ho] at ho'
            cases ho'
            have hy1 : s1.ops q = some o := by rw [hs1q q (hlive q hq)]; exact ho
            have hcl : rec1.o_client = o.o_client := by rw [hrec1, hoc]
            have hm' : rec1.o_client_msgid = o.o_client_msgid := by rw [hrec1, hm, hom]; rfl
            simp [operation_client_cmp, hs1p, hy1, hcl, hm']
          have hsrt : (s1.conns c).c_ops.Pairwise (fun a b =>
              ∀ cb, operation_client_cmp s1 s.brk b = some cb → 0 ≤ cb →
                ∃ ca, operation_client_cmp s1 s.brk a = some ca ∧ 0 < ca) := by
            rw [hs1c]
            refine List.Pairwise.imp_of_mem ?_ hsorted
            intro a b ha hb hab cb hcb hnn
            obtain ⟨oa, hoa, hca⟩ := hidx a ha
            obtain ⟨ob, hob, hcb'⟩ := hidx b hb
            have hlt := hab oa ob hoa hob
            have ha1 : s1.ops a = some oa := by rw [hs1q a (hlive a ha)]; exact hoa
            have hb1 : s1.ops b = some ob := by rw [hs1q b (hlive b hb)]; exact hob
            have hcla : rec1.o_client = oa.o_client := by rw [hrec1, hca]
            have hclb : rec1.o_client = ob.o_client := by rw [hrec1, hcb']
            simp only [operation_client_cmp, hs1p, hb1, hclb, if_true, Option.some.injEq] at hcb
            have hge : ¬ rec1.o_client_msgid < ob.o_client_msgid := by
              intro hl
              rw [if_pos hl] at hcb
              omega
            have hgt : oa.o_client_msgid < rec1.o_client_msgid := by omega
            have hnl : ¬ rec1.o_client_msgid < oa.o_client_msgid := by omega
            refine ⟨1, ?_, by norm_num⟩
            simp [operation_client_cmp, hs1p, ha1, hcla, hnl, hgt]
          have hfound := tavl_insert_finds_dup _ _ s.brk hcmp ⟨q, hq1, hdup⟩ hsrt
          rw [hfound] at hins
          simp at hins
        · exact h
      rcases hk : ber_skip_element ber1 with ⟨tag2, bv, ber2⟩
      rw [hk] at hskip
      simp only at hskip
      subst hskip
      have hdel : ∀ r2 : Operation, r2.o_client = rec1.o_client →
          r2.o_client_msgid = rec1.o_client_msgid →
          tavl_delete
            (operation_client_cmp
              ((s1.setConn c { s1.conns c with c_ops := idx }).setOp s.brk (some r2)))
            idx s.brk = some (s.conns c).c_ops := by
        intro r2 h1 h2
        rw [← hs1c]
        apply tavl_delete_insert (operation_client_cmp s1) _ _ _ _ hins
        · simp [operation_client_cmp, State.setOp, State.setConn]
        · intro y hy
          rw [hs1c] at hy
          have hyb : y ≠ s.brk := hlive y hy
          simp only [operation_client_cmp, State.setOp, State.setConn, Function.update_same,
            Function.update_noteq hyb, hs1p]
          cases s1.ops y with
          | none => rfl
          | some o => simp only [h1, h2]
      have hd := hdel { rec1 with o_tag := LBER_ERROR,
                                  o_request := if bv.isSome then bv else rec1.o_request } rfl rfl
      have hrun : operation_init_request (s1.setConn c { s1.conns c with c_ops := idx }) c s.brk
          rec1 ber1 =
          some (operation_init_fail
            (((s1.setConn c { s1.conns c with c_ops := idx }).setOp s.brk
                (some { rec1 with o_tag := LBER_ERROR,
                                  o_request := if bv.isSome then bv else rec1.o_request })).setConn c
              { s1.conns c with c_ops := (s.conns c).c_ops }) s.brk ber2) := by
        simp only [operation_init_request, hk]
        simp only [State.setOp, State.setConn, Function.update_same] at hd ⊢
        rw [hd]
        simp
      rw [hrun]
      have hconn : (((s1.setConn c { s1.conns c with c_ops := idx }).setOp s.brk
          (some { rec1 with o_tag := LBER_ERROR,
                            o_request := if bv.isSome then bv else rec1.o_request })).setConn c
          { s1.conns c with c_ops := (s.conns c).c_ops }).conns = s.conns := by
        simp only [State.setConn, State.setOp, hs1c, Function.update_idem]
        exact Function.update_eq_self c s.conns
      refine ⟨_, _, rfl, ?_, hconn, ?_⟩
      · simp only [operation_init_fail]
        show ((((s1.setConn c { s1.conns c with c_ops := idx }).setOp s.brk
          (some { rec1 with o_tag := LBER_ERROR,
                            o_request := if bv.isSome then bv else rec1.o_request })).setConn c
          { s1.conns c with c_ops := (s.conns c).c_ops }).conns c).c_ops = _
        rw [hconn]
      · simp only [operation_init_fail, State.setOp, State.setConn, Function.update_idem]
        exact update_free_eq _ _ hfree _ hs1q


/-- Witness of C2: with the request `msgid=7` of the client at address 0 in
flight, a second request `msgid=7, Bind` is rejected; the client's index still
holds exactly the first operation, which is unchanged. -/
theorem operation_init_rejects_witness :
    ∃ s' ber',
      operation_init scenario_forward 0
          [⟨LDAP_TAG_MSGID, [7]⟩, ⟨LDAP_REQ_BIND, [4, 5, 6]⟩] = some (s', none, ber') ∧
        (s'.conns 0).c_ops = [0] ∧
        s'.ops 0 = some { o_client := some 0, o_client_msgid := 7, o_upstream := none,
                          o_upstream_msgid := 0, o_tag := LDAP_REQ_BIND,
                          o_request := some [1, 2, 3], o_ctrls := none } := by
  obtain ⟨s', ber', h1, h2, _, h4⟩ :=
    operation_init_rejects scenario_forward 0
      [⟨LDAP_TAG_MSGID, [7]⟩, ⟨LDAP_REQ_BIND, [4, 5, 6]⟩] rfl
      (by simp [scenario_forward]) (by simp [scenario_forward])
      (Or.inr (Or.inl ⟨7, by decide, 0, by simp [scenario_forward], _, rfl, rfl⟩))
  exact ⟨s', ber', h1, h2, by rw [h4]; rfl⟩

/-! ### What a forward leaves -/

/-- What `operation_process` leaves when the selector returns `U` and the
operation compares above every entry of `U`'s index. -/
theorem operation_process_run (backend_select : State → Nat → Option Nat) (s : State)
    (op U : Nat) (r : Operation)
    (hop : s.ops op = some r)
    (hnew : op ∉ (s.conns U).c_ops)
    (hsel : backend_select s op = some U)
    (hidx : ∀ q ∈ (s.conns U).c_ops, ∃ o, s.ops q = some o ∧ o.o_upstream = some U ∧
      o.o_upstream_msgid < (s.conns U).c_next_msgid) :
    ∃ s', operation_process backend_select s op = some (s', some U) ∧
      s'.ops = Function.update s.ops op
        (some { r with o_upstream := some U,
                       o_upstream_msgid := (s.conns U).c_next_msgid }) ∧
      (s'.conns U).c_ops = (s.conns U).c_ops ++ [op] ∧
      (s'.conns U).c_next_msgid = wrap_ber_int ((s.conns U).c_next_msgid + 1) ∧
      (s'.conns U).c_pendingber = some ⟨[upstream_pdu (s.conns U).c_next_msgid r], []⟩ ∧
      (∀ a, a ≠ U → s'.conns a = s.conns a) := by
  have hne : ∀ q ∈ (s.conns U).c_ops, q ≠ op := by
    intro q hq hqop
    rw [hqop] at hq
    exact hnew hq
  have hcmp : ∀ y ∈ (s.conns U).c_ops, ∃ c,
      operation_upstream_cmp
        ((s.setOp op
            (some { r with o_upstream := some U,
                           o_upstream_msgid := (s.conns U).c_next_msgid })).setConn U
          { s.conns U with c_pendingber := some ber_alloc,
                           c_next_msgid := wrap_ber_int ((s.conns U).c_next_msgid + 1) })
        op y = some c ∧ 0 < c := by
    intro y hy
    obtain ⟨o, ho, hu, hlt⟩ := hidx y hy
    have hyop : y ≠ op := hne y hy
    refine ⟨1, ?_, by norm_num⟩
    simp only [operation_upstream_cmp, State.setOp, State.setConn, Function.update_same,
      Function.update_noteq hyop, ho, hu]
    have h1 : ¬ (s.conns U).c_next_msgid < o.o_upstream_msgid := by omega
    simp [h1, hlt]
  have hins := tavl_insert_append _ _ op hcmp
  simp only [operation_process, hop, hsel]
  simp only [State.setOp, State.setConn, Function.update_same] at hins ⊢
  rw [hins]
  simp only [LDAP_SUCCESS, ne_eq, not_true_eq_false, if_false]
  refine ⟨_, rfl, rfl, ?_, ?_, ?_, ?_⟩
  · simp
  · simp
  · simp only [Function.update_same, upstream_pdu]
    cases hc : r.o_ctrls <;>
      simp [hc, ber_put_seq, ber_put_berval, ber_put_int, ber_start_seq, ber_emit, ber_alloc]
  · intro a ha
    simp [Function.update_noteq ha]


/-! ### No upstream -/

/-- C17 as stated fails: the request `msgid=7, Bind` is set up by
`operation_init`, which registers it at address 0 in the index of the client at
address 0; with a selector that returns no upstream, `operation_process` returns
and the client's index still holds the operation. -/
theorem operation_process_keeps_unrouted :
    ∃ s1 s2,
      operation_init
          { conns := fun _ => { c_connid := 10, c_ops := [], c_next_msgid := 1,
                                c_pendingber := none },
            ops := fun _ => none, brk := 0 }
          0 [⟨LDAP_TAG_MSGID, [7]⟩, ⟨LDAP_REQ_BIND, [1, 2, 3]⟩] = some (s1, some 0, []) ∧
      (s1.conns 0).c_ops = [0] ∧
      operation_process (fun _ _ => none) s1 0 = some (s2, none) ∧
      (s2.conns 0).c_ops = [0] ∧ 0 ∈ (s2.conns 0).c_ops := by
  refine ⟨_, _, rfl, rfl, rfl, rfl, ?_⟩
  exact List.mem_singleton.2 rfl

/-- C17, amended: when the selector returns no upstream, `operation_process`
returns with the memory as it was: the operation stays in its client's index
with no upstream set, and no connection's index, `c_next_msgid` or pending
buffer has changed. -/
theorem operation_process_no_upstream (backend_select : State → Nat → Option Nat) (s : State)
    (op c : Nat) (r : Operation)
    (hop : s.ops op = some r)
    (hreg : op ∈ (s.conns c).c_ops)
    (hsel : backend_select s op = none) :
    ∃ s', operation_process backend_select s op = some (s', none) ∧ s' = s ∧
      op ∈ (s'.conns c).c_ops ∧ s'.ops op = some r ∧
      (∀ a, (s'.conns a).c_ops = (s.conns a).c_ops ∧
        (s'.conns a).c_next_msgid = (s.conns a).c_next_msgid ∧
        (s'.conns a).c_pendingber = (s.conns a).c_pendingber) := by
  refine ⟨s, by simp only [operation_process, hop, hsel], rfl, hreg, hop,
    fun a => ⟨rfl, rfl, rfl⟩⟩

/-- Witness of C17, amended: the operation of the msgid-rewrite scenario, with a
selector that finds no upstream, stays in the client's index. -/
theorem operation_process_no_upstream_witness :
    ∃ s', operation_process (fun _ _ => none) scenario_forward 0 = some (s', none) ∧
      0 ∈ (s'.conns 0).c_ops ∧ (s'.conns 1).c_next_msgid = 1 ∧ (s'.conns 1).c_ops = [] := by
  obtain ⟨s', h1, _, h2, _, h4⟩ :=
    operation_process_no_upstream (fun _ _ => none) scenario_forward 0 0
      { o_client := some 0, o_client_msgid := 7, o_upstream := none,
        o_upstream_msgid := 0, o_tag := LDAP_REQ_BIND, o_request := some [1, 2, 3],
        o_ctrls := none }
      rfl (by simp [scenario_forward]) rfl
  refine ⟨s', h1, h2, ?_, ?_⟩
  · rw [(h4 1).2.1]; rfl
  · rw [(h4 1).1]; rfl

/-! ### Abandon and Unbind -/

/-- C18 as stated fails: an Abandon request (a tag for which `slap_req2res`
reports no response) is forwarded to the upstream at address 1, and after
`operation_process` the upstream's index holds the operation. -/
theorem operation_process_abandon_indexed :
    slap_req2res LDAP_REQ_ABANDON = LBER_SEQUENCE ∧
    ∃ s', operation_process (fun _ _ => some 1)
        scenario_abandon 0 = some (s', some 1) ∧
      (s'.conns 1).c_ops = [0] ∧ 0 ∈ (s'.conns 1).c_ops := by
  refine ⟨by decide, _, rfl, rfl, ?_⟩
  exact List.mem_singleton.2 rfl

/-- C18, amended: `operation_process` does not look at the tag. An operation
whose tag is Abandon or Unbind, for which `slap_req2res` reports no response, is
forwarded like any other: the upstream is handed the PDU every request gets
(message id, body under its tag, controls if recorded), and the operation is
registered in the upstream's index, where it stays. -/
theorem operation_process_no_response (backend_select : State → Nat → Option Nat) (s : State)
    (op U : Nat) (r : Operation)
    (htag : r.o_tag = LDAP_REQ_ABANDON ∨ r.o_tag = LDAP_REQ_UNBIND)
    (hop : s.ops op = some r)
    (hnew : op ∉ (s.conns U).c_ops)
    (hsel : backend_select s op = some U)
    (hidx : ∀ q ∈ (s.conns U).c_ops, ∃ o, s.ops q = some o ∧ o.o_upstream = some U ∧
      o.o_upstream_msgid < (s.conns U).c_next_msgid) :
    slap_req2res r.o_tag = LBER_SEQUENCE ∧
    ∃ s', operation_process backend_select s op = some (s', some U) ∧
      (s'.conns U).c_pendingber = some ⟨[upstream_pdu (s.conns U).c_next_msgid r], []⟩ ∧
      op ∈ (s'.conns U).c_ops ∧
      (s'.conns U).c_ops = (s.conns U).c_ops ++ [op] ∧
      (∃ r', s'.ops op = some r' ∧ r'.o_upstream = some U ∧
        r'.o_upstream_msgid = (s.conns U).c_next_msgid) := by
  constructor
  · rcases htag with h | h <;> (rw [h]; decide)
  · obtain ⟨s', h1, h2, h3, _, h5, _⟩ :=
      operation_process_run backend_select s op U r hop hnew hsel hidx
    refine ⟨s', h1, h5, ?_, h3, ?_⟩
    · rw [h3]; simp
    · rw [h2]; exact ⟨_, Function.update_same _ _ _, rfl, rfl⟩

/-- Witness of C18, amended: the Abandon request of the counterexample. -/
theorem operation_process_no_response_witness :
    ∃ s', operation_process (fun _ _ => some 1)
        scenario_abandon 0 = some (s', some 1) ∧
      (s'.conns 1).c_pendingber =
        some ⟨[.seq LDAP_TAG_MESSAGE
          [.int LDAP_TAG_MSGID 1, .berval LDAP_REQ_ABANDON [2, 1, 5]]], []⟩ ∧
      0 ∈ (s'.conns 1).c_ops := by
  obtain ⟨s', h1, h2, h3, _, _⟩ :=
    (operation_process_no_response (fun _ _ => some 1)
      scenario_abandon 0 1
      { o_client := some 0, o_client_msgid := 7, o_upstream := none,
        o_upstream_msgid := 0, o_tag := LDAP_REQ_ABANDON, o_request := some [2, 1, 5],
        o_ctrls := none }
      (Or.inl rfl) (by simp [scenario_abandon, State.setOp])
      (by simp [scenario_abandon, State.setOp, scenario_forward]) rfl
      (by simp [scenario_abandon, State.setOp, scenario_forward])).2
  exact ⟨s', h1, h2, h3⟩


/-! ### The upstream index -/

/-- C20: the upstream index invariant. Let `U` be the upstream the selector
returns, with `c_next_msgid = n` in the range of a `ber_int_t` and below its
maximum `2^31 - 1`, whose index holds operations of `U` with pairwise distinct
keys, all below `n`. Then `operation_process` returns (the assertion on the
result of `tavl_insert` holds), and afterwards every key in `U`'s index is below
`U`'s `c_next_msgid`, the keys are pairwise distinct, and the operation is in
the index under the key `n`, which is its `o_upstream_msgid`. -/
theorem operation_process_index_invariant (backend_select : State → Nat → Option Nat)
    (s : State) (op U : Nat) (r : Operation)
    (hop : s.ops op = some r)
    (hnew : op ∉ (s.conns U).c_ops)
    (hsel : backend_select s op = some U)
    (hidx : ∀ q ∈ (s.conns U).c_ops, ∃ o, s.ops q = some o ∧ o.o_upstream = some U ∧
      o.o_upstream_msgid < (s.conns U).c_next_msgid)
    (hdist : (s.conns U).c_ops.Pairwise (fun p q =>
      (s.ops p).map Operation.o_upstream_msgid ≠ (s.ops q).map Operation.o_upstream_msgid))
    (hlo : -2 ^ 31 ≤ (s.conns U).c_next_msgid)
    (hhi : (s.conns U).c_next_msgid < 2 ^ 31 - 1) :
    ∃ s', operation_process backend_select s op = some (s', some U) ∧
      (∀ q ∈ (s'.conns U).c_ops, ∃ o, s'.ops q = some o ∧ o.o_upstream = some U ∧
        o.o_upstream_msgid < (s'.conns U).c_next_msgid) ∧
      (s'.conns U).c_ops.Pairwise (fun p q =>
        (s'.ops p).map Operation.o_upstream_msgid ≠
          (s'.ops q).map Operation.o_upstream_msgid) ∧
      op ∈ (s'.conns U).c_ops ∧
      (∃ r', s'.ops op = some r' ∧ r'.o_upstream = some U ∧
        r'.o_upstream_msgid = (s.conns U).c_next_msgid) ∧
      (s'.conns U).c_next_msgid = (s.conns U).c_next_msgid + 1 := by
  obtain ⟨s', h1, h2, h3, h4, _, _⟩ :=
    operation_process_run backend_select s op U r hop hnew hsel hidx
  rw [wrap_ber_int_succ _ hlo hhi] at h4
  have hne : ∀ q ∈ (s.conns U).c_ops, q ≠ op := by
    intro q hq hqop
    rw [hqop] at hq
    exact hnew hq
  have hold : ∀ q ∈ (s.conns U).c_ops, s'.ops q = s.ops q := by
    intro q hq
    rw [h2]
    exact Function.update_noteq (hne q hq) _ _
  have hself : s'.ops op = some { r with o_upstream := some U,
                                         o_upstream_msgid := (s.conns U).c_next_msgid } := by
    rw [h2]
    exact Function.update_same _ _ _
  refine ⟨s', h1, ?_, ?_, ?_, ⟨_, hself, rfl, rfl⟩, h4⟩
  · intro q hq
    rw [h3, List.mem_append, List.mem_singleton] at hq
    rcases hq with hq | hq
    · obtain ⟨o, ho, hu, hlt⟩ := hidx q hq
      refine ⟨o, by rw [hold q hq]; exact ho, hu, ?_⟩
      rw [h4]
      omega
    · rw [hq, h4]
      exact ⟨_, hself, rfl, by simp⟩
  · rw [h3, List.pairwise_append]
    refine ⟨?_, List.pairwise_singleton _ _, ?_⟩
    · refine List.Pairwise.imp_of_mem ?_ hdist
      intro p q hp hq hpq
      rw [hold p hp, hold q hq]
      exact hpq
    · intro p hp q hq
      rw [List.mem_singleton] at hq
      obtain ⟨o, ho, _, hlt⟩ := hidx p hp
      rw [hq, hold p hp, ho, hself]
      simp only [Option.map_some', ne_eq, Option.some.injEq]
      omega
  · rw [h3]
    simp

/-- Witness of C20: the upstream of `scenario_busy` holds one operation under
the key 3 and has `c_next_msgid = 4`; after forwarding the operation at address
0 the index holds the keys 3 and 4 and `c_next_msgid` is 5. -/
theorem operation_process_index_invariant_witness :
    ∃ s', operation_process (fun _ _ => some 1) scenario_busy 0 = some (s', some 1) ∧
      (∀ q ∈ (s'.conns 1).c_ops, ∃ o, s'.ops q = some o ∧ o.o_upstream = some 1 ∧
        o.o_upstream_msgid < (s'.conns 1).c_next_msgid) ∧
      (s'.conns 1).c_ops.Pairwise (fun p q =>
        (s'.ops p).map Operation.o_upstream_msgid ≠
          (s'.ops q).map Operation.o_upstream_msgid) ∧
      0 ∈ (s'.conns 1).c_ops ∧
      (∃ r', s'.ops 0 = some r' ∧ r'.o_upstream = some 1 ∧ r'.o_upstream_msgid = 4) ∧
      (s'.conns 1).c_next_msgid = 5 := by
  exact operation_process_index_invariant (fun _ _ => some 1) scenario_busy 0 1
    { o_client := some 0, o_client_msgid := 7, o_upstream := none,
      o_upstream_msgid := 0, o_tag := LDAP_REQ_SEARCH, o_request := some [1, 2, 3],
      o_ctrls := none }
    rfl (by simp [scenario_busy]) rfl
    (by
      intro q hq
      have hq5 : q = 5 := by simpa [scenario_busy] using hq
      subst hq5
      exact ⟨_, rfl, rfl, by simp [scenario_busy]⟩)
    (by simp [scenario_busy])
    (by simp [scenario_busy])
    (by simp [scenario_busy])

end Lloadd

/-! ## Part IV: properties of `mods.c` -/

namespace Slapd

/-! ### The entry API -/

theorem attr_find_filter_ne (attrs : List Attribute) (desc : AttributeDescription) :
    attr_find (attrs.filter (fun a => a.a_desc ≠ desc)) desc = none := by
  simp [attr_find, List.find?_eq_none]

theorem attr_find_filter_other (attrs : List Attribute) (desc d : AttributeDescription)
    (h : d ≠ desc) :
    attr_find (attrs.filter (fun a => a.a_desc ≠ desc)) d = attr_find attrs d := by
  unfold attr_find
  induction attrs with
  | nil => rfl
  | cons b rest ih =>
    rw [List.filter_cons]
    by_cases hb : b.a_desc = desc
    · have hbd : ¬ b.a_desc = d := by rw [hb]; exact fun h' => h h'.symm
      have h1 : decide (b.a_desc ≠ desc) = false := by simp [hb]
      rw [h1]
      simp only [Bool.false_eq_true, if_false]
      rw [ih, List.find?_cons]
      simp [hbd]
    · have h1 : decide (b.a_desc ≠ desc) = true := by simp [hb]
      rw [h1]
      simp only [if_true]
      rw [List.find?_cons, List.find?_cons, ih]

theorem filter_ne_of_attr_find_none (attrs : List Attribute) (desc : AttributeDescription)
    (h : attr_find attrs desc = none) :
    attrs.filter (fun a => a.a_desc ≠ desc) = attrs := by
  simp only [attr_find, List.find?_eq_none] at h
  rw [List.filter_eq_self]
  intro a ha
  simpa using h a ha

theorem attr_delete_snd (attrs : List Attribute) (desc : AttributeDescription) :
    (attr_delete attrs desc).2 = attrs.filter (fun a => a.a_desc ≠ desc) := by
  unfold attr_delete
  cases h : attr_find attrs desc with
  | none => exact (filter_ne_of_attr_find_none attrs desc h).symm
  | some a => rfl

theorem attr_delete_fst (attrs : List Attribute) (desc : AttributeDescription) :
    (attr_delete attrs desc).1 =
      if (attr_find attrs desc).isSome then LDAP_SUCCESS else LDAP_NO_SUCH_ATTRIBUTE := by
  unfold attr_delete
  cases h : attr_find attrs desc <;> simp

/-! ### Whole-attribute delete -/

/-- C7: for a Delete modification without a value list, `modify_delete_values`
leaves an entry that has no attribute `mod.sm_desc` and whose other attributes
are the ones it had, in their order; the result is `LDAP_NO_SUCH_ATTRIBUTE`
exactly when the attribute was absent and `permissive` is false, and
`LDAP_SUCCESS` otherwise. No equality rule is consulted. -/
theorem modify_delete_values_whole (env : Env) (e : Entry) (mod : Modification)
    (permissive : Bool) (hnull : mod.sm_values = none) :
    ∃ rc e', modify_delete_values env e mod permissive = some (rc, e') ∧
      attr_find e'.e_attrs mod.sm_desc = none ∧
      e'.e_attrs = e.e_attrs.filter (fun a => a.a_desc ≠ mod.sm_desc) ∧
      (∀ d, d ≠ mod.sm_desc → attr_find e'.e_attrs d = attr_find e.e_attrs d) ∧
      (rc = LDAP_NO_SUCH_ATTRIBUTE ↔
        (attr_find e.e_attrs mod.sm_desc = none ∧ permissive = false)) ∧
      (rc ≠ LDAP_NO_SUCH_ATTRIBUTE → rc = LDAP_SUCCESS) := by
  simp only [modify_delete_values, hnull]
  refine ⟨_, _, rfl, ?_, ?_, ?_, ?_, ?_⟩
  · simp only [attr_delete_snd]
    exact attr_find_filter_ne _ _
  · simp only [attr_delete_snd]
  · intro d hd
    simp only [attr_delete_snd]
    exact attr_find_filter_other _ _ _ hd
  · rw [attr_delete_fst]
    cases permissive <;> cases h : attr_find e.e_attrs mod.sm_desc <;>
      simp [LDAP_SUCCESS, LDAP_NO_SUCH_ATTRIBUTE]
  · rw [attr_delete_fst]
    cases permissive <;> cases h : attr_find e.e_attrs mod.sm_desc <;>
      simp [LDAP_SUCCESS, LDAP_NO_SUCH_ATTRIBUTE]


/-- Witness of C7: deleting all of `mail` from the entry `cn: Alice; mail: a@x,
b@x` succeeds and leaves the `cn` alone. -/
theorem modify_delete_values_whole_witness :
    ∃ rc e', modify_delete_values env_exact entry_mail
        { sm_op := LDAP_MOD_DELETE, sm_desc := desc_mail, sm_values := none,
          sm_nvalues := none } false = some (rc, e') ∧
      attr_find e'.e_attrs desc_mail = none ∧
      e'.e_attrs = [{ a_desc := desc_cn, a_vals := [BerVal.str "Alice"],
                      a_nvals := some [BerVal.str "alice"] }] ∧
      rc = LDAP_SUCCESS := by
  obtain ⟨rc, e', h1, h2, h3, _, h5, h6⟩ :=
    modify_delete_values_whole env_exact entry_mail
      { sm_op := LDAP_MOD_DELETE, sm_desc := desc_mail, sm_values := none,
        sm_nvalues := none } false rfl
  refine ⟨rc, e', h1, h2, ?_, ?_⟩
  · rw [h3]; decide
  · apply h6
    intro hrc
    have := (h5.1 hrc).1
    revert this
    decide

/-! ### Replace -/

theorem attr_find_append_new (attrs : List Attribute) (a : Attribute)
    (h : attr_find attrs a.a_desc = none) :
    attr_find (attrs ++ [a]) a.a_desc = some a := by
  unfold attr_find at h ⊢
  rw [List.find?_append, h]
  simp

theorem attr_find_append_other (attrs : List Attribute) (a : Attribute)
    (d : AttributeDescription) (h : d ≠ a.a_desc) :
    attr_find (attrs ++ [a]) d = attr_find attrs d := by
  unfold attr_find
  rw [List.find?_append]
  have : ¬ a.a_desc = d := fun h' => h h'.symm
  cases List.find? (fun b => decide (b.a_desc = d)) attrs <;> simp [this]

/-- C8: `modify_replace_values` first takes the attribute `mod.sm_desc` out of the
entry. Without a value list it returns `LDAP_SUCCESS` and that entry. With a
value list it returns what `modify_add_values` returns on that entry, and when
this is `LDAP_SUCCESS` the attribute holds exactly `mod.sm_values`, with
`mod.sm_nvalues` as normalized values, whatever it held before. In both cases
the other attributes are the ones the entry had, in their order. -/
theorem modify_replace_values_post (env : Env) (e : Entry) (mod : Modification)
    (permissive : Bool) (hop : mod.sm_op = LDAP_MOD_REPLACE) :
    attr_find (e.e_attrs.filter (fun a => a.a_desc ≠ mod.sm_desc)) mod.sm_desc = none ∧
    (mod.sm_values = none →
      modify_replace_values env e mod permissive =
        some (LDAP_SUCCESS, { e_attrs := e.e_attrs.filter (fun a => a.a_desc ≠ mod.sm_desc) })) ∧
    (∀ values, mod.sm_values = some values →
      modify_replace_values env e mod permissive =
        modify_add_values env { e_attrs := e.e_attrs.filter (fun a => a.a_desc ≠ mod.sm_desc) }
          mod permissive ∧
      ∃ rc e', modify_replace_values env e mod permissive = some (rc, e') ∧
        (rc = LDAP_SUCCESS →
          attr_find e'.e_attrs mod.sm_desc =
            some { a_desc := mod.sm_desc, a_vals := values, a_nvals := mod.sm_nvalues }) ∧
        e'.e_attrs.filter (fun a => a.a_desc ≠ mod.sm_desc) =
          e.e_attrs.filter (fun a => a.a_desc ≠ mod.sm_desc) ∧
        (∀ d, d ≠ mod.sm_desc → attr_find e'.e_attrs d = attr_find e.e_attrs d)) := by
  have hnone := attr_find_filter_ne e.e_attrs mod.sm_desc
  refine ⟨hnone, ?_, ?_⟩
  · intro hv
    simp [modify_replace_values, hv, attr_delete_snd]
  · intro values hv
    have hrep : modify_replace_values env e mod permissive =
        modify_add_values env { e_attrs := e.e_attrs.filter (fun a => a.a_desc ≠ mod.sm_desc) }
          mod permissive := by
      simp [modify_replace_values, hv, attr_delete_snd]
    refine ⟨hrep, ?_⟩
    rw [hrep]
    have hopn : ¬ (mod.sm_op ≠ LDAP_MOD_ADD ∧ mod.sm_op ≠ LDAP_MOD_REPLACE) := by
      rw [hop]; simp
    cases hm : env.merge_fails
        { e_attrs := e.e_attrs.filter (fun a => a.a_desc ≠ mod.sm_desc) } mod.sm_desc values
        mod.sm_nvalues with
    | true =>
      refine ⟨LDAP_OTHER, { e_attrs := e.e_attrs.filter (fun a => a.a_desc ≠ mod.sm_desc) },
        ?_, ?_, ?_, ?_⟩
      · simp only [modify_add_values, hopn, if_false, hnone, hv, attr_merge, hm, if_true]
        rfl
      · intro h; exact absurd h (by decide)
      · simp
      · intro d hd
        exact attr_find_filter_other _ _ _ hd
    | false =>
      refine ⟨LDAP_SUCCESS,
        { e_attrs := e.e_attrs.filter (fun a => a.a_desc ≠ mod.sm_desc) ++
            [{ a_desc := mod.sm_desc, a_vals := values, a_nvals := mod.sm_nvalues }] },
        ?_, ?_, ?_, ?_⟩
      · simp only [modify_add_values, hopn, if_false, hnone, hv, attr_merge, hm]
        rfl
      · intro _
        exact attr_find_append_new _
          { a_desc := mod.sm_desc, a_vals := values, a_nvals := mod.sm_nvalues } hnone
      · simp [List.filter_append]
      · intro d hd
        show attr_find (_ ++ [_]) d = _
        rw [attr_find_append_other _ _ _ hd]
        exact attr_find_filter_other _ _ _ hd

/-- Witness of C8: replacing `cn: Alice` by `cn: Bob` (normalized `bob`). -/
theorem modify_replace_values_post_witness :
    modify_replace_values env_exact entry_alice
        { sm_op := LDAP_MOD_REPLACE, sm_desc := desc_cn,
          sm_values := some [BerVal.str "Bob"], sm_nvalues := some [BerVal.str "bob"] } false =
      some (LDAP_SUCCESS,
        { e_attrs := [{ a_desc := desc_cn, a_vals := [BerVal.str "Bob"],
                        a_nvals := some [BerVal.str "bob"] }] }) ∧
    ∃ rc e', modify_replace_values env_exact entry_alice
        { sm_op := LDAP_MOD_REPLACE, sm_desc := desc_cn,
          sm_values := some [BerVal.str "Bob"], sm_nvalues := some [BerVal.str "bob"] } false =
        some (rc, e') ∧
      (rc = LDAP_SUCCESS →
        attr_find e'.e_attrs desc_cn =
          some { a_desc := desc_cn, a_vals := [BerVal.str "Bob"],
                 a_nvals := some [BerVal.str "bob"] }) := by
  refine ⟨by decide, ?_⟩
  obtain ⟨rc, e', h1, h2, _, _⟩ :=
    ((modify_replace_values_post env_exact entry_alice
      { sm_op := LDAP_MOD_REPLACE, sm_desc := desc_cn,
        sm_values := some [BerVal.str "Bob"], sm_nvalues := some [BerVal.str "bob"] } false
      rfl).2.2 [BerVal.str "Bob"] rfl).2
  exact ⟨rc, e', h1, h2⟩

/-! ### Increment -/

theorem attr_find_desc (attrs : List Attribute) (desc : AttributeDescription) (a : Attribute)
    (h : attr_find attrs desc = some a) : a.a_desc = desc := by
  unfold attr_find at h
  have := List.find?_some h
  simpa using this

theorem attr_find_store (attrs : List Attribute) (desc : AttributeDescription)
    (a a1 : Attribute) (h : attr_find attrs desc = some a) (h1 : a1.a_desc = desc) :
    attr_find (attr_store attrs desc a1) desc = some a1 := by
  induction attrs with
  | nil => simp [attr_find] at h
  | cons b rest ih =>
    unfold attr_store
    by_cases hb : b.a_desc = desc
    · simp [hb, attr_find, h1]
    · have hrest : attr_find rest desc = some a := by
        simpa [attr_find, List.find?_cons, hb] using h
      have := ih hrest
      simp only [attr_find] at this
      simp [hb, attr_find, List.find?_cons, this]

theorem attr_find_store_other (attrs : List Attribute) (desc d : AttributeDescription)
    (a1 : Attribute) (h1 : a1.a_desc = desc) (hd : d ≠ desc) :
    attr_find (attr_store attrs desc a1) d = attr_find attrs d := by
  induction attrs with
  | nil => rfl
  | cons b rest ih =>
    unfold attr_store
    by_cases hb : b.a_desc = desc
    · have h2 : ¬ b.a_desc = d := by rw [hb]; exact fun h' => hd h'.symm
      have h3 : ¬ a1.a_desc = d := by rw [h1]; exact fun h' => hd h'.symm
      rw [if_pos hb]
      simp only [attr_find, List.find?_cons, h2, h3, decide_False]
    · simp only [attr_find] at ih
      simp only [hb, if_false, attr_find, List.find?_cons, ih]

theorem attr_store_self (attrs : List Attribute) (desc : AttributeDescription) (a : Attribute)
    (h : attr_find attrs desc = some a) : attr_store attrs desc a = attrs := by
  induction attrs with
  | nil => rfl
  | cons b rest ih =>
    unfold attr_store
    by_cases hb : b.a_desc = desc
    · have : b = a := by simpa [attr_find, List.find?_cons, hb] using h
      rw [if_pos hb, this]
    · have hrest : attr_find rest desc = some a := by
        simpa [attr_find, List.find?_cons, hb] using h
      simp [hb, ih hrest]

theorem long_add_exact (x y : Int) (hlo : LONG_MIN ≤ x + y) (hhi : x + y ≤ LONG_MAX) :
    long_add x y = x + y := by
  unfold long_add
  unfold LONG_MIN at hlo
  unfold LONG_MAX at hhi
  have h : (x + y + 2 ^ 63) % 2 ^ 64 = x + y + 2 ^ 63 :=
    Int.emod_eq_of_lt (by omega) (by omega)
  omega

theorem increment_loop_exact (incr : Int) (l : List BerVal)
    (h : ∀ nv ∈ l, LONG_MIN ≤ atol nv.bv_val + incr ∧ atol nv.bv_val + incr ≤ LONG_MAX) :
    increment_loop incr l = l.map (fun nv => BerVal.str (fmt_ld (atol nv.bv_val + incr))) := by
  induction l with
  | nil => rfl
  | cons nv rest ih =>
    have h0 := h nv (List.mem_cons_self _ _)
    simp only [increment_loop, List.map_cons, long_add_exact _ _ h0.1 h0.2,
      ih (fun z hz => h z (List.mem_cons_of_mem _ hz)), BerVal.str]

theorem digit_char_facts (d : Nat) (h : d < 10) :
    isdigit (Char.ofNat (48 + d)) = true ∧ (Char.ofNat (48 + d)).toNat - 48 = d ∧
    isspace (Char.ofNat (48 + d)) = false ∧ (Char.ofNat (48 + d)).toNat ≠ 45 ∧
    (Char.ofNat (48 + d)).toNat ≠ 43 := by
  interval_cases d <;> decide

/-- The digits `put_digits` writes read back, by `atol_digits`, as the number. -/
theorem put_digits_spec (fuel : Nat) :
    ∀ (n : Nat) (acc : List Char), n < 10 ^ fuel → 0 < fuel →
      ∃ ds : List Char, put_digits fuel n acc = ds ++ acc ∧
        (∃ c cs, ds = c :: cs ∧ isdigit c = true ∧ isspace c = false ∧ c.toNat ≠ 45 ∧
          c.toNat ≠ 43) ∧
        ∀ (k : Nat) (tail : List Char),
          atol_digits (ds ++ tail) k = atol_digits tail (k * 10 ^ ds.length + n) := by
  induction fuel with
  | zero => intro n acc _ h; omega
  | succ fuel ih =>
    intro n acc hn _
    have hd := digit_char_facts (n % 10) (Nat.mod_lt _ (by norm_num))
    unfold put_digits
    by_cases h0 : n / 10 = 0
    · have hlt : n < 10 := by omega
      have hmod : n % 10 = n := Nat.mod_eq_of_lt hlt
      simp only [h0, if_true]
      rw [hmod] at hd ⊢
      refine ⟨[Char.ofNat (48 + n)], rfl, ⟨_, [], rfl, hd.1, hd.2.2.1, hd.2.2.2.1,
        hd.2.2.2.2⟩, ?_⟩
      intro k tail
      simp only [List.singleton_append, atol_digits, hd.1, if_true, hd.2.1, List.length_singleton,
        pow_one]
      rfl
    · simp only [h0, if_false]
      have hfuel : 0 < fuel := by
        rcases Nat.eq_zero_or_pos fuel with h | h
        · subst h
          simp at hn
          omega
        · exact h
      have hn1 : n / 10 < 10 ^ fuel := by
        rw [pow_succ] at hn
        omega
      obtain ⟨ds, hds, hfirst, hval⟩ := ih (n / 10) (Char.ofNat (48 + n % 10) :: acc) hn1 hfuel
      refine ⟨ds ++ [Char.ofNat (48 + n % 10)], by rw [hds]; simp, ?_, ?_⟩
      · obtain ⟨c, cs, hc, h1, h2, h3, h4⟩ := hfirst
        exact ⟨c, cs ++ [Char.ofNat (48 + n % 10)], by rw [hc]; rfl, h1, h2, h3, h4⟩
      · intro k tail
        rw [List.append_assoc, hval k ([Char.ofNat (48 + n % 10)] ++ tail)]
        simp only [List.singleton_append, atol_digits, hd.1, if_true, hd.2.1, List.length_append,
          List.length_singleton, pow_succ]
        congr 1
        have := Nat.div_add_mod n 10
        ring_nf
        omega

/-- `atol` reads the text `fmt_ld` writes for a `long` back as that `long`. -/
theorem atol_fmt_ld (x : Int) (hlo : LONG_MIN ≤ x) (hhi : x ≤ LONG_MAX) :
    atol (.heap (fmt_ld x)) = x := by
  obtain ⟨ds, hds, ⟨c, cs, hc, h1, h2, h3, h4⟩, hval⟩ :=
    put_digits_spec (x.natAbs + 1) x.natAbs []
      (lt_trans (Nat.lt_succ_self _) (Nat.lt_pow_self (by norm_num : 1 < 10) (x.natAbs + 1)))
      (by omega)
  have hv := hval 0 []
  simp only [List.append_nil, zero_mul, zero_add, atol_digits] at hv hds
  unfold atol fmt_ld
  simp only [hds]
  by_cases hneg : x < 0
  · simp only [hneg, if_true, atol_chars]
    have hsp : isspace (Char.ofNat 45) = false := by decide
    have h45 : (Char.ofNat 45).toNat = 45 := by decide
    simp only [List.dropWhile_cons, hsp, Bool.false_eq_true, if_false, atol_signed, h45, if_true,
      hv]
    have hx : -((x.natAbs : Nat) : Int) = x := by omega
    rw [hx]
    have h5 : ¬ x < LONG_MIN := by omega
    have h6 : ¬ LONG_MAX < x := by omega
    simp [h5, h6]
  · simp only [hneg, if_false, atol_chars]
    rw [hc] at hv ⊢
    simp only [List.dropWhile_cons, h2, Bool.false_eq_true, if_false, atol_signed, h3, h4, hv]
    have hx : ((x.natAbs : Nat) : Int) = x := by omega
    rw [hx]
    have h5 : ¬ x < LONG_MIN := by omega
    have h6 : ¬ LONG_MAX < x := by omega
    simp [h5, h6]

/-- C9: the increment write-back. For an attribute of integer syntax and an
increment `mod.sm_values[0]` that `atol` reads as a nonzero `k`, with no
`v + k` leaving the range of a `long` for the integers `v` the normalized
values denote, `modify_increment_values` returns `LDAP_SUCCESS` and each
normalized value becomes the decimal text of its `v + k`, in the same order and
number; in particular normalized values that are the decimal texts of
`v_0 .. v_n` become the decimal texts of `v_0 + k .. v_n + k`. The presentation
values change with them when `a_nvals` is `a_vals` and stay as they are when it
is an array of its own; the other attributes are untouched. -/
theorem modify_increment_values_writes (e : Entry) (mod : Modification) (permissive : Bool)
    (a : Attribute) (v0 : BerVal) (rest : List BerVal)
    (hfind : attr_find e.e_attrs mod.sm_desc = some a)
    (hsyn : a.a_desc.ad_type.sat_syntax_oid = SLAPD_INTEGER_SYNTAX)
    (hvals : mod.sm_values = some (v0 :: rest))
    (hk : atol v0.bv_val ≠ 0)
    (hrange : ∀ nv ∈ a.a_nvals.getD a.a_vals,
      LONG_MIN ≤ atol nv.bv_val + atol v0.bv_val ∧ atol nv.bv_val + atol v0.bv_val ≤ LONG_MAX) :
    ∃ e' a', modify_increment_values e mod permissive = some (LDAP_SUCCESS, e') ∧
      attr_find e'.e_attrs mod.sm_desc = some a' ∧
      a'.a_desc = a.a_desc ∧
      a'.a_nvals.getD a'.a_vals =
        (a.a_nvals.getD a.a_vals).map
          (fun nv => BerVal.str (fmt_ld (atol nv.bv_val + atol v0.bv_val))) ∧
      (a'.a_nvals.getD a'.a_vals).length = (a.a_nvals.getD a.a_vals).length ∧
      (∀ vs : List Int, a.a_nvals.getD a.a_vals = vs.map (fun v => BerVal.str (fmt_ld v)) →
        (∀ v ∈ vs, LONG_MIN ≤ v ∧ v ≤ LONG_MAX) →
        a'.a_nvals.getD a'.a_vals =
          vs.map (fun v => BerVal.str (fmt_ld (v + atol v0.bv_val)))) ∧
      (a.a_nvals = none → a'.a_nvals = none ∧
        a'.a_vals = a.a_vals.map
          (fun nv => BerVal.str (fmt_ld (atol nv.bv_val + atol v0.bv_val)))) ∧
      (a.a_nvals ≠ none → a'.a_nvals ≠ none ∧ a'.a_vals = a.a_vals) ∧
      (∀ d, d ≠ mod.sm_desc → attr_find e'.e_attrs d = attr_find e.e_attrs d) := by
  have hdesc := attr_find_desc _ _ _ hfind
  have hdec : ∀ (l : List BerVal) (vs : List Int),
      l = vs.map (fun v => BerVal.str (fmt_ld v)) →
      (∀ v ∈ vs, LONG_MIN ≤ v ∧ v ≤ LONG_MAX) →
      l.map (fun nv => BerVal.str (fmt_ld (atol nv.bv_val + atol v0.bv_val))) =
        vs.map (fun v => BerVal.str (fmt_ld (v + atol v0.bv_val))) := by
    intro l vs hl hvs
    rw [hl, List.map_map]
    apply List.map_congr_left
    intro v hv
    simp only [Function.comp, BerVal.str, atol_fmt_ld v (hvs v hv).1 (hvs v hv).2]
  cases hn : a.a_nvals with
  | none =>
    rw [hn] at hrange
    simp only [Option.getD_none] at hrange
    have hloop := increment_loop_exact _ _ hrange
    refine ⟨⟨attr_store e.e_attrs mod.sm_desc
              { a with a_vals := increment_loop (atol v0.bv_val) a.a_vals }⟩,
            { a with a_vals := increment_loop (atol v0.bv_val) a.a_vals }, ?_, ?_, rfl, ?_, ?_, ?_,
            ?_, ?_, ?_⟩
    · simp only [modify_increment_values, hfind, hsyn, hvals, if_true, hk, if_false, hn]
    · exact attr_find_store _ _ _ _ hfind hdesc
    · simp [hn, hloop]
    · simp [hn, hloop]
    · intro vs hvs hr
      simp only [hn, Option.getD_none, hloop]
      exact hdec _ vs hvs hr
    · intro _; exact ⟨hn, hloop⟩
    · intro h; exact absurd rfl h
    · intro d hd; exact attr_find_store_other _ _ _ _ hdesc hd
  | some nvals =>
    rw [hn] at hrange
    simp only [Option.getD_some] at hrange
    have hloop := increment_loop_exact _ _ hrange
    refine ⟨⟨attr_store e.e_attrs mod.sm_desc
              { a with a_nvals := some (increment_loop (atol v0.bv_val) nvals) }⟩,
            { a with a_nvals := some (increment_loop (atol v0.bv_val) nvals) }, ?_, ?_, rfl, ?_, ?_,
            ?_, ?_, ?_, ?_⟩
    · simp only [modify_increment_values, hfind, hsyn, hvals, if_true, hk, if_false, hn]
    · exact attr_find_store _ _ _ _ hfind hdesc
    · simp [hloop]
    · simp [hloop]
    · intro vs hvs hr
      simp only [Option.getD_some, hloop]
      exact hdec _ vs hvs hr
    · intro h; cases h
    · intro _; exact ⟨by simp, rfl⟩
    · intro d hd; exact attr_find_store_other _ _ _ _ hdesc hd


/-- Witness of C9: `uidNumber` with normalized values `100, 200`, incremented by
`5`: the normalized values become `105, 205`, and the presentation values, an
array of their own, stay. -/
theorem modify_increment_values_writes_witness :
    ∃ e' a', modify_increment_values entry_uid
        { sm_op := LDAP_MOD_INCREMENT, sm_desc := desc_uidNumber,
          sm_values := some [BerVal.str "5"], sm_nvalues := none } false =
        some (LDAP_SUCCESS, e') ∧
      attr_find e'.e_attrs desc_uidNumber = some a' ∧
      a'.a_nvals = some [BerVal.str "105", BerVal.str "205"] ∧
      a'.a_vals = [BerVal.str "0100", BerVal.str "0200"] := by
  obtain ⟨e', a', h1, h2, _, h4, _, _, _, h7, _⟩ :=
    modify_increment_values_writes entry_uid
      { sm_op := LDAP_MOD_INCREMENT, sm_desc := desc_uidNumber,
        sm_values := some [BerVal.str "5"], sm_nvalues := none } false
      { a_desc := desc_uidNumber, a_vals := [BerVal.str "0100", BerVal.str "0200"],
        a_nvals := some [BerVal.str "100", BerVal.str "200"] }
      (BerVal.str "5") [] (by decide) (by decide) rfl (by decide) (by decide)
  have h8 := h7 (by simp)
  refine ⟨e', a', h1, h2, ?_, h8.2⟩
  cases hn : a'.a_nvals with
  | none => exact absurd hn h8.1
  | some l =>
    rw [hn] at h4
    simp only [Option.getD_some] at h4
    rw [h4]
    decide

/-- C10 as stated fails: the increment value `5abc`, a number followed by
trailing garbage, is not a no-op; `atol` reads it as 5 and the normalized values
`100, 200` become `105, 205`. -/
theorem modify_increment_values_trailing_garbage :
    modify_increment_values entry_uid
        { sm_op := LDAP_MOD_INCREMENT, sm_desc := desc_uidNumber,
          sm_values := some [BerVal.str "5abc"], sm_nvalues := none } false =
      some (LDAP_SUCCESS,
        { e_attrs := [{ a_desc := desc_cn, a_vals := [BerVal.str "Alice"],
                        a_nvals := some [BerVal.str "alice"] },
                      { a_desc := desc_uidNumber,
                        a_vals := [BerVal.str "0100", BerVal.str "0200"],
                        a_nvals := some [BerVal.str "105", BerVal.str "205"] }] }) ∧
    modify_increment_values entry_uid
        { sm_op := LDAP_MOD_INCREMENT, sm_desc := desc_uidNumber,
          sm_values := some [BerVal.str "5abc"], sm_nvalues := none } false ≠
      some (LDAP_SUCCESS, entry_uid) := by
  constructor
  · decide
  · decide

/-- C10, amended: `modify_increment_values` leaves the entry as it is and returns
`LDAP_NO_SUCH_ATTRIBUTE` when the entry has no attribute `mod.sm_desc`,
otherwise `LDAP_CONSTRAINT_VIOLATION` when the attribute's syntax is not the
integer syntax, otherwise `LDAP_SUCCESS` when `atol` reads `mod.sm_values[0]` as
zero. -/
theorem modify_increment_values_unchanged (e : Entry) (mod : Modification)
    (permissive : Bool)
    (h : attr_find e.e_attrs mod.sm_desc = none ∨
      (∃ a, attr_find e.e_attrs mod.sm_desc = some a ∧
        a.a_desc.ad_type.sat_syntax_oid ≠ SLAPD_INTEGER_SYNTAX) ∨
      (∃ v0 rest, mod.sm_values = some (v0 :: rest) ∧ atol v0.bv_val = 0)) :
    modify_increment_values e mod permissive =
      some (match attr_find e.e_attrs mod.sm_desc with
            | none => LDAP_NO_SUCH_ATTRIBUTE
            | some a =>
              if a.a_desc.ad_type.sat_syntax_oid = SLAPD_INTEGER_SYNTAX then LDAP_SUCCESS
              else LDAP_CONSTRAINT_VIOLATION, e) := by
  cases hf : attr_find e.e_attrs mod.sm_desc with
  | none => simp [modify_increment_values, hf]
  | some a =>
    by_cases hs : a.a_desc.ad_type.sat_syntax_oid = SLAPD_INTEGER_SYNTAX
    · rcases h with h | ⟨a', ha', hne⟩ | ⟨v0, rest, hv, h0⟩
      · rw [hf] at h; cases h
      · rw [hf] at ha'; cases ha'; exact absurd hs hne
      · simp [modify_increment_values, hf, hs, hv, h0]
    · simp [modify_increment_values, hf, hs]

/-- What `atol` reads as zero, and what it does not: a zero, text without a
leading number, and a zero followed by other text are zero; a nonzero number
followed by other text is that number. -/
theorem atol_samples :
    atol (.heap "0") = 0 ∧ atol (.heap "abc") = 0 ∧ atol (.heap "") = 0 ∧
    atol (.heap "-0") = 0 ∧ atol (.heap "0abc") = 0 ∧ atol (.heap "5abc") = 5 ∧
    atol (.heap " -12 3") = -12 := by
  decide

/-- Witness of C10, amended: the increment values `abc` and `0` leave the
`uidNumber` entry as it is, with `LDAP_SUCCESS`. -/
theorem modify_increment_values_unchanged_witness :
    modify_increment_values entry_uid
        { sm_op := LDAP_MOD_INCREMENT, sm_desc := desc_uidNumber,
          sm_values := some [BerVal.str "abc"], sm_nvalues := none } false =
      some (LDAP_SUCCESS, entry_uid) := by
  have h := modify_increment_values_unchanged entry_uid
    { sm_op := LDAP_MOD_INCREMENT, sm_desc := desc_uidNumber,
      sm_values := some [BerVal.str "abc"], sm_nvalues := none } false
    (Or.inr (Or.inr ⟨BerVal.str "abc", [], rfl, by decide⟩))
  rw [h]
  decide

/-! ### Value-specific delete -/

theorem live_cons_dummy_none (v : BerVal) (vs : List BerVal) (h : v.bv_val = .dummy) :
    live (v :: vs) none = live vs none := by
  simp [live, List.filter_cons, h]

theorem live_cons_live_none (v : BerVal) (vs : List BerVal) (h : v.bv_val ≠ .dummy) :
    live (v :: vs) none = (v, v) :: live vs none := by
  simp [live, List.filter_cons, h]

theorem live_cons_dummy_some (v n : BerVal) (vs ns : List BerVal) (h : v.bv_val = .dummy) :
    live (v :: vs) (some (n :: ns)) = live vs (some ns) := by
  simp [live, List.filter_cons, h]

theorem live_cons_live_some (v n : BerVal) (vs ns : List BerVal) (h : v.bv_val ≠ .dummy) :
    live (v :: vs) (some (n :: ns)) = (v, n) :: live vs (some ns) := by
  simp [live, List.filter_cons, h]

theorem delete_scan_cons_none (env : Env) (f : Nat) (syn : SlapSyntax) (mr : MatchingRule)
    (mv : BerVal) (mnv : Option BerVal) (v : BerVal) (vs : List BerVal) (rc : Int) :
    delete_scan env f syn mr mv mnv (v :: vs) none rc =
      if (row_call env f syn mr (v, v) (mv, mnv)).1 ≠ LDAP_SUCCESS then
        some ⟨(row_call env f syn mr (v, v) (mv, mnv)).1, false, v :: vs, none⟩
      else if (row_call env f syn mr (v, v) (mv, mnv)).2 ≠ 0 then
        match delete_scan env f syn mr mv mnv vs none
            (row_call env f syn mr (v, v) (mv, mnv)).1 with
        | none => none
        | some r => some { r with vals := v :: r.vals }
      else if v.bv_val = .dummy then none
      else some ⟨(row_call env f syn mr (v, v) (mv, mnv)).1, true, v.mark :: vs, none⟩ := by
  cases mnv <;> simp only [delete_scan, row_call] <;> rfl

theorem delete_scan_cons_some (env : Env) (f : Nat) (syn : SlapSyntax) (mr : MatchingRule)
    (mv : BerVal) (mnv : Option BerVal) (v n : BerVal) (vs ns : List BerVal) (rc : Int) :
    delete_scan env f syn mr mv mnv (v :: vs) (some (n :: ns)) rc =
      if (row_call env f syn mr (v, n) (mv, mnv)).1 ≠ LDAP_SUCCESS then
        some ⟨(row_call env f syn mr (v, n) (mv, mnv)).1, false, v :: vs, some (n :: ns)⟩
      else if (row_call env f syn mr (v, n) (mv, mnv)).2 ≠ 0 then
        match delete_scan env f syn mr mv mnv vs (some ns)
            (row_call env f syn mr (v, n) (mv, mnv)).1 with
        | none => none
        | some r => some { r with vals := v :: r.vals, nvals := r.nvals.map (n :: ·) }
      else if v.bv_val = .dummy then none
      else if n.bv_val = .dummy then none
      else
        some ⟨(row_call env f syn mr (v, n) (mv, mnv)).1, true, v.mark :: vs,
          some (n.mark :: ns)⟩ := by
  cases mnv <;> simp only [delete_scan, row_call] <;> rfl

/-- The inner loop serves a request as the spec says: it marks the first live
row that matches, or leaves the arrays when no live row matches. -/
theorem delete_scan_spec (env : Env) (f : Nat) (syn : SlapSyntax) (mr : MatchingRule)
    (mv : BerVal) (mnv : Option BerVal)
    (hdummy : ∀ row : BerVal × BerVal, row.1.bv_val = .dummy → row.2.bv_val = .dummy →
      (row_call env f syn mr row (mv, mnv)).1 = LDAP_SUCCESS ∧
      (row_call env f syn mr row (mv, mnv)).2 ≠ 0)
    (vals : List BerVal) (nvals : Option (List BerVal)) (rc : Int)
    (hm : Marked vals nvals)
    (hnoerr : ∀ row ∈ live vals nvals, (row_call env f syn mr row (mv, mnv)).1 = LDAP_SUCCESS) :
    match remove_first (fun row => row_matches env f syn mr row (mv, mnv)) (live vals nvals) with
    | some rows1 =>
      ∃ r, delete_scan env f syn mr mv mnv vals nvals rc = some r ∧ r.found = true ∧
        r.rc = LDAP_SUCCESS ∧ r.nvals.isSome = nvals.isSome ∧ Marked r.vals r.nvals ∧
        live r.vals r.nvals = rows1
    | none =>
      ∃ rc1, delete_scan env f syn mr mv mnv vals nvals rc = some ⟨rc1, false, vals, nvals⟩ := by
  induction vals generalizing nvals rc with
  | nil =>
    simp [live, remove_first, delete_scan]
  | cons v vs ih =>
    cases nvals with
    | none =>
      rw [delete_scan_cons_none]
      by_cases hv : v.bv_val = .dummy
      · have hd : (row_call env f syn mr (v, v) (mv, mnv)).1 = LDAP_SUCCESS ∧
            (row_call env f syn mr (v, v) (mv, mnv)).2 ≠ 0 := hdummy (v, v) hv hv
        rw [live_cons_dummy_none v vs hv] at hnoerr ⊢
        have ih1 := ih none (row_call env f syn mr (v, v) (mv, mnv)).1 trivial hnoerr
        simp only [hd.1, ne_eq, not_true_eq_false, if_false, hd.2, not_false_eq_true, if_true]
        cases hrf : remove_first (fun row => row_matches env f syn mr row (mv, mnv))
            (live vs none) with
        | none =>
          rw [hrf] at ih1
          obtain ⟨rc1, h⟩ := ih1
          rw [hd.1] at h
          exact ⟨rc1, by rw [h]⟩
        | some rows1 =>
          rw [hrf] at ih1
          obtain ⟨r, hr, hf, hrc, hn, _, hl⟩ := ih1
          rw [hd.1] at hr
          have hnn : r.nvals = none := by
            cases h : r.nvals with
            | none => rfl
            | some x => rw [h] at hn; simp at hn
          refine ⟨{ r with vals := v :: r.vals }, by rw [hr], hf, hrc, hn, ?_, ?_⟩
          · show Marked (v :: r.vals) r.nvals
            rw [hnn]; trivial
          · show live (v :: r.vals) r.nvals = rows1
            rw [hnn, live_cons_dummy_none v _ hv, ← hnn, hl]
      · rw [live_cons_live_none v vs hv] at hnoerr ⊢
        have h1 := hnoerr (v, v) (List.mem_cons_self _ _)
        have hno1 : ∀ row ∈ live vs none,
            (row_call env f syn mr row (mv, mnv)).1 = LDAP_SUCCESS :=
          fun row hrow => hnoerr row (List.mem_cons_of_mem _ hrow)
        have ih1 := ih none (row_call env f syn mr (v, v) (mv, mnv)).1 trivial hno1
        simp only [h1, ne_eq, not_true_eq_false, if_false]
        by_cases h2 : (row_call env f syn mr (v, v) (mv, mnv)).2 = 0
        · have hp : row_matches env f syn mr (v, v) (mv, mnv) = true := by
            simp [row_matches, h1, h2]
          simp only [remove_first, hp, if_true, h2, not_true_eq_false, if_false]
          rw [if_neg hv]
          refine ⟨_, rfl, rfl, rfl, rfl, trivial, ?_⟩
          exact live_cons_dummy_none v.mark vs rfl
        · have hp : row_matches env f syn mr (v, v) (mv, mnv) = false := by
            simp [row_matches, h1, h2]
          simp only [remove_first, hp, Bool.false_eq_true, if_false, h2, not_false_eq_true,
            if_true]
          cases hrf : remove_first (fun row => row_matches env f syn mr row (mv, mnv))
              (live vs none) with
          | none =>
            rw [hrf] at ih1
            obtain ⟨rc1, h⟩ := ih1
            rw [h1] at h
            exact ⟨rc1, by rw [h]⟩
          | some rows1 =>
            rw [hrf] at ih1
            obtain ⟨r, hr, hf, hrc, hn, _, hl⟩ := ih1
            rw [h1] at hr
            have hnn : r.nvals = none := by
              cases h : r.nvals with
              | none => rfl
              | some x => rw [h] at hn; simp at hn
            refine ⟨{ r with vals := v :: r.vals }, by rw [hr], hf, hrc, hn, ?_, ?_⟩
            · show Marked (v :: r.vals) r.nvals
              rw [hnn]; trivial
            · show live (v :: r.vals) r.nvals = (v, v) :: rows1
              rw [hnn, live_cons_live_none v _ hv, ← hnn, hl]
    | some ns =>
      have hm1 : List.Forall₂ (fun v n => v.bv_val = .dummy ↔ n.bv_val = .dummy) (v :: vs) ns := hm
      cases hm1 with
      | @cons _ n _ ns1 hvn hrest =>
        rw [delete_scan_cons_some]
        have hmk : Marked vs (some ns1) := hrest
        by_cases hv : v.bv_val = .dummy
        · have hnd : n.bv_val = .dummy := hvn.1 hv
          have hd : (row_call env f syn mr (v, n) (mv, mnv)).1 = LDAP_SUCCESS ∧
              (row_call env f syn mr (v, n) (mv, mnv)).2 ≠ 0 := hdummy (v, n) hv hnd
          rw [live_cons_dummy_some v n vs ns1 hv] at hnoerr ⊢
          have ih1 := ih (some ns1) (row_call env f syn mr (v, n) (mv, mnv)).1 hmk hnoerr
          simp only [hd.1, ne_eq, not_true_eq_false, if_false, hd.2, not_false_eq_true, if_true]
          cases hrf : remove_first (fun row => row_matches env f syn mr row (mv, mnv))
              (live vs (some ns1)) with
          | none =>
            rw [hrf] at ih1
            obtain ⟨rc1, h⟩ := ih1
            rw [hd.1] at h
            exact ⟨rc1, by rw [h]; rfl⟩
          | some rows1 =>
            rw [hrf] at ih1
            obtain ⟨r, hr, hf, hrc, hn, hmr, hl⟩ := ih1
            rw [hd.1] at hr
            obtain ⟨x, hx⟩ : ∃ x, r.nvals = some x := by
              cases h : r.nvals with
              | none => rw [h] at hn; simp at hn
              | some x => exact ⟨x, rfl⟩
            refine ⟨{ r with vals := v :: r.vals, nvals := r.nvals.map (n :: ·) }, by rw [hr],
              hf, hrc, ?_, ?_, ?_⟩
            · simp [hx]
            · show Marked (v :: r.vals) (r.nvals.map (n :: ·))
              rw [hx] at hmr ⊢
              exact List.Forall₂.cons hvn hmr
            · show live (v :: r.vals) (r.nvals.map (n :: ·)) = rows1
              rw [hx] at hl ⊢
              simp only [Option.map_some']
              rw [live_cons_dummy_some v n _ _ hv, hl]
        · have hnl : n.bv_val ≠ .dummy := fun h => hv (hvn.2 h)
          rw [live_cons_live_some v n vs ns1 hv] at hnoerr ⊢
          have h1 := hnoerr (v, n) (List.mem_cons_self _ _)
          have hno1 : ∀ row ∈ live vs (some ns1),
              (row_call env f syn mr row (mv, mnv)).1 = LDAP_SUCCESS :=
            fun row hrow => hnoerr row (List.mem_cons_of_mem _ hrow)
          have ih1 := ih (some ns1) (row_call env f syn mr (v, n) (mv, mnv)).1 hmk hno1
          simp only [h1, ne_eq, not_true_eq_false, if_false]
          by_cases h2 : (row_call env f syn mr (v, n) (mv, mnv)).2 = 0
          · have hp : row_matches env f syn mr (v, n) (mv, mnv) = true := by
              simp [row_matches, h1, h2]
            simp only [remove_first, hp, if_true, h2, not_true_eq_false, if_false]
            rw [if_neg hv, if_neg hnl]
            refine ⟨_, rfl, rfl, rfl, rfl, ?_, ?_⟩
            · show Marked (v.mark :: vs) (some (n.mark :: ns1))
              exact List.Forall₂.cons (by simp [BerVal.mark]) hrest
            · exact live_cons_dummy_some v.mark n.mark vs ns1 rfl
          · have hp : row_matches env f syn mr (v, n) (mv, mnv) = false := by
              simp [row_matches, h1, h2]
            simp only [remove_first, hp, Bool.false_eq_true, if_false, h2, not_false_eq_true,
              if_true]
            cases hrf : remove_first (fun row => row_matches env f syn mr row (mv, mnv))
                (live vs (some ns1)) with
            | none =>
              rw [hrf] at ih1
              obtain ⟨rc1, h⟩ := ih1
              rw [h1] at h
              exact ⟨rc1, by rw [h]; rfl⟩
            | some rows1 =>
              rw [hrf] at ih1
              obtain ⟨r, hr, hf, hrc, hn, hmr, hl⟩ := ih1
              rw [h1] at hr
              obtain ⟨x, hx⟩ : ∃ x, r.nvals = some x := by
                cases h : r.nvals with
                | none => rw [h] at hn; simp at hn
                | some x => exact ⟨x, rfl⟩
              refine ⟨{ r with vals := v :: r.vals, nvals := r.nvals.map (n :: ·) },
                by rw [hr], hf, hrc, ?_, ?_, ?_⟩
              · simp [hx]
              · show Marked (v :: r.vals) (r.nvals.map (n :: ·))
                rw [hx] at hmr ⊢
                exact List.Forall₂.cons hvn hmr
              · show live (v :: r.vals) (r.nvals.map (n :: ·)) = (v, n) :: rows1
                rw [hx] at hl ⊢
                simp only [Option.map_some']
                rw [live_cons_live_some v n _ _ hv, hl]


theorem remove_first_sublist {α : Type} (p : α → Bool) (l l1 : List α)
    (h : remove_first p l = some l1) : List.Sublist l1 l := by
  induction l generalizing l1 with
  | nil => simp [remove_first] at h
  | cons x xs ih =>
    unfold remove_first at h
    by_cases hp : p x = true
    · simp only [hp, if_true, Option.some.injEq] at h
      rw [← h]
      exact List.sublist_cons_self x xs
    · simp only [hp, Bool.false_eq_true, if_false] at h
      cases hr : remove_first p xs with
      | none => rw [hr] at h; simp at h
      | some l2 =>
        rw [hr] at h
        simp only [Option.map_some', Option.some.injEq] at h
        rw [← h]
        exact List.Sublist.cons₂ x (ih l2 hr)

theorem remove_first_length {α : Type} (p : α → Bool) (l l1 : List α)
    (h : remove_first p l = some l1) : l1.length + 1 = l.length := by
  induction l generalizing l1 with
  | nil => simp [remove_first] at h
  | cons x xs ih =>
    unfold remove_first at h
    by_cases hp : p x = true
    · simp only [hp, if_true, Option.some.injEq] at h
      rw [← h]
      rfl
    · simp only [hp, Bool.false_eq_true, if_false] at h
      cases hr : remove_first p xs with
      | none => rw [hr] at h; simp at h
      | some l2 =>
        rw [hr] at h
        simp only [Option.map_some', Option.some.injEq] at h
        rw [← h]
        simp [ih l2 hr]

/-- The outer loop serves the requests as the spec says. -/
theorem delete_loop_spec (env : Env) (f : Nat) (syn : SlapSyntax) (mr : MatchingRule)
    (values : List BerVal) :
    ∀ (i : Nat) (nvalues : Option (List BerVal)) (vals : List BerVal)
      (nvals : Option (List BerVal)) (rc : Int),
      (∀ row : BerVal × BerVal, row.1.bv_val = .dummy → row.2.bv_val = .dummy →
        ∀ req ∈ requests values nvalues,
          (row_call env f syn mr row req).1 = LDAP_SUCCESS ∧
          (row_call env f syn mr row req).2 ≠ 0) →
      (∀ ns, nvalues = some ns → ns.length = values.length) →
      Marked vals nvals →
      (∀ row ∈ live vals nvals, ∀ req ∈ requests values nvalues,
        (row_call env f syn mr row req).1 = LDAP_SUCCESS) →
      ∃ l, delete_loop env f syn mr i values nvalues vals nvals rc = some l ∧
        Marked l.vals l.nvals ∧ l.nvals.isSome = nvals.isSome ∧
        live l.vals l.nvals =
          (spec_delete (row_matches env f syn mr) (requests values nvalues)
            (live vals nvals)).2 ∧
        ((spec_delete (row_matches env f syn mr) (requests values nvalues)
            (live vals nvals)).1 = values.length →
          l.skip_compact = false ∧ l.rc = if values = [] then rc else LDAP_SUCCESS) ∧
        ((spec_delete (row_matches env f syn mr) (requests values nvalues)
            (live vals nvals)).1 ≠ values.length →
          l.rc = LDAP_NO_SUCH_ATTRIBUTE ∧
          (l.skip_compact = true ↔
            (i = 0 ∧ (spec_delete (row_matches env f syn mr) (requests values nvalues)
              (live vals nvals)).1 = 0))) ∧
        ((spec_delete (row_matches env f syn mr) (requests values nvalues)
            (live vals nvals)).1 = 0 → l.vals = vals ∧ l.nvals = nvals) := by
  induction values with
  | nil =>
    intro i nvalues vals nvals rc _ _ hm _
    refine ⟨⟨rc, vals, nvals, false⟩, by simp [delete_loop], hm, rfl, ?_, ?_, ?_, ?_⟩
    · simp [requests, spec_delete]
    · intro _; simp
    · intro h; simp [requests, spec_delete] at h
    · intro _; exact ⟨rfl, rfl⟩
  | cons mv rest ih =>
    intro i nvalues vals nvals rc hdummy hlen hm hnoerr
    -- the request in hand
    obtain ⟨mnv, tl, hcur, hreq, htl⟩ : ∃ (mnv : Option BerVal) (tl : Option (List BerVal)),
        cur_slot nvalues = some mnv ∧
        requests (mv :: rest) nvalues = (mv, mnv) :: requests rest tl ∧
        (nvalues.map List.tail = tl ∧ ∀ ns, tl = some ns → ns.length = rest.length) := by
      cases nvalues with
      | none => exact ⟨none, none, rfl, rfl, rfl, by intro ns h; cases h⟩
      | some ns =>
        cases ns with
        | nil => have := hlen [] rfl; simp at this
        | cons n ns1 =>
          refine ⟨some n, some ns1, rfl, rfl, rfl, ?_⟩
          intro ns2 h
          cases h
          have := hlen (n :: ns1) rfl
          simpa using this
    have hscan := delete_scan_spec env f syn mr mv mnv
      (fun row h1 h2 => hdummy row h1 h2 (mv, mnv) (by rw [hreq]; exact List.mem_cons_self _ _))
      vals nvals rc hm
      (fun row hrow => hnoerr row hrow (mv, mnv) (by rw [hreq]; exact List.mem_cons_self _ _))
    rw [hreq]
    unfold delete_loop
    simp only [hcur]
    cases hrf : remove_first (fun row => row_matches env f syn mr row (mv, mnv))
        (live vals nvals) with
    | none =>
      rw [hrf] at hscan
      obtain ⟨rc1, hs⟩ := hscan
      simp only [hs, spec_delete, hrf]
      by_cases hi : i > 0
      · refine ⟨⟨LDAP_NO_SUCH_ATTRIBUTE, vals, nvals, false⟩, by simp [hi], hm, rfl, rfl, ?_, ?_,
          ?_⟩
        · intro h; simp at h
        · intro _; refine ⟨rfl, ?_⟩; simp; omega
        · intro _; exact ⟨rfl, rfl⟩
      · refine ⟨⟨LDAP_NO_SUCH_ATTRIBUTE, vals, nvals, true⟩, by simp [hi], hm, rfl, rfl, ?_, ?_,
          ?_⟩
        · intro h; simp at h
        · intro _; refine ⟨rfl, ?_⟩; simp; omega
        · intro _; exact ⟨rfl, rfl⟩
    | some rows1 =>
      rw [hrf] at hscan
      obtain ⟨r, hs, hf, hrc, hn, hmr, hl⟩ := hscan
      have hsub := remove_first_sublist _ _ _ hrf
      have hno1 : ∀ row ∈ live r.vals r.nvals, ∀ req ∈ requests rest tl,
          (row_call env f syn mr row req).1 = LDAP_SUCCESS := by
        intro row hrow req hreq1
        rw [hl] at hrow
        exact hnoerr row (hsub.subset hrow) req (by rw [hreq]; exact List.mem_cons_of_mem _ hreq1)
      obtain ⟨l, hl1, hl2, hl3, hl4, hl5, hl6, _⟩ :=
        ih (i + 1) tl r.vals r.nvals r.rc
          (fun row h1 h2 req hreq1 =>
            hdummy row h1 h2 req (by rw [hreq]; exact List.mem_cons_of_mem _ hreq1))
          htl.2 hmr hno1
      rw [hl] at hl4 hl5 hl6
      simp only [hs, hf, spec_delete, hrf, htl.1]
      refine ⟨l, by simpa using hl1, hl2, by rw [hl3, hn], hl4, ?_, ?_, ?_⟩
      · intro h
        have h1 := hl5 (by simpa using h)
        refine ⟨h1.1, ?_⟩
        rw [h1.2, hrc]
        simp
      · intro h
        have h1 := hl6 (by simpa using h)
        refine ⟨h1.1, ?_⟩
        rw [h1.2]
        simp
      · intro h; simp at h


/-- The compaction keeps exactly the live rows, in their order, in both arrays. -/
theorem delete_compact_spec (vals : List BerVal) :
    ∀ (nvals : Option (List BerVal)) (out : List BerVal) (nout : Option (List BerVal)),
      Marked vals nvals → nout.isSome = nvals.isSome →
      delete_compact vals nvals out nout =
        some (out ++ (live vals nvals).map (fun r => r.1),
              nout.map (fun l => l ++ (live vals nvals).map (fun r => r.2))) := by
  induction vals with
  | nil =>
    intro nvals out nout _ _
    cases nout <;> simp [delete_compact, live]
  | cons v vs ih =>
    intro nvals out nout hm hiso
    cases nvals with
    | none =>
      cases nout with
      | some x => simp at hiso
      | none =>
        by_cases hv : v.bv_val = .dummy
        · simp only [delete_compact, hv, if_true, live_cons_dummy_none v vs hv]
          exact ih none out none trivial rfl
        · simp only [delete_compact, hv, if_false, live_cons_live_none v vs hv]
          rw [ih none (out ++ [v]) none trivial rfl]
          simp
    | some ns =>
      have hm1 : List.Forall₂ (fun v n => v.bv_val = .dummy ↔ n.bv_val = .dummy) (v :: vs) ns := hm
      cases hm1 with
      | @cons _ n _ ns1 hvn hrest =>
        cases nout with
        | none => simp at hiso
        | some no =>
          by_cases hv : v.bv_val = .dummy
          · have hnd : n.bv_val = .dummy := hvn.1 hv
            simp only [delete_compact, hv, hnd, if_true, live_cons_dummy_some v n vs ns1 hv]
            exact ih (some ns1) out (some no) hrest rfl
          · simp only [delete_compact, hv, if_false, live_cons_live_some v n vs ns1 hv]
            rw [ih (some ns1) (out ++ [v]) ((some no).map (· ++ [n])) hrest rfl]
            simp


theorem forall2_of_no_dummy (vals ns : List BerVal) (hlen : ns.length = vals.length)
    (hv : ∀ v ∈ vals, v.bv_val ≠ .dummy) (hn : ∀ n ∈ ns, n.bv_val ≠ .dummy) :
    List.Forall₂ (fun v n => v.bv_val = .dummy ↔ n.bv_val = .dummy) vals ns := by
  induction vals generalizing ns with
  | nil =>
    cases ns with
    | nil => exact List.Forall₂.nil
    | cons n ns1 => simp at hlen
  | cons v vs ih =>
    cases ns with
    | nil => simp at hlen
    | cons n ns1 =>
      refine List.Forall₂.cons ?_ (ih ns1 (by simpa using hlen)
        (fun z hz => hv z (List.mem_cons_of_mem _ hz))
        (fun z hz => hn z (List.mem_cons_of_mem _ hz)))
      constructor
      · intro h; exact absurd h (hv v (List.mem_cons_self _ _))
      · intro h; exact absurd h (hn n (List.mem_cons_self _ _))

theorem Attribute.wf_marked (a : Attribute) (h : a.wf) : Marked a.a_vals a.a_nvals := by
  obtain ⟨hv, hn⟩ := h
  unfold Marked
  cases hns : a.a_nvals with
  | none => trivial
  | some ns =>
    rw [hns] at hn
    exact forall2_of_no_dummy _ _ hn.1 hv hn.2

theorem Attribute.wf_live (a : Attribute) (h : a.wf) : live a.a_vals a.a_nvals = a.rows := by
  obtain ⟨hv, _⟩ := h
  unfold live Attribute.rows
  rw [List.filter_eq_self]
  intro r hr
  have := hv r.1 (List.of_mem_zip hr).1
  simpa using this

theorem Attribute.wf_rows (a : Attribute) (h : a.wf) :
    a.rows.map (fun r => r.1) = a.a_vals ∧
    a.a_nvals.map (fun _ => a.rows.map (fun r => r.2)) = a.a_nvals := by
  obtain ⟨_, hn⟩ := h
  unfold Attribute.rows
  cases hns : a.a_nvals with
  | none =>
    simp only [Option.getD_none, Option.map_none', and_true]
    exact List.map_fst_zip _ _ (le_refl _)
  | some ns =>
    rw [hns] at hn
    simp only [Option.getD_some, Option.map_some', Option.some.injEq]
    exact ⟨List.map_fst_zip _ _ (by omega), List.map_snd_zip _ _ (by omega)⟩

theorem attr_store_filter (attrs : List Attribute) (desc : AttributeDescription)
    (a1 : Attribute) (h1 : a1.a_desc = desc) :
    (attr_store attrs desc a1).filter (fun b => b.a_desc ≠ desc) =
      attrs.filter (fun b => b.a_desc ≠ desc) := by
  induction attrs with
  | nil => rfl
  | cons b rest ih =>
    unfold attr_store
    by_cases hb : b.a_desc = desc
    · rw [if_pos hb]
      simp [List.filter_cons, hb, h1]
    · rw [if_neg hb]
      have hd : decide (b.a_desc ≠ desc) = true := by simp [hb]
      rw [List.filter_cons, List.filter_cons, hd, ih]


theorem delete_finish (e : Entry) (desc : AttributeDescription) (a : Attribute)
    (hfind : attr_find e.e_attrs desc = some a) (rc : Int) (rows : List (BerVal × BerVal)) :
    (if rows.map (fun r => r.1) = [] then
        some (if (attr_delete (attr_store e.e_attrs desc
                  ⟨desc, rows.map (fun r => r.1),
                    a.a_nvals.map (fun _ => rows.map (fun r => r.2))⟩) desc).1 ≠ 0
              then LDAP_NO_SUCH_ATTRIBUTE else rc,
              (⟨(attr_delete (attr_store e.e_attrs desc
                  ⟨desc, rows.map (fun r => r.1),
                    a.a_nvals.map (fun _ => rows.map (fun r => r.2))⟩) desc).2⟩ : Entry))
      else
        some (rc, (⟨attr_store e.e_attrs desc
                  ⟨desc, rows.map (fun r => r.1),
                    a.a_nvals.map (fun _ => rows.map (fun r => r.2))⟩⟩ : Entry))) =
      some (rc, with_rows e desc a rows) := by
  have hdesc := attr_find_desc _ _ _ hfind
  by_cases hr : rows = []
  · subst hr
    have hfs := attr_find_store e.e_attrs desc a
      ⟨desc, [], a.a_nvals.map (fun _ => [])⟩ hfind rfl
    have hflt := attr_store_filter e.e_attrs desc
      ⟨desc, [], a.a_nvals.map (fun _ => [])⟩ rfl
    simp only [List.map_nil, if_true, with_rows, attr_delete_fst, attr_delete_snd, hfs,
      Option.isSome_some]
    rw [hflt]
    simp [LDAP_SUCCESS]
  · have hm : ¬ rows.map (fun r => r.1) = [] := by simpa using hr
    rw [if_neg hm]
    simp only [with_rows, hr, if_false, hdesc]

/-- What `modify_delete_values` does with a value list, in the spec's words: the
requests are served in order against the rows of the attribute; the result code
tells whether all were served, and the entry holds the remaining rows, except
that a miss at the very first request leaves the entry as it is. -/
theorem modify_delete_values_spec (env : Env) (e : Entry) (mod : Modification)
    (permissive : Bool) (a : Attribute) (values : List BerVal) (mr : MatchingRule) (f : Nat)
    (hvals : mod.sm_values = some values)
    (hmr : mod.sm_desc.ad_type.sat_equality = some mr) (hf : mr.smr_match = some f)
    (hfind : attr_find e.e_attrs mod.sm_desc = some a)
    (hwf : a.wf)
    (hlen : ∀ ns, mod.sm_nvalues = some ns → ns.length = values.length)
    (hdummy : ∀ row : BerVal × BerVal, row.1.bv_val = .dummy → row.2.bv_val = .dummy →
      ∀ req ∈ requests values mod.sm_nvalues,
        (row_call env f mod.sm_desc.ad_type.sat_syntax mr row req).1 = LDAP_SUCCESS ∧
        (row_call env f mod.sm_desc.ad_type.sat_syntax mr row req).2 ≠ 0)
    (hnoerr : ∀ row ∈ a.rows, ∀ req ∈ requests values mod.sm_nvalues,
      (row_call env f mod.sm_desc.ad_type.sat_syntax mr row req).1 = LDAP_SUCCESS) :
    modify_delete_values env e mod permissive =
      some (
        if (spec_delete (row_matches env f mod.sm_desc.ad_type.sat_syntax mr)
            (requests values mod.sm_nvalues) a.rows).1 = values.length
        then LDAP_SUCCESS else LDAP_NO_SUCH_ATTRIBUTE,
        if (spec_delete (row_matches env f mod.sm_desc.ad_type.sat_syntax mr)
            (requests values mod.sm_nvalues) a.rows).1 = 0 ∧ values ≠ []
        then e
        else with_rows e mod.sm_desc a
          (spec_delete (row_matches env f mod.sm_desc.ad_type.sat_syntax mr)
            (requests values mod.sm_nvalues) a.rows).2) := by
  have hdesc := attr_find_desc _ _ _ hfind
  have hlive := a.wf_live hwf
  obtain ⟨l, hl1, hl2, hl3, hl4, hl5, hl6, hl7⟩ :=
    delete_loop_spec env f mod.sm_desc.ad_type.sat_syntax mr values 0 mod.sm_nvalues
      a.a_vals a.a_nvals LDAP_SUCCESS hdummy hlen (a.wf_marked hwf) (by rw [hlive]; exact hnoerr)
  rw [hlive] at hl4 hl5 hl6 hl7
  simp only [modify_delete_values, hvals, hmr, hf, hfind, hdesc, hl1]
  generalize hsp : spec_delete (row_matches env f mod.sm_desc.ad_type.sat_syntax mr)
    (requests values mod.sm_nvalues) a.rows = sp at hl4 hl5 hl6 hl7 ⊢
  by_cases hall : sp.1 = values.length
  · obtain ⟨hs, hrc⟩ := hl5 hall
    have hrc1 : l.rc = LDAP_SUCCESS := by rw [hrc]; split <;> rfl
    have hnot : ¬ (sp.1 = 0 ∧ values ≠ []) := by
      rintro ⟨h0, hne⟩
      rw [h0] at hall
      exact hne (List.length_eq_zero.1 hall.symm)
    rw [if_pos hall, if_neg hnot]
    simp only [hs, Bool.false_eq_true, if_false]
    rw [delete_compact_spec l.vals l.nvals [] _ hl2 (by simp)]
    have hnv : Option.map (fun l_1 => l_1 ++ List.map (fun r => r.2) (live l.vals l.nvals))
        (Option.map (fun _ => ([] : List BerVal)) l.nvals) =
        a.a_nvals.map (fun _ => (live l.vals l.nvals).map (fun r => r.2)) := by
      cases h1 : l.nvals <;> cases h2 : a.a_nvals <;> simp [h1, h2] at hl3 ⊢
    rw [hnv, hl4, hrc1]
    simp only [List.nil_append]
    exact delete_finish e mod.sm_desc a hfind LDAP_SUCCESS sp.2
  · obtain ⟨hrc, hskip⟩ := hl6 hall
    rw [if_neg hall, hrc]
    by_cases h0 : sp.1 = 0
    · have hne : values ≠ [] := by
        intro h
        rw [h0, h] at hall
        exact hall rfl
      have hs : l.skip_compact = true := hskip.2 ⟨rfl, h0⟩
      obtain ⟨hv1, hv2⟩ := hl7 h0
      rw [if_pos (And.intro h0 hne)]
      simp only [hs, if_true, hv1, hv2]
      have : ({ a_desc := mod.sm_desc, a_vals := a.a_vals, a_nvals := a.a_nvals } : Attribute) = a := by
        rw [← hdesc]
      rw [this, attr_store_self _ _ _ hfind]
    · have hs : l.skip_compact = false := by
        cases h : l.skip_compact with
        | false => rfl
        | true => exact absurd (hskip.1 h).2 h0
      have hnot : ¬ (sp.1 = 0 ∧ values ≠ []) := fun h => h0 h.1
      rw [if_neg hnot]
      simp only [hs, Bool.false_eq_true, if_false]
      rw [delete_compact_spec l.vals l.nvals [] _ hl2 (by simp)]
      have hnv : Option.map (fun l_1 => l_1 ++ List.map (fun r => r.2) (live l.vals l.nvals))
          (Option.map (fun _ => ([] : List BerVal)) l.nvals) =
          a.a_nvals.map (fun _ => (live l.vals l.nvals).map (fun r => r.2)) := by
        cases h1 : l.nvals <;> cases h2 : a.a_nvals <;> simp [h1, h2] at hl3 ⊢
      rw [hnv, hl4]
      simp only [List.nil_append]
      exact delete_finish e mod.sm_desc a hfind LDAP_NO_SUCH_ATTRIBUTE sp.2

theorem spec_delete_sublist {α β : Type} (p : α → β → Bool) (reqs : List β) :
    ∀ rows : List α, List.Sublist (spec_delete p reqs rows).2 rows := by
  induction reqs with
  | nil => intro rows; exact List.Sublist.refl _
  | cons r rs ih =>
    intro rows
    unfold spec_delete
    cases h : remove_first (fun x => p x r) rows with
    | none => exact List.Sublist.refl _
    | some rows1 => exact (ih rows1).trans (remove_first_sublist _ _ _ h)

theorem spec_delete_length {α β : Type} (p : α → β → Bool) (reqs : List β) :
    ∀ rows : List α,
      (spec_delete p reqs rows).2.length + (spec_delete p reqs rows).1 = rows.length := by
  induction reqs with
  | nil => intro rows; rfl
  | cons r rs ih =>
    intro rows
    unfold spec_delete
    cases h : remove_first (fun x => p x r) rows with
    | none => rfl
    | some rows1 =>
      have h1 := ih rows1
      have h2 := remove_first_length _ _ _ h
      simp only
      omega

theorem with_rows_find (e : Entry) (desc : AttributeDescription) (a : Attribute)
    (hfind : attr_find e.e_attrs desc = some a) (rows : List (BerVal × BerVal)) :
    (rows ≠ [] → attr_find (with_rows e desc a rows).e_attrs desc =
      some { a with a_vals := rows.map (fun r => r.1),
                    a_nvals := a.a_nvals.map (fun _ => rows.map (fun r => r.2)) }) ∧
    (rows = [] → attr_find (with_rows e desc a rows).e_attrs desc = none) ∧
    (∀ d, d ≠ desc → attr_find (with_rows e desc a rows).e_attrs d = attr_find e.e_attrs d) := by
  have hdesc := attr_find_desc _ _ _ hfind
  refine ⟨?_, ?_, ?_⟩
  · intro hr
    simp only [with_rows, hr, if_false]
    exact attr_find_store _ _ _ _ hfind hdesc
  · intro hr
    simp only [with_rows, hr, if_true]
    exact attr_find_filter_ne _ _
  · intro d hd
    by_cases hr : rows = []
    · simp only [with_rows, hr, if_true]
      exact attr_find_filter_other _ _ _ hd
    · simp only [with_rows, hr, if_false]
      exact attr_find_store_other _ _ _ _ hdesc hd

/-- C5: a value-specific Delete whose requested values each match a remaining
value. With the attribute `mod.sm_desc` found in the entry, an equality rule
that reports match or no match for its values and never a match for a slot
marked as deleted, and every requested value in turn matching some value that is
left (`spec_delete` serves all requests), `modify_delete_values` returns
`LDAP_SUCCESS` and the attribute holds the original rows without, for each
requested value in order, the first remaining row that matched: the remaining
rows are a sublist of the original ones (same relative order), one row is gone
per requested value, and a row is the pair of a presentation value and its
normalized value, so that the two arrays lose the same slots and stay equally
long. An attribute left without rows is taken out of the entry; the other
attributes are untouched. -/
theorem modify_delete_values_removes (env : Env) (e : Entry) (mod : Modification)
    (permissive : Bool) (a : Attribute) (values : List BerVal) (mr : MatchingRule) (f : Nat)
    (hvals : mod.sm_values = some values)
    (hmr : mod.sm_desc.ad_type.sat_equality = some mr) (hf : mr.smr_match = some f)
    (hfind : attr_find e.e_attrs mod.sm_desc = some a)
    (hwf : a.wf)
    (hlen : ∀ ns, mod.sm_nvalues = some ns → ns.length = values.length)
    (hdummy : ∀ row : BerVal × BerVal, row.1.bv_val = .dummy → row.2.bv_val = .dummy →
      ∀ req ∈ requests values mod.sm_nvalues,
        (row_call env f mod.sm_desc.ad_type.sat_syntax mr row req).1 = LDAP_SUCCESS ∧
        (row_call env f mod.sm_desc.ad_type.sat_syntax mr row req).2 ≠ 0)
    (hnoerr : ∀ row ∈ a.rows, ∀ req ∈ requests values mod.sm_nvalues,
      (row_call env f mod.sm_desc.ad_type.sat_syntax mr row req).1 = LDAP_SUCCESS)
    (hall : (spec_delete (row_matches env f mod.sm_desc.ad_type.sat_syntax mr)
      (requests values mod.sm_nvalues) a.rows).1 = values.length) :
    modify_delete_values env e mod permissive =
      some (LDAP_SUCCESS, with_rows e mod.sm_desc a
        (spec_delete (row_matches env f mod.sm_desc.ad_type.sat_syntax mr)
          (requests values mod.sm_nvalues) a.rows).2) ∧
    List.Sublist
      (spec_delete (row_matches env f mod.sm_desc.ad_type.sat_syntax mr)
        (requests values mod.sm_nvalues) a.rows).2 a.rows ∧
    (spec_delete (row_matches env f mod.sm_desc.ad_type.sat_syntax mr)
      (requests values mod.sm_nvalues) a.rows).2.length + values.length = a.a_vals.length ∧
    ((spec_delete (row_matches env f mod.sm_desc.ad_type.sat_syntax mr)
        (requests values mod.sm_nvalues) a.rows).2 ≠ [] →
      attr_find (with_rows e mod.sm_desc a
        (spec_delete (row_matches env f mod.sm_desc.ad_type.sat_syntax mr)
          (requests values mod.sm_nvalues) a.rows).2).e_attrs mod.sm_desc =
        some { a with
          a_vals := (spec_delete (row_matches env f mod.sm_desc.ad_type.sat_syntax mr)
            (requests values mod.sm_nvalues) a.rows).2.map (fun r => r.1),
          a_nvals := a.a_nvals.map (fun _ =>
            (spec_delete (row_matches env f mod.sm_desc.ad_type.sat_syntax mr)
              (requests values mod.sm_nvalues) a.rows).2.map (fun r => r.2)) }) ∧
    (∀ d, d ≠ mod.sm_desc →
      attr_find (with_rows e mod.sm_desc a
        (spec_delete (row_matches env f mod.sm_desc.ad_type.sat_syntax mr)
          (requests values mod.sm_nvalues) a.rows).2).e_attrs d = attr_find e.e_attrs d) := by
  have hspec := modify_delete_values_spec env e mod permissive a values mr f hvals hmr hf hfind
    hwf hlen hdummy hnoerr
  have hnot : ¬ ((spec_delete (row_matches env f mod.sm_desc.ad_type.sat_syntax mr)
      (requests values mod.sm_nvalues) a.rows).1 = 0 ∧ values ≠ []) := by
    rintro ⟨h0, hne⟩
    rw [h0] at hall
    exact hne (List.length_eq_zero.1 hall.symm)
  rw [if_pos hall, if_neg hnot] at hspec
  have hlenr := spec_delete_length (row_matches env f mod.sm_desc.ad_type.sat_syntax mr)
    (requests values mod.sm_nvalues) a.rows
  have hrows : a.rows.length = a.a_vals.length := by
    rw [← (a.wf_rows hwf).1, List.length_map]
  obtain ⟨hw1, _, hw3⟩ := with_rows_find e mod.sm_desc a hfind
    (spec_delete (row_matches env f mod.sm_desc.ad_type.sat_syntax mr)
      (requests values mod.sm_nvalues) a.rows).2
  refine ⟨hspec, spec_delete_sublist _ _ _, by omega, hw1, hw3⟩

theorem env_exact_dummy (syn : SlapSyntax) (values : List BerVal)
    (nvalues : Option (List BerVal))
    (hv : ∀ v ∈ values, v.bv_val ≠ .dummy)
    (hn : ∀ ns, nvalues = some ns → ∀ n ∈ ns, n.bv_val ≠ .dummy) :
    ∀ row : BerVal × BerVal, row.1.bv_val = .dummy → row.2.bv_val = .dummy →
      ∀ req ∈ requests values nvalues,
        (row_call env_exact 0 syn rule_eq row req).1 = LDAP_SUCCESS ∧
        (row_call env_exact 0 syn rule_eq row req).2 ≠ 0 := by
  intro row h1 h2
  induction values generalizing nvalues with
  | nil => intro req hreq; simp [requests] at hreq
  | cons v vs ih =>
    intro req hreq
    have hvd := hv v (List.mem_cons_self _ _)
    cases nvalues with
    | none =>
      simp only [requests, List.mem_cons] at hreq
      rcases hreq with h | h
      · subst h
        have : ¬ BvPtr.dummy = v.bv_val := fun h => hvd h.symm
        simp [row_call, env_exact, h1, this]
      · exact ih none (fun z hz => hv z (List.mem_cons_of_mem _ hz))
          (by intro ns h; cases h) req h
    | some ns =>
      cases ns with
      | nil => simp [requests] at hreq
      | cons n ns1 =>
        simp only [requests, List.mem_cons] at hreq
        rcases hreq with h | h
        · subst h
          have hnd := hn (n :: ns1) rfl n (List.mem_cons_self _ _)
          have : ¬ BvPtr.dummy = n.bv_val := fun h => hnd h.symm
          simp [row_call, env_exact, h2, this]
        · exact ih (some ns1) (fun z hz => hv z (List.mem_cons_of_mem _ hz))
            (by
              intro ns2 h z hz
              cases h
              exact hn (n :: ns1) rfl z (List.mem_cons_of_mem _ hz)) req h

/-- Witness of C5: `uidNumber` with values `0100, 0200` (normalized `100, 200`);
deleting `0200` (normalized `200`) succeeds and leaves `0100` (normalized
`100`). -/
theorem modify_delete_values_removes_witness :
    modify_delete_values env_exact entry_uid
        { sm_op := LDAP_MOD_DELETE, sm_desc := desc_uidNumber,
          sm_values := some [BerVal.str "0200"], sm_nvalues := some [BerVal.str "200"] } false =
      some (LDAP_SUCCESS,
        { e_attrs := [{ a_desc := desc_cn, a_vals := [BerVal.str "Alice"],
                        a_nvals := some [BerVal.str "alice"] },
                      { a_desc := desc_uidNumber, a_vals := [BerVal.str "0100"],
                        a_nvals := some [BerVal.str "100"] }] }) := by
  have h := (modify_delete_values_removes env_exact entry_uid
    { sm_op := LDAP_MOD_DELETE, sm_desc := desc_uidNumber,
      sm_values := some [BerVal.str "0200"], sm_nvalues := some [BerVal.str "200"] } false
    { a_desc := desc_uidNumber, a_vals := [BerVal.str "0100", BerVal.str "0200"],
      a_nvals := some [BerVal.str "100", BerVal.str "200"] }
    [BerVal.str "0200"] rule_eq 0 rfl rfl rfl (by decide)
    (by simp [Attribute.wf, BerVal.str])
    (by intro ns h; cases h; rfl)
    (env_exact_dummy _ _ _ (by simp [BerVal.str]) (by intro ns h; cases h; simp [BerVal.str]))
    (by intro row _ req _; cases req with | mk r1 r2 => cases r2 <;> rfl)
    (by decide)).1
  rw [h]
  decide

/-- C4, the code at the scenario: the entry has `cn: Alice` (normalized `alice`),
the modification adds `cn: alice` (normalized `alice`), and the equality rule
reports a match for the two normalized values (return code `LDAP_SUCCESS`,
`match = 0`). `modify_add_values` tests the return code only, so it goes on to
the merge: it returns `LDAP_SUCCESS` and the entry holds the value twice. -/
theorem modify_add_values_duplicate_accepted :
    value_match env_exact desc_cn rule_eq add_flags_normalized
        (BerVal.str "alice") (BerVal.str "alice") = (LDAP_SUCCESS, 0) ∧
    modify_add_values env_exact entry_alice
        { sm_op := LDAP_MOD_ADD, sm_desc := desc_cn,
          sm_values := some [BerVal.str "alice"], sm_nvalues := some [BerVal.str "alice"] }
        false =
      some (LDAP_SUCCESS,
        { e_attrs := [{ a_desc := desc_cn,
                        a_vals := [BerVal.str "Alice", BerVal.str "alice"],
                        a_nvals := some [BerVal.str "alice", BerVal.str "alice"] }] }) ∧
    modify_add_values env_exact entry_alice
        { sm_op := LDAP_MOD_ADD, sm_desc := desc_cn,
          sm_values := some [BerVal.str "alice"], sm_nvalues := some [BerVal.str "alice"] }
        true =
      some (LDAP_SUCCESS,
        { e_attrs := [{ a_desc := desc_cn,
                        a_vals := [BerVal.str "Alice", BerVal.str "alice"],
                        a_nvals := some [BerVal.str "alice", BerVal.str "alice"] }] }) := by
  decide

/-! ### Add and delete without an equality rule -/

/-- C11 as stated fails when the entry does not hold the attribute: `jpegPhoto`
has no equality rule and the entry has no `jpegPhoto`; the add returns
`LDAP_SUCCESS` and the entry holds the new attribute. -/
theorem modify_add_values_new_without_rule :
    desc_photo.ad_type.sat_equality = none ∧
    attr_find entry_alice.e_attrs desc_photo = none ∧
    modify_add_values env_exact entry_alice
        { sm_op := LDAP_MOD_ADD, sm_desc := desc_photo,
          sm_values := some [BerVal.str "JFIF"], sm_nvalues := none } false =
      some (LDAP_SUCCESS,
        { e_attrs := [{ a_desc := desc_cn, a_vals := [BerVal.str "Alice"],
                        a_nvals := some [BerVal.str "alice"] },
                      { a_desc := desc_photo, a_vals := [BerVal.str "JFIF"],
                        a_nvals := none }] }) := by
  decide

/-- C11, amended: for an Add (or a Replace that reached `modify_add_values`)
whose attribute type has no equality rule, or a rule without a match routine:
when the entry holds the attribute, `modify_add_values` returns
`LDAP_INAPPROPRIATE_MATCHING` and leaves the entry unchanged; when the entry does
not hold the attribute, the rule is not asked for and the values are merged: the
result is `LDAP_SUCCESS` with the attribute created at the end of the entry, or
`LDAP_OTHER` with the entry unchanged when the merge fails. -/
theorem modify_add_values_no_rule (env : Env) (e : Entry) (mod : Modification)
    (permissive : Bool)
    (hop : mod.sm_op = LDAP_MOD_ADD ∨ mod.sm_op = LDAP_MOD_REPLACE)
    (hrule : mod.sm_desc.ad_type.sat_equality = none ∨
      ∃ mr, mod.sm_desc.ad_type.sat_equality = some mr ∧ mr.smr_match = none) :
    (∀ a, attr_find e.e_attrs mod.sm_desc = some a →
      modify_add_values env e mod permissive = some (LDAP_INAPPROPRIATE_MATCHING, e)) ∧
    (attr_find e.e_attrs mod.sm_desc = none → ∀ values, mod.sm_values = some values →
      modify_add_values env e mod permissive =
        some (if env.merge_fails e mod.sm_desc values mod.sm_nvalues then (LDAP_OTHER, e)
              else (LDAP_SUCCESS,
                { e_attrs := e.e_attrs ++
                    [{ a_desc := mod.sm_desc, a_vals := values, a_nvals := mod.sm_nvalues }] }))) := by
  have hop' : ¬ (mod.sm_op ≠ LDAP_MOD_ADD ∧ mod.sm_op ≠ LDAP_MOD_REPLACE) := by
    rintro ⟨h1, h2⟩
    rcases hop with h | h
    · exact h1 h
    · exact h2 h
  constructor
  · intro a ha
    rcases hrule with h | ⟨mr, h, hm⟩
    · simp only [modify_add_values, if_neg hop', ha, h]
    · simp only [modify_add_values, if_neg hop', ha, h, hm, Option.isNone_none, if_true]
  · intro ha values hv
    simp only [modify_add_values, if_neg hop', ha, hv, attr_merge]
    cases hm : env.merge_fails e mod.sm_desc values mod.sm_nvalues
    · simp
    · simp [LDAP_OTHER]

/-- Witness of C11, amended: adding a second `jpegPhoto` to an entry that holds
one is refused, and the entry stays. -/
theorem modify_add_values_no_rule_witness :
    modify_add_values env_exact entry_photo
        { sm_op := LDAP_MOD_ADD, sm_desc := desc_photo,
          sm_values := some [BerVal.str "PNG"], sm_nvalues := none } false =
      some (LDAP_INAPPROPRIATE_MATCHING, entry_photo) :=
  (modify_add_values_no_rule env_exact entry_photo
    { sm_op := LDAP_MOD_ADD, sm_desc := desc_photo,
      sm_values := some [BerVal.str "PNG"], sm_nvalues := none } false
    (Or.inl rfl) (Or.inl rfl)).1
    { a_desc := desc_photo, a_vals := [BerVal.str "JFIF"], a_nvals := none } (by decide)

/-- C12: a Delete with a value list. When the attribute type has no equality
rule, or its rule has no match routine, `modify_delete_values` returns
`LDAP_INAPPROPRIATE_MATCHING`, whatever the permissive flag and whether or not
the entry holds the attribute. Otherwise, when the entry does not hold the
attribute, it returns `LDAP_SUCCESS` if permissive is set and
`LDAP_NO_SUCH_ATTRIBUTE` if not. In each case the entry is unchanged. -/
theorem modify_delete_values_no_rule_or_attr (env : Env) (e : Entry) (mod : Modification)
    (permissive : Bool) (values : List BerVal)
    (hvals : mod.sm_values = some values) :
    ((mod.sm_desc.ad_type.sat_equality = none ∨
        ∃ mr, mod.sm_desc.ad_type.sat_equality = some mr ∧ mr.smr_match = none) →
      modify_delete_values env e mod permissive = some (LDAP_INAPPROPRIATE_MATCHING, e)) ∧
    (∀ mr f, mod.sm_desc.ad_type.sat_equality = some mr → mr.smr_match = some f →
      attr_find e.e_attrs mod.sm_desc = none →
      modify_delete_values env e mod permissive =
        some (if permissive then LDAP_SUCCESS else LDAP_NO_SUCH_ATTRIBUTE, e)) := by
  constructor
  · rintro (h | ⟨mr, h, hm⟩)
    · simp only [modify_delete_values, hvals, h]
    · simp only [modify_delete_values, hvals, h, hm]
  · intro mr f h hm ha
    simp only [modify_delete_values, hvals, h, hm, ha]
    cases permissive <;> simp

/-- Witness of C12: deleting a value of `jpegPhoto` (no equality rule) from an
entry that holds one, and deleting a value of `mail` from an entry without
`mail`, with and without the permissive flag. -/
theorem modify_delete_values_no_rule_or_attr_witness :
    modify_delete_values env_exact entry_photo
        { sm_op := LDAP_MOD_DELETE, sm_desc := desc_photo,
          sm_values := some [BerVal.str "JFIF"], sm_nvalues := none } true =
      some (LDAP_INAPPROPRIATE_MATCHING, entry_photo) ∧
    modify_delete_values env_exact entry_alice
        { sm_op := LDAP_MOD_DELETE, sm_desc := desc_mail,
          sm_values := some [BerVal.str "a@x"], sm_nvalues := none } true =
      some (LDAP_SUCCESS, entry_alice) ∧
    modify_delete_values env_exact entry_alice
        { sm_op := LDAP_MOD_DELETE, sm_desc := desc_mail,
          sm_values := some [BerVal.str "a@x"], sm_nvalues := none } false =
      some (LDAP_NO_SUCH_ATTRIBUTE, entry_alice) :=
  ⟨(modify_delete_values_no_rule_or_attr env_exact entry_photo
      { sm_op := LDAP_MOD_DELETE, sm_desc := desc_photo,
        sm_values := some [BerVal.str "JFIF"], sm_nvalues := none } true
      [BerVal.str "JFIF"] rfl).1 (Or.inl rfl),
   (modify_delete_values_no_rule_or_attr env_exact entry_alice
      { sm_op := LDAP_MOD_DELETE, sm_desc := desc_mail,
        sm_values := some [BerVal.str "a@x"], sm_nvalues := none } true
      [BerVal.str "a@x"] rfl).2 rule_eq 0 rfl rfl (by decide),
   (modify_delete_values_no_rule_or_attr env_exact entry_alice
      { sm_op := LDAP_MOD_DELETE, sm_desc := desc_mail,
        sm_values := some [BerVal.str "a@x"], sm_nvalues := none } false
      [BerVal.str "a@x"] rfl).2 rule_eq 0 rfl rfl (by decide)⟩

/-! ### Replace after replace -/

/-- `modify_replace_values` reads the entry only through its attributes other
than the one of the modification. -/
theorem modify_replace_values_congr (env : Env) (e e' : Entry) (mod : Modification)
    (permissive : Bool)
    (h : e'.e_attrs.filter (fun a => a.a_desc ≠ mod.sm_desc) =
      e.e_attrs.filter (fun a => a.a_desc ≠ mod.sm_desc)) :
    modify_replace_values env e' mod permissive = modify_replace_values env e mod permissive := by
  simp only [modify_replace_values, attr_delete_snd, h]

/-- The entry `modify_replace_values` returns has, outside the attribute of the
modification, the attributes it was given. -/
theorem modify_replace_values_rest (env : Env) (e : Entry) (mod : Modification)
    (permissive : Bool) (rc : Int) (e' : Entry)
    (h : modify_replace_values env e mod permissive = some (rc, e')) :
    e'.e_attrs.filter (fun a => a.a_desc ≠ mod.sm_desc) =
      e.e_attrs.filter (fun a => a.a_desc ≠ mod.sm_desc) := by
  simp only [modify_replace_values, attr_delete_snd] at h
  cases hv : mod.sm_values with
  | none =>
    simp only [hv, Option.isSome_none, Bool.false_eq_true, if_false, Option.some.injEq,
      Prod.mk.injEq] at h
    rw [← h.2]
    simp
  | some values =>
    simp only [hv, Option.isSome_some, if_true, modify_add_values, attr_find_filter_ne,
      attr_merge] at h
    by_cases hop : mod.sm_op ≠ LDAP_MOD_ADD ∧ mod.sm_op ≠ LDAP_MOD_REPLACE
    · rw [if_pos hop] at h
      exact absurd h (by simp)
    · rw [if_neg hop] at h
      cases hm : env.merge_fails ⟨e.e_attrs.filter (fun a => a.a_desc ≠ mod.sm_desc)⟩
          mod.sm_desc values mod.sm_nvalues with
      | true =>
        simp only [hm, if_true] at h
        simp only [ne_eq, Int.reduceNeg, Int.neg_eq_zero, one_ne_zero, not_false_eq_true,
          if_true, Option.some.injEq, Prod.mk.injEq] at h
        rw [← h.2]
        simp
      | false =>
        simp only [hm, Bool.false_eq_true, if_false, ne_eq, not_true_eq_false,
          Option.some.injEq, Prod.mk.injEq] at h
        rw [← h.2]
        simp [List.filter_append]

/-- C16: replace after an empty replace. Let `m0` be a modification of the
attribute of `m` without values. `modify_replace_values` with `m0` succeeds and
returns the entry without that attribute (all other attributes as in `e`);
`modify_replace_values` with `m` on that entry gives the result code and entry
it gives on `e` itself, so the two calls in sequence give what the call with `m`
alone gives; and applying `m` a second time to the result of applying `m` gives
the same result code and entry again. -/
theorem modify_replace_values_after_empty (env : Env) (e : Entry) (m m0 : Modification)
    (permissive : Bool)
    (hd : m0.sm_desc = m.sm_desc) (hv : m0.sm_values = none) :
    modify_replace_values env e m0 permissive =
      some (LDAP_SUCCESS, { e_attrs := e.e_attrs.filter (fun a => a.a_desc ≠ m.sm_desc) }) ∧
    attr_find (e.e_attrs.filter (fun a => a.a_desc ≠ m.sm_desc)) m.sm_desc = none ∧
    (∀ d, d ≠ m.sm_desc →
      attr_find (e.e_attrs.filter (fun a => a.a_desc ≠ m.sm_desc)) d = attr_find e.e_attrs d) ∧
    modify_replace_values env
        { e_attrs := e.e_attrs.filter (fun a => a.a_desc ≠ m.sm_desc) } m permissive =
      modify_replace_values env e m permissive ∧
    (modify_replace_values env e m0 permissive).bind
        (fun r => modify_replace_values env r.2 m permissive) =
      modify_replace_values env e m permissive ∧
    (modify_replace_values env e m permissive).bind
        (fun r => modify_replace_values env r.2 m permissive) =
      modify_replace_values env e m permissive := by
  have h0 : modify_replace_values env e m0 permissive =
      some (LDAP_SUCCESS, { e_attrs := e.e_attrs.filter (fun a => a.a_desc ≠ m.sm_desc) }) := by
    simp only [modify_replace_values, attr_delete_snd, hv, hd, Option.isSome_none,
      Bool.false_eq_true, if_false]
  have h1 : modify_replace_values env
        { e_attrs := e.e_attrs.filter (fun a => a.a_desc ≠ m.sm_desc) } m permissive =
      modify_replace_values env e m permissive :=
    modify_replace_values_congr env e _ m permissive (by simp)
  refine ⟨h0, attr_find_filter_ne _ _, fun d hne => attr_find_filter_other _ _ _ hne, h1, ?_, ?_⟩
  · rw [h0]
    exact h1
  · cases hr : modify_replace_values env e m permissive with
    | none => rfl
    | some r =>
      obtain ⟨rc, e'⟩ := r
      show modify_replace_values env e' m permissive = some (rc, e')
      rw [← hr]
      exact modify_replace_values_congr env e e' m permissive
        (modify_replace_values_rest env e m permissive rc e' hr)

/-- Witness of C16: on the entry `cn: Alice`, an empty replace of `cn` followed by
the replace `cn: Bob` gives `LDAP_SUCCESS` and the entry `cn: Bob`, as the
replace `cn: Bob` alone does, once and twice. -/
theorem modify_replace_values_after_empty_witness :
    (modify_replace_values env_exact entry_alice
        { sm_op := LDAP_MOD_REPLACE, sm_desc := desc_cn, sm_values := none,
          sm_nvalues := none } false).bind
        (fun r => modify_replace_values env_exact r.2
          { sm_op := LDAP_MOD_REPLACE, sm_desc := desc_cn,
            sm_values := some [BerVal.str "Bob"], sm_nvalues := some [BerVal.str "bob"] }
          false) =
      modify_replace_values env_exact entry_alice
        { sm_op := LDAP_MOD_REPLACE, sm_desc := desc_cn,
          sm_values := some [BerVal.str "Bob"], sm_nvalues := some [BerVal.str "bob"] } false ∧
    modify_replace_values env_exact entry_alice
        { sm_op := LDAP_MOD_REPLACE, sm_desc := desc_cn,
          sm_values := some [BerVal.str "Bob"], sm_nvalues := some [BerVal.str "bob"] } false =
      some (LDAP_SUCCESS,
        { e_attrs := [{ a_desc := desc_cn, a_vals := [BerVal.str "Bob"],
                        a_nvals := some [BerVal.str "bob"] }] }) :=
  ⟨(modify_replace_values_after_empty env_exact entry_alice
      { sm_op := LDAP_MOD_REPLACE, sm_desc := desc_cn,
        sm_values := some [BerVal.str "Bob"], sm_nvalues := some [BerVal.str "bob"] }
      { sm_op := LDAP_MOD_REPLACE, sm_desc := desc_cn, sm_values := none,
        sm_nvalues := none } false rfl rfl).2.2.2.2.1,
   by decide⟩

/-! ### Add, then delete -/

/-- C14, the code at a round trip: the entry has `cn: Alice` (normalized
`alice`). Adding `cn: alice` (normalized `alice`) succeeds, because
`modify_add_values` does not read what the equality rule reports, and the entry
holds `Alice, alice`. Deleting `cn: alice` (normalized `alice`) then returns
`LDAP_SUCCESS` and removes the first value the rule matches, which is `Alice`:
the entry is left with `cn: alice` and differs from the one the round trip
started with. -/
theorem modify_add_delete_round_trip_differs :
    modify_add_values env_exact entry_alice
        { sm_op := LDAP_MOD_ADD, sm_desc := desc_cn,
          sm_values := some [BerVal.str "alice"], sm_nvalues := some [BerVal.str "alice"] }
        false =
      some (LDAP_SUCCESS,
        { e_attrs := [{ a_desc := desc_cn,
                        a_vals := [BerVal.str "Alice", BerVal.str "alice"],
                        a_nvals := some [BerVal.str "alice", BerVal.str "alice"] }] }) ∧
    modify_delete_values env_exact
        { e_attrs := [{ a_desc := desc_cn,
                        a_vals := [BerVal.str "Alice", BerVal.str "alice"],
                        a_nvals := some [BerVal.str "alice", BerVal.str "alice"] }] }
        { sm_op := LDAP_MOD_DELETE, sm_desc := desc_cn,
          sm_values := some [BerVal.str "alice"], sm_nvalues := some [BerVal.str "alice"] }
        false =
      some (LDAP_SUCCESS,
        { e_attrs := [{ a_desc := desc_cn, a_vals := [BerVal.str "alice"],
                        a_nvals := some [BerVal.str "alice"] }] }) ∧
    ({ e_attrs := [{ a_desc := desc_cn, a_vals := [BerVal.str "alice"],
                     a_nvals := some [BerVal.str "alice"] }] } : Entry) ≠ entry_alice := by
  decide

/-! ### A failing equality rule -/

/-- C19, the code with an equality rule that fails: the routine of `env_failing`
returns `LDAP_INVALID_SYNTAX` on every call. On the entry `cn: Alice`, adding
`cn: Bob` returns `LDAP_TYPE_OR_VALUE_EXISTS`, and deleting the value `Alice`
returns `LDAP_NO_SUCH_ATTRIBUTE`, on the first requested value and (with a
registry that fails on the second requested value only) on a later one;
neither returns `LDAP_OTHER`. -/
theorem modify_values_rule_error :
    value_match env_failing desc_cn rule_eq add_flags_normalized
        (BerVal.str "alice") (BerVal.str "bob") = (0x15, 0) ∧
    modify_add_values env_failing entry_alice
        { sm_op := LDAP_MOD_ADD, sm_desc := desc_cn,
          sm_values := some [BerVal.str "Bob"], sm_nvalues := some [BerVal.str "bob"] }
        false = some (LDAP_TYPE_OR_VALUE_EXISTS, entry_alice) ∧
    modify_delete_values env_failing entry_alice
        { sm_op := LDAP_MOD_DELETE, sm_desc := desc_cn,
          sm_values := some [BerVal.str "Alice"], sm_nvalues := some [BerVal.str "alice"] }
        false = some (LDAP_NO_SUCH_ATTRIBUTE, entry_alice) ∧
    modify_delete_values
        { call_match := fun _ _ _ _ v x =>
            if x.bv_val = .heap "b@x" then (0x15, 0)
            else (LDAP_SUCCESS, if v.bv_val = x.bv_val then 0 else 1),
          merge_fails := fun _ _ _ _ => false }
        entry_mail
        { sm_op := LDAP_MOD_DELETE, sm_desc := desc_mail,
          sm_values := some [BerVal.str "a@x", BerVal.str "b@x"], sm_nvalues := none }
        false =
      some (LDAP_NO_SUCH_ATTRIBUTE,
        { e_attrs := [{ a_desc := desc_cn, a_vals := [BerVal.str "Alice"],
                        a_nvals := some [BerVal.str "alice"] },
                      { a_desc := desc_mail, a_vals := [BerVal.str "b@x"],
                        a_nvals := none }] }) ∧
    LDAP_TYPE_OR_VALUE_EXISTS ≠ LDAP_OTHER ∧ LDAP_NO_SUCH_ATTRIBUTE ≠ LDAP_OTHER := by
  decide

/-! ### Increment, then decrement -/

/-- A second write through the pointer `attr_find` returned replaces the first. -/
theorem attr_store_store (attrs : List Attribute) (desc : AttributeDescription)
    (a1 a2 : Attribute) (h1 : a1.a_desc = desc) :
    attr_store (attr_store attrs desc a1) desc a2 = attr_store attrs desc a2 := by
  induction attrs with
  | nil => rfl
  | cons b rest ih =>
    by_cases hb : b.a_desc = desc
    · simp [attr_store, hb, h1]
    · simp [attr_store, hb, ih]

/-- The loop of `modify_increment_values` on the decimal texts of the integers
`xs`, when no sum leaves the range of a `long`: the decimal texts of the sums. -/
theorem increment_loop_canonical (k : Int) (xs : List Int)
    (h : ∀ x ∈ xs, LONG_MIN ≤ x ∧ x ≤ LONG_MAX ∧ LONG_MIN ≤ x + k ∧ x + k ≤ LONG_MAX) :
    increment_loop k (xs.map (fun x => BerVal.str (fmt_ld x))) =
      xs.map (fun x => BerVal.str (fmt_ld (x + k))) := by
  induction xs with
  | nil => rfl
  | cons x rest ih =>
    have hx := h x (List.mem_cons_self _ _)
    have hrest := ih (fun y hy => h y (List.mem_cons_of_mem _ hy))
    have hat : atol (BerVal.str (fmt_ld x)).bv_val = x := atol_fmt_ld x hx.1 hx.2.1
    simp only [List.map_cons, increment_loop, hrest, hat, long_add_exact x k hx.2.2.1 hx.2.2.2]
    rfl

/-- C15: increment, then decrement. Let attribute `d` of the entry have integer
syntax and normalized values that are the decimal texts of the integers `xs`,
each a `long` (in `a_nvals`, or in `a_vals` when the two are the same array).
Let the first increment value read as `k` and the second as `-k`, with every sum
`x + k` a `long`. Then `modify_increment_values` returns `LDAP_SUCCESS` both
times; after the first call the normalized values are the decimal texts of the
`x + k`, and after the second the entry is the one before the two calls, so
every normalized value of `d` is its original value. -/
theorem modify_increment_values_inverse (e : Entry) (m1 m2 : Modification)
    (permissive : Bool) (a : Attribute) (xs : List Int) (k : Int)
    (v1 v2 : BerVal) (rest1 rest2 : List BerVal)
    (hd : m2.sm_desc = m1.sm_desc)
    (hfind : attr_find e.e_attrs m1.sm_desc = some a)
    (hsyn : a.a_desc.ad_type.sat_syntax_oid = SLAPD_INTEGER_SYNTAX)
    (hcanon : a.a_nvals.getD a.a_vals = xs.map (fun x => BerVal.str (fmt_ld x)))
    (hv1 : m1.sm_values = some (v1 :: rest1)) (hk1 : atol v1.bv_val = k)
    (hv2 : m2.sm_values = some (v2 :: rest2)) (hk2 : atol v2.bv_val = -k)
    (hrange : ∀ x ∈ xs, LONG_MIN ≤ x ∧ x ≤ LONG_MAX ∧ LONG_MIN ≤ x + k ∧ x + k ≤ LONG_MAX) :
    ∃ e1 a1, modify_increment_values e m1 permissive = some (LDAP_SUCCESS, e1) ∧
      attr_find e1.e_attrs m1.sm_desc = some a1 ∧
      a1.a_nvals.getD a1.a_vals = xs.map (fun x => BerVal.str (fmt_ld (x + k))) ∧
      modify_increment_values e1 m2 permissive = some (LDAP_SUCCESS, e) := by
  have hdesc := attr_find_desc _ _ _ hfind
  by_cases hk : k = 0
  · subst hk
    refine ⟨e, a, ?_, hfind, by simpa using hcanon, ?_⟩
    · simp only [modify_increment_values, hfind, hsyn, hv1, hk1, if_true]
    · simp only [modify_increment_values, hd, hfind, hsyn, hv2, hk2, neg_zero, if_true]
  · have hnk : ¬ -k = 0 := by omega
    have hback : ∀ x ∈ xs.map (fun x => x + k),
        LONG_MIN ≤ x ∧ x ≤ LONG_MAX ∧ LONG_MIN ≤ x + -k ∧ x + -k ≤ LONG_MAX := by
      intro y hy
      obtain ⟨x, hx, rfl⟩ := List.mem_map.1 hy
      have := hrange x hx
      refine ⟨this.2.2.1, this.2.2.2, ?_, ?_⟩ <;> omega
    have hloop1 := increment_loop_canonical k xs hrange
    have hloop2 : increment_loop (-k) (xs.map (fun x => BerVal.str (fmt_ld (x + k)))) =
        xs.map (fun x => BerVal.str (fmt_ld x)) := by
      have h := increment_loop_canonical (-k) (xs.map (fun x => x + k)) hback
      rw [List.map_map, List.map_map] at h
      rw [show ((fun x => BerVal.str (fmt_ld x)) ∘ fun x => x + k) =
        (fun x => BerVal.str (fmt_ld (x + k))) from rfl] at h
      rw [h]
      apply List.map_congr_left
      intro x _
      simp only [Function.comp]
      rw [show x + k + -k = x by omega]
    cases hn : a.a_nvals with
    | none =>
      rw [hn] at hcanon
      simp only [Option.getD_none] at hcanon
      have ha : a = ⟨a.a_desc, xs.map (fun x => BerVal.str (fmt_ld x)), none⟩ := by
        cases a
        simp only [Attribute.mk.injEq, true_and]
        exact ⟨hcanon, hn⟩
      have hstep1 : modify_increment_values e m1 permissive =
          some (LDAP_SUCCESS, ⟨attr_store e.e_attrs m1.sm_desc
            ⟨a.a_desc, xs.map (fun x => BerVal.str (fmt_ld (x + k))), none⟩⟩) := by
        simp only [modify_increment_values, hfind, hsyn, hv1, hk1, if_true, hk, if_false, hn,
          hcanon, hloop1]
      have hfind1 := attr_find_store e.e_attrs m1.sm_desc a
        ⟨a.a_desc, xs.map (fun x => BerVal.str (fmt_ld (x + k))), none⟩ hfind hdesc
      refine ⟨_, _, hstep1, hfind1, rfl, ?_⟩
      simp only [modify_increment_values, hd, hfind1, hsyn, hv2, hk2, if_true, hnk, if_false,
        hloop2]
      rw [← ha, attr_store_store e.e_attrs m1.sm_desc
        ⟨a.a_desc, xs.map (fun x => BerVal.str (fmt_ld (x + k))), none⟩ a hdesc,
        attr_store_self _ _ _ hfind]
    | some nvals =>
      rw [hn] at hcanon
      simp only [Option.getD_some] at hcanon
      have ha : a = ⟨a.a_desc, a.a_vals, some (xs.map (fun x => BerVal.str (fmt_ld x)))⟩ := by
        cases a
        simp only [Attribute.mk.injEq, true_and]
        rw [← hcanon]
        exact hn
      have hstep1 : modify_increment_values e m1 permissive =
          some (LDAP_SUCCESS, ⟨attr_store e.e_attrs m1.sm_desc
            ⟨a.a_desc, a.a_vals, some (xs.map (fun x => BerVal.str (fmt_ld (x + k))))⟩⟩) := by
        simp only [modify_increment_values, hfind, hsyn, hv1, hk1, if_true, hk, if_false, hn,
          hcanon, hloop1]
      have hfind1 := attr_find_store e.e_attrs m1.sm_desc a
        ⟨a.a_desc, a.a_vals, some (xs.map (fun x => BerVal.str (fmt_ld (x + k))))⟩ hfind hdesc
      refine ⟨_, _, hstep1, hfind1, rfl, ?_⟩
      simp only [modify_increment_values, hd, hfind1, hsyn, hv2, hk2, if_true, hnk, if_false,
        hloop2]
      rw [← ha, attr_store_store e.e_attrs m1.sm_desc
        ⟨a.a_desc, a.a_vals, some (xs.map (fun x => BerVal.str (fmt_ld (x + k))))⟩ a hdesc,
        attr_store_self _ _ _ hfind]

/-- Witness of C15: `uidNumber` with normalized values `100, 200`, incremented by
`5` and then by `-5`: both calls succeed and the entry is as before. -/
theorem modify_increment_values_inverse_witness :
    ∃ e1 a1, modify_increment_values entry_uid
        { sm_op := LDAP_MOD_INCREMENT, sm_desc := desc_uidNumber,
          sm_values := some [BerVal.str "5"], sm_nvalues := none } false =
        some (LDAP_SUCCESS, e1) ∧
      attr_find e1.e_attrs desc_uidNumber = some a1 ∧
      a1.a_nvals.getD a1.a_vals = [BerVal.str "105", BerVal.str "205"] ∧
      modify_increment_values e1
        { sm_op := LDAP_MOD_INCREMENT, sm_desc := desc_uidNumber,
          sm_values := some [BerVal.str "-5"], sm_nvalues := none } false =
        some (LDAP_SUCCESS, entry_uid) := by
  obtain ⟨e1, a1, h1, h2, h3, h4⟩ :=
    modify_increment_values_inverse entry_uid
      { sm_op := LDAP_MOD_INCREMENT, sm_desc := desc_uidNumber,
        sm_values := some [BerVal.str "5"], sm_nvalues := none }
      { sm_op := LDAP_MOD_INCREMENT, sm_desc := desc_uidNumber,
        sm_values := some [BerVal.str "-5"], sm_nvalues := none } false
      { a_desc := desc_uidNumber, a_vals := [BerVal.str "0100", BerVal.str "0200"],
        a_nvals := some [BerVal.str "100", BerVal.str "200"] }
      [100, 200] 5 (BerVal.str "5") (BerVal.str "-5") [] []
      rfl (by decide) (by decide) (by decide) rfl (by decide) rfl (by decide) (by decide)
  refine ⟨e1, a1, h1, h2, ?_, h4⟩
  rw [h3]
  decide

/-! ### No empty attribute after a delete -/

/-- The inner loop of `modify_delete_values` on arrays that are marked alike,
whatever the equality rule reports. When it returns, the arrays stay marked
alike, and they are as before when no value was found. It returns when the rule
reports no match on a slot that is already marked. -/
theorem delete_scan_total (env : Env) (f : Nat) (syn : SlapSyntax) (mr : MatchingRule)
    (mv : BerVal) (mnv : Option BerVal) (vals : List BerVal) :
    ∀ (nvals : Option (List BerVal)) (rc : Int), Marked vals nvals →
      (∀ r, delete_scan env f syn mr mv mnv vals nvals rc = some r →
        r.nvals.isSome = nvals.isSome ∧ Marked r.vals r.nvals ∧
        (r.found = false → r.vals = vals ∧ r.nvals = nvals)) ∧
      ((∀ row : BerVal × BerVal, row.1.bv_val = .dummy → row.2.bv_val = .dummy →
          ¬ ((row_call env f syn mr row (mv, mnv)).1 = LDAP_SUCCESS ∧
             (row_call env f syn mr row (mv, mnv)).2 = 0)) →
        ∃ r, delete_scan env f syn mr mv mnv vals nvals rc = some r) := by
  induction vals with
  | nil =>
    intro nvals rc hm
    have h0 : delete_scan env f syn mr mv mnv [] nvals rc = some ⟨rc, false, [], nvals⟩ := by
      simp [delete_scan]
    refine ⟨?_, fun _ => ⟨_, h0⟩⟩
    intro r hr
    rw [h0] at hr
    cases hr
    exact ⟨rfl, hm, fun _ => ⟨rfl, rfl⟩⟩
  | cons v vs ih =>
    intro nvals rc hm
    cases nvals with
    | none =>
      rw [delete_scan_cons_none]
      by_cases h1 : (row_call env f syn mr (v, v) (mv, mnv)).1 ≠ LDAP_SUCCESS
      · rw [if_pos h1]
        refine ⟨?_, fun _ => ⟨_, rfl⟩⟩
        intro r hr
        cases hr
        exact ⟨rfl, trivial, fun _ => ⟨rfl, rfl⟩⟩
      · rw [if_neg h1]
        by_cases h2 : (row_call env f syn mr (v, v) (mv, mnv)).2 ≠ 0
        · rw [if_pos h2]
          obtain ⟨ih1, ih2⟩ := ih none (row_call env f syn mr (v, v) (mv, mnv)).1 trivial
          constructor
          · intro r' hr'
            cases hrec : delete_scan env f syn mr mv mnv vs none
                (row_call env f syn mr (v, v) (mv, mnv)).1 with
            | none => rw [hrec] at hr'; cases hr'
            | some r =>
              rw [hrec] at hr'
              obtain ⟨hn, _, hu⟩ := ih1 r hrec
              have hnn : r.nvals = none := by
                cases h : r.nvals with
                | none => rfl
                | some x => rw [h] at hn; simp at hn
              cases hr'
              refine ⟨hn, ?_, ?_⟩
              · show Marked (v :: r.vals) r.nvals
                rw [hnn]; trivial
              · intro hf
                have := hu hf
                exact ⟨by show v :: r.vals = v :: vs; rw [this.1], hnn⟩
          · intro hd
            obtain ⟨r, hr⟩ := ih2 hd
            rw [hr]
            exact ⟨_, rfl⟩
        · rw [if_neg h2]
          by_cases hv : v.bv_val = .dummy
          · rw [if_pos hv]
            refine ⟨fun r hr => (by cases hr), ?_⟩
            intro hd
            exact absurd ⟨not_not.1 h1, not_not.1 h2⟩ (hd (v, v) hv hv)
          · rw [if_neg hv]
            refine ⟨?_, fun _ => ⟨_, rfl⟩⟩
            intro r hr
            cases hr
            exact ⟨rfl, trivial, fun h => by cases h⟩
    | some ns =>
      have hm1 : List.Forall₂ (fun v n => v.bv_val = .dummy ↔ n.bv_val = .dummy) (v :: vs) ns := hm
      cases hm1 with
      | @cons _ n _ ns1 hvn hrest =>
        rw [delete_scan_cons_some]
        have hmk : Marked vs (some ns1) := hrest
        by_cases h1 : (row_call env f syn mr (v, n) (mv, mnv)).1 ≠ LDAP_SUCCESS
        · rw [if_pos h1]
          refine ⟨?_, fun _ => ⟨_, rfl⟩⟩
          intro r hr
          cases hr
          exact ⟨rfl, hm, fun _ => ⟨rfl, rfl⟩⟩
        · rw [if_neg h1]
          by_cases h2 : (row_call env f syn mr (v, n) (mv, mnv)).2 ≠ 0
          · rw [if_pos h2]
            obtain ⟨ih1, ih2⟩ := ih (some ns1) (row_call env f syn mr (v, n) (mv, mnv)).1 hmk
            constructor
            · intro r' hr'
              cases hrec : delete_scan env f syn mr mv mnv vs (some ns1)
                  (row_call env f syn mr (v, n) (mv, mnv)).1 with
              | none => rw [hrec] at hr'; cases hr'
              | some r =>
                rw [hrec] at hr'
                obtain ⟨hn, hmr, hu⟩ := ih1 r hrec
                cases hr'
                cases hrn : r.nvals with
                | none => rw [hrn] at hn; simp at hn
                | some rns =>
                  rw [hrn] at hmr
                  refine ⟨?_, ?_, ?_⟩
                  · simp [hrn]
                  · show Marked (v :: r.vals) (some (n :: rns))
                    exact List.Forall₂.cons hvn hmr
                  · intro hf
                    have := hu hf
                    refine ⟨by show v :: r.vals = v :: vs; rw [this.1], ?_⟩
                    show some (n :: rns) = some (n :: ns1)
                    have h2 := this.2
                    rw [hrn] at h2
                    cases h2
                    rfl
            · intro hd
              obtain ⟨r, hr⟩ := ih2 hd
              rw [hr]
              exact ⟨_, rfl⟩
          · rw [if_neg h2]
            by_cases hv : v.bv_val = .dummy
            · rw [if_pos hv]
              refine ⟨fun r hr => (by cases hr), ?_⟩
              intro hd
              exact absurd ⟨not_not.1 h1, not_not.1 h2⟩ (hd (v, n) hv (hvn.1 hv))
            · have hnl : n.bv_val ≠ .dummy := fun h => hv (hvn.2 h)
              rw [if_neg hv, if_neg hnl]
              refine ⟨?_, fun _ => ⟨_, rfl⟩⟩
              intro r hr
              cases hr
              refine ⟨rfl, ?_, fun h => by cases h⟩
              show List.Forall₂ (fun v n => v.bv_val = .dummy ↔ n.bv_val = .dummy)
                (v.mark :: vs) (n.mark :: ns1)
              exact List.Forall₂.cons ⟨fun _ => rfl, fun _ => rfl⟩ hrest

/-- The outer loop of `modify_delete_values` on arrays that are marked alike,
with `sm_nvalues`, if given, as long as `sm_values`. When it returns, the arrays
stay marked alike, and when it is left by `goto return_results` they are as
before and the return code is `LDAP_NO_SUCH_ATTRIBUTE`. It returns when the rule
reports no match of a requested value on a slot that is already marked. -/
theorem delete_loop_total (env : Env) (f : Nat) (syn : SlapSyntax) (mr : MatchingRule)
    (values : List BerVal) :
    ∀ (i : Nat) (nvalues : Option (List BerVal)) (vals : List BerVal)
      (nvals : Option (List BerVal)) (rc : Int),
      (∀ ns, nvalues = some ns → ns.length = values.length) → Marked vals nvals →
      (∀ l, delete_loop env f syn mr i values nvalues vals nvals rc = some l →
        l.nvals.isSome = nvals.isSome ∧ Marked l.vals l.nvals ∧
        (l.skip_compact = true →
          l.vals = vals ∧ l.nvals = nvals ∧ l.rc = LDAP_NO_SUCH_ATTRIBUTE ∧ i = 0 ∧
            values ≠ [])) ∧
      ((∀ row : BerVal × BerVal, row.1.bv_val = .dummy → row.2.bv_val = .dummy →
          ∀ req ∈ requests values nvalues,
            ¬ ((row_call env f syn mr row req).1 = LDAP_SUCCESS ∧
               (row_call env f syn mr row req).2 = 0)) →
        ∃ l, delete_loop env f syn mr i values nvalues vals nvals rc = some l) := by
  induction values with
  | nil =>
    intro i nvalues vals nvals rc _ hm
    have h0 : delete_loop env f syn mr i [] nvalues vals nvals rc =
        some ⟨rc, vals, nvals, false⟩ := by simp [delete_loop]
    refine ⟨?_, fun _ => ⟨_, h0⟩⟩
    intro l hl
    rw [h0] at hl
    cases hl
    exact ⟨rfl, hm, fun h => by cases h⟩
  | cons mv rest ih =>
    intro i nvalues vals nvals rc hlen hm
    obtain ⟨mnv, hslot, hlen1, hreq⟩ : ∃ mnv, cur_slot nvalues = some mnv ∧
        (∀ ns, nvalues.map List.tail = some ns → ns.length = rest.length) ∧
        requests (mv :: rest) nvalues = (mv, mnv) :: requests rest (nvalues.map List.tail) := by
      cases nvalues with
      | none => exact ⟨none, rfl, fun ns h => (by cases h), rfl⟩
      | some ns =>
        cases ns with
        | nil => exact absurd (hlen [] rfl) (by simp)
        | cons n ns1 =>
          refine ⟨some n, rfl, ?_, rfl⟩
          intro ns2 h
          have h1 := hlen (n :: ns1) rfl
          simp only [Option.map_some', List.tail_cons, Option.some.injEq] at h
          rw [← h]
          simpa using h1
    obtain ⟨hs1, hs2⟩ := delete_scan_total env f syn mr mv mnv vals nvals rc hm
    have hstep : ∀ r, delete_scan env f syn mr mv mnv vals nvals rc = some r →
        delete_loop env f syn mr i (mv :: rest) nvalues vals nvals rc =
          if r.found = false then
            if i > 0 then some ⟨LDAP_NO_SUCH_ATTRIBUTE, r.vals, r.nvals, false⟩
            else some ⟨LDAP_NO_SUCH_ATTRIBUTE, r.vals, r.nvals, true⟩
          else delete_loop env f syn mr (i + 1) rest (nvalues.map List.tail) r.vals r.nvals
            r.rc := by
      intro r hr
      simp only [delete_loop, hslot, hr]
    constructor
    · intro l hl
      cases hr : delete_scan env f syn mr mv mnv vals nvals rc with
      | none => simp only [delete_loop, hslot, hr] at hl; cases hl
      | some r =>
        rw [hstep r hr] at hl
        obtain ⟨hn, hmr, hu⟩ := hs1 r hr
        cases hfound : r.found with
        | false =>
          rw [hfound] at hl
          simp only [if_true] at hl
          have hu1 := hu hfound
          by_cases hi : i > 0
          · rw [if_pos hi] at hl
            cases hl
            exact ⟨hn, hmr, fun h => by cases h⟩
          · rw [if_neg hi] at hl
            cases hl
            exact ⟨hn, hmr, fun _ => ⟨hu1.1, hu1.2, rfl, by omega, by simp⟩⟩
        | true =>
          rw [hfound] at hl
          simp only [Bool.true_eq_false, if_false] at hl
          obtain ⟨hln, hlm, hls⟩ :=
            (ih (i + 1) (nvalues.map List.tail) r.vals r.nvals r.rc hlen1 hmr).1 l hl
          refine ⟨by rw [hln, hn], hlm, ?_⟩
          intro hs
          exact absurd (hls hs).2.2.2.1 (by omega)
    · intro hd
      rw [hreq] at hd
      obtain ⟨r, hr⟩ := hs2 (fun row h1 h2 => hd row h1 h2 _ (List.mem_cons_self _ _))
      rw [hstep r hr]
      obtain ⟨_, hmr, _⟩ := hs1 r hr
      cases hfound : r.found with
      | false =>
        simp only [if_true]
        by_cases hi : i > 0
        · rw [if_pos hi]; exact ⟨_, rfl⟩
        · rw [if_neg hi]; exact ⟨_, rfl⟩
      | true =>
        simp only [Bool.true_eq_false, if_false]
        exact (ih (i + 1) (nvalues.map List.tail) r.vals r.nvals r.rc hlen1 hmr).2
          (fun row h1 h2 req hq => hd row h1 h2 req (List.mem_cons_of_mem _ hq))

/-- What `modify_delete_values` returns once its outer loop has returned with
arrays that are marked alike. -/
theorem modify_delete_values_of_loop (env : Env) (e : Entry) (mod : Modification)
    (permissive : Bool) (a : Attribute) (values : List BerVal) (mr : MatchingRule) (f : Nat)
    (l : DeleteLoop)
    (hvals : mod.sm_values = some values)
    (hmr : mod.sm_desc.ad_type.sat_equality = some mr) (hf : mr.smr_match = some f)
    (hfind : attr_find e.e_attrs mod.sm_desc = some a)
    (hl : delete_loop env f a.a_desc.ad_type.sat_syntax mr 0 values mod.sm_nvalues
      a.a_vals a.a_nvals LDAP_SUCCESS = some l)
    (hlm : Marked l.vals l.nvals)
    (hls : l.skip_compact = true →
      l.vals = a.a_vals ∧ l.nvals = a.a_nvals ∧ l.rc = LDAP_NO_SUCH_ATTRIBUTE ∧ 0 = 0 ∧
        values ≠ []) :
    ∃ rc e', modify_delete_values env e mod permissive = some (rc, e') ∧
      (∀ a', attr_find e'.e_attrs mod.sm_desc = some a' → a'.a_vals = [] →
        e' = e ∧ a.a_vals = []) ∧
      (l.skip_compact = true → rc = LDAP_NO_SUCH_ATTRIBUTE ∧ e' = e ∧ values ≠ []) ∧
      (l.skip_compact = false →
        rc = l.rc ∧
        (live l.vals l.nvals = [] → attr_find e'.e_attrs mod.sm_desc = none) ∧
        (live l.vals l.nvals ≠ [] →
          ∃ a', attr_find e'.e_attrs mod.sm_desc = some a' ∧
            a'.a_vals = (live l.vals l.nvals).map (fun r => r.1) ∧ a'.a_vals ≠ [])) := by
  have hdesc := attr_find_desc _ _ _ hfind
  have hsame : ∀ a', attr_find e.e_attrs mod.sm_desc = some a' → a'.a_vals = [] →
      e = e ∧ a.a_vals = [] := by
    intro a' h1 h2
    rw [hfind] at h1
    cases h1
    exact ⟨rfl, h2⟩
  have hst : ∀ vs ns, (attr_store e.e_attrs mod.sm_desc ⟨a.a_desc, vs, ns⟩).filter
      (fun b => b.a_desc ≠ mod.sm_desc) = e.e_attrs.filter (fun b => b.a_desc ≠ mod.sm_desc) :=
    fun vs ns => attr_store_filter _ _ _ hdesc
  have hfs : ∀ vs ns, attr_find (attr_store e.e_attrs mod.sm_desc ⟨a.a_desc, vs, ns⟩)
      mod.sm_desc = some ⟨a.a_desc, vs, ns⟩ :=
    fun vs ns => attr_find_store _ _ _ _ hfind hdesc
  cases hskip : l.skip_compact with
  | true =>
    obtain ⟨h1, h2, h3, _, h5⟩ := hls hskip
    have hres : modify_delete_values env e mod permissive =
        some (LDAP_NO_SUCH_ATTRIBUTE, e) := by
      simp only [modify_delete_values, hvals, hmr, hf, hfind, hl, hskip, if_true, h1, h2, h3]
      rw [attr_store_self _ _ _ hfind]
    exact ⟨_, _, hres, hsame, fun _ => ⟨rfl, rfl, h5⟩, fun h => (by cases h)⟩
  | false =>
    have hcomp := delete_compact_spec l.vals l.nvals [] (l.nvals.map (fun _ => [])) hlm
      (by simp)
    simp only [List.nil_append, Option.map_map] at hcomp
    by_cases hempty : live l.vals l.nvals = []
    · have hres : modify_delete_values env e mod permissive =
          some (l.rc, ⟨e.e_attrs.filter (fun b => b.a_desc ≠ mod.sm_desc)⟩) := by
        simp only [modify_delete_values, hvals, hmr, hf, hfind, hl, hskip,
          Bool.false_eq_true, if_false, hcomp, hempty, List.map_nil, if_true,
          attr_delete_snd, attr_delete_fst]
        simp only [hst, hfs]
        simp [LDAP_SUCCESS]
      have hnone : attr_find (e.e_attrs.filter (fun b => b.a_desc ≠ mod.sm_desc))
          mod.sm_desc = none := attr_find_filter_ne _ _
      refine ⟨_, _, hres, ?_, fun h => (by cases h), fun _ => ⟨rfl, fun _ => hnone, ?_⟩⟩
      · intro a' h1
        rw [hnone] at h1
        cases h1
      · intro h
        exact absurd hempty h
    · have hne : (live l.vals l.nvals).map (fun r => r.1) ≠ [] := by
        simpa using hempty
      have hres : modify_delete_values env e mod permissive =
          some (l.rc, ⟨attr_store e.e_attrs mod.sm_desc
            ⟨a.a_desc, (live l.vals l.nvals).map (fun r => r.1),
              l.nvals.map ((fun x => x ++ (live l.vals l.nvals).map (fun r => r.2)) ∘
                fun _ => [])⟩⟩) := by
        simp only [modify_delete_values, hvals, hmr, hf, hfind, hl, hskip,
          Bool.false_eq_true, if_false, hcomp, hne]
      have hfound := hfs ((live l.vals l.nvals).map (fun r => r.1))
        (l.nvals.map ((fun x => x ++ (live l.vals l.nvals).map (fun r => r.2)) ∘
          fun _ => []))
      refine ⟨_, _, hres, ?_, fun h => (by cases h),
        fun _ => ⟨rfl, fun h => absurd h hempty, fun _ => ⟨_, hfound, rfl, hne⟩⟩⟩
      intro a' h1 h2
      rw [hfound] at h1
      cases h1
      exact absurd h2 hne

/-- A match on a slot that is already marked. With a rule that reports a match on
every call, the request `a@x, a@x` on `mail: a@x, b@x` marks slot 0 for the
first value and matches the marked slot 0 again for the second, where the code
calls `free` on the address of `dummy`: the call has no defined result. -/
theorem modify_delete_values_marked_match :
    modify_delete_values
        { call_match := fun _ _ _ _ _ _ => (LDAP_SUCCESS, 0),
          merge_fails := fun _ _ _ _ => false }
        entry_mail
        { sm_op := LDAP_MOD_DELETE, sm_desc := desc_mail,
          sm_values := some [BerVal.str "a@x", BerVal.str "a@x"], sm_nvalues := none }
        false = none := by
  decide

/-- C13 as stated fails in its closing sentence: the entry holds `cn` with an
empty value list; deleting the value `Alice` of `cn` misses at the first
requested value, so `modify_delete_values` returns `LDAP_NO_SUCH_ATTRIBUTE`
before the compaction, and the entry returned still holds `cn` with an empty
value list. -/
theorem modify_delete_values_empty_stays :
    modify_delete_values env_exact
        { e_attrs := [{ a_desc := desc_cn, a_vals := [], a_nvals := none }] }
        { sm_op := LDAP_MOD_DELETE, sm_desc := desc_cn,
          sm_values := some [BerVal.str "Alice"], sm_nvalues := none } false =
      some (LDAP_NO_SUCH_ATTRIBUTE,
        { e_attrs := [{ a_desc := desc_cn, a_vals := [], a_nvals := none }] }) ∧
    attr_find
        ({ e_attrs := [{ a_desc := desc_cn, a_vals := [], a_nvals := none }] } : Entry).e_attrs
        desc_cn =
      some { a_desc := desc_cn, a_vals := [], a_nvals := none } := by
  decide

/-- C13, amended: a delete leaves no attribute empty that had a value. For a
Delete with a value list on an entry that holds the attribute (well formed, with
`sm_nvalues`, when given, as long as `sm_values`): `modify_delete_values`
returns when the equality rule reports no match of a requested value on a slot
already marked as deleted (on such a match the code calls `free` on the address
of `dummy`), whether or not the rule fails on other calls. Whenever it returns:
if the outer loop reached the compaction (it was not left by
`goto return_results`, which happens only for a miss at the first requested
value, with `LDAP_NO_SUCH_ATTRIBUTE` and the entry as it was), then an attribute
whose slots are all marked is removed from the entry, whatever the return code,
and otherwise the attribute remains with the unmarked values, at least one; and
the entry returned holds the attribute with an empty value list only when the
attribute was empty before the call and the entry is returned as it was. -/
theorem modify_delete_values_no_empty (env : Env) (e : Entry) (mod : Modification)
    (permissive : Bool) (a : Attribute) (values : List BerVal)
    (hvals : mod.sm_values = some values)
    (hfind : attr_find e.e_attrs mod.sm_desc = some a)
    (hwf : a.wf)
    (hlen : ∀ ns, mod.sm_nvalues = some ns → ns.length = values.length) :
    ((∀ mr f, mod.sm_desc.ad_type.sat_equality = some mr → mr.smr_match = some f →
        ∀ row : BerVal × BerVal, row.1.bv_val = .dummy → row.2.bv_val = .dummy →
          ∀ req ∈ requests values mod.sm_nvalues,
            ¬ ((row_call env f mod.sm_desc.ad_type.sat_syntax mr row req).1 = LDAP_SUCCESS ∧
               (row_call env f mod.sm_desc.ad_type.sat_syntax mr row req).2 = 0)) →
      ∃ rc e', modify_delete_values env e mod permissive = some (rc, e')) ∧
    (∀ rc e', modify_delete_values env e mod permissive = some (rc, e') →
      (∀ a', attr_find e'.e_attrs mod.sm_desc = some a' → a'.a_vals = [] →
        e' = e ∧ a.a_vals = []) ∧
      (a.a_vals ≠ [] → ∀ a', attr_find e'.e_attrs mod.sm_desc = some a' → a'.a_vals ≠ []) ∧
      (∀ mr f, mod.sm_desc.ad_type.sat_equality = some mr → mr.smr_match = some f →
        ∃ l, delete_loop env f a.a_desc.ad_type.sat_syntax mr 0 values mod.sm_nvalues
            a.a_vals a.a_nvals LDAP_SUCCESS = some l ∧
          (l.skip_compact = true → rc = LDAP_NO_SUCH_ATTRIBUTE ∧ e' = e ∧ values ≠ []) ∧
          (l.skip_compact = false →
            rc = l.rc ∧
            (live l.vals l.nvals = [] → attr_find e'.e_attrs mod.sm_desc = none) ∧
            (live l.vals l.nvals ≠ [] →
              ∃ a', attr_find e'.e_attrs mod.sm_desc = some a' ∧
                a'.a_vals = (live l.vals l.nvals).map (fun r => r.1) ∧ a'.a_vals ≠ [])))) := by
  have hdesc := attr_find_desc _ _ _ hfind
  have hsame : ∀ a', attr_find e.e_attrs mod.sm_desc = some a' → a'.a_vals = [] →
      e = e ∧ a.a_vals = [] := by
    intro a' h1 h2
    rw [hfind] at h1
    cases h1
    exact ⟨rfl, h2⟩
  have hp2 : ∀ e' : Entry,
      (∀ a', attr_find e'.e_attrs mod.sm_desc = some a' → a'.a_vals = [] →
        e' = e ∧ a.a_vals = []) →
      a.a_vals ≠ [] → ∀ a', attr_find e'.e_attrs mod.sm_desc = some a' → a'.a_vals ≠ [] :=
    fun e' h1 hne a' ha' h => hne (h1 a' ha' h).2
  cases hmr : mod.sm_desc.ad_type.sat_equality with
  | none =>
    have hres : modify_delete_values env e mod permissive =
        some (LDAP_INAPPROPRIATE_MATCHING, e) := by
      simp only [modify_delete_values, hvals, hmr]
    refine ⟨fun _ => ⟨_, _, hres⟩, ?_⟩
    intro rc e' h
    rw [hres] at h
    cases h
    exact ⟨hsame, hp2 e hsame, fun mr f h => (by cases h)⟩
  | some mr =>
    cases hf : mr.smr_match with
    | none =>
      have hres : modify_delete_values env e mod permissive =
          some (LDAP_INAPPROPRIATE_MATCHING, e) := by
        simp only [modify_delete_values, hvals, hmr, hf]
      refine ⟨fun _ => ⟨_, _, hres⟩, ?_⟩
      intro rc e' h
      rw [hres] at h
      cases h
      refine ⟨hsame, hp2 e hsame, ?_⟩
      intro mr1 f1 h1 h2
      cases h1
      rw [hf] at h2
      cases h2
    | some f =>
      obtain ⟨hsound, hret⟩ :=
        delete_loop_total env f a.a_desc.ad_type.sat_syntax mr values 0 mod.sm_nvalues
          a.a_vals a.a_nvals LDAP_SUCCESS hlen (a.wf_marked hwf)
      constructor
      · intro hd
        obtain ⟨l, hl⟩ := hret (by rw [hdesc]; exact hd mr f rfl hf)
        obtain ⟨_, hlm, hls⟩ := hsound l hl
        obtain ⟨rc, e', h, _⟩ := modify_delete_values_of_loop env e mod permissive a values
          mr f l hvals hmr hf hfind hl hlm hls
        exact ⟨rc, e', h⟩
      · intro rc e' h
        cases hl : delete_loop env f a.a_desc.ad_type.sat_syntax mr 0 values mod.sm_nvalues
            a.a_vals a.a_nvals LDAP_SUCCESS with
        | none =>
          simp only [modify_delete_values, hvals, hmr, hf, hfind, hl] at h
          cases h
        | some l =>
          obtain ⟨_, hlm, hls⟩ := hsound l hl
          obtain ⟨rc0, e0, h0, q1, q2, q3⟩ := modify_delete_values_of_loop env e mod
            permissive a values mr f l hvals hmr hf hfind hl hlm hls
          rw [h0] at h
          cases h
          refine ⟨q1, hp2 _ q1, ?_⟩
          intro mr1 f1 h1 h2
          cases h1
          rw [hf] at h2
          cases h2
          exact ⟨l, hl, q2, q3⟩

/-- Witness of C13, amended: `mail: a@x, b@x` with the request to delete
`a@x, b@x, c@x`: the call returns, with `LDAP_NO_SUCH_ATTRIBUTE` for the missing
third value; both values are deleted, and the entry no longer holds `mail`. -/
theorem modify_delete_values_no_empty_witness :
    ∃ rc e', modify_delete_values env_exact entry_mail
        { sm_op := LDAP_MOD_DELETE, sm_desc := desc_mail,
          sm_values := some [BerVal.str "a@x", BerVal.str "b@x", BerVal.str "c@x"],
          sm_nvalues := none } false = some (rc, e') ∧
      rc = LDAP_NO_SUCH_ATTRIBUTE ∧ attr_find e'.e_attrs desc_mail = none := by
  have hthm := modify_delete_values_no_empty env_exact entry_mail
      { sm_op := LDAP_MOD_DELETE, sm_desc := desc_mail,
        sm_values := some [BerVal.str "a@x", BerVal.str "b@x", BerVal.str "c@x"],
        sm_nvalues := none } false
      { a_desc := desc_mail, a_vals := [BerVal.str "a@x", BerVal.str "b@x"], a_nvals := none }
      [BerVal.str "a@x", BerVal.str "b@x", BerVal.str "c@x"] rfl (by decide)
      (by simp [Attribute.wf, BerVal.str]) (by intro ns h; cases h)
  obtain ⟨rc, e', h1⟩ := hthm.1 (by
    intro mr f hm hf row hr1 hr2 req hreq hc
    cases hm
    cases hf
    exact (env_exact_dummy _ _ _ (by simp [BerVal.str]) (by intro ns h; cases h)
      row hr1 hr2 req hreq).2 hc.2)
  obtain ⟨_, _, h4⟩ := hthm.2 rc e' h1
  obtain ⟨l, hl, _, h6⟩ := h4 rule_eq 0 rfl rfl
  have hl2 : delete_loop env_exact 0 desc_mail.ad_type.sat_syntax rule_eq 0
      [BerVal.str "a@x", BerVal.str "b@x", BerVal.str "c@x"] none
      [BerVal.str "a@x", BerVal.str "b@x"] none LDAP_SUCCESS =
      some ⟨LDAP_NO_SUCH_ATTRIBUTE, [(BerVal.str "a@x").mark, (BerVal.str "b@x").mark], none,
        false⟩ := by decide
  have hl3 : l = ⟨LDAP_NO_SUCH_ATTRIBUTE, [(BerVal.str "a@x").mark, (BerVal.str "b@x").mark],
      none, false⟩ := Option.some.inj (hl.symm.trans hl2)
  subst hl3
  obtain ⟨h7, h8, _⟩ := h6 rfl
  exact ⟨rc, e', h1, h7, h8 (by decide)⟩

end Slapd
